import Mathlib

/-!
# The external scanner of tree-sitter-vue3

A shallow embedding of `src/tree_sitter_html/tag.h`, `src/tree_sitter_html/scanner.cc`
and `src/scanner.c`, followed by theorems about it.

Modelling conventions.

* A character (`lexer->lookahead`, an `int32_t` code point) is a `Nat`; the value `0` is what the
  lexer shows at the end of the input.
* The `<wctype.h>` functions are those of the "C" locale: only ASCII characters are classified,
  and `towupper` changes only `a`..`z`.
* A `char` is a `Nat` below 256; the cast `(char)x` is `x % 256`.
* A `TagType` is the numeric value of the enumerator.
* `Tag.custom_tag_name` holds the first `custom_tag_name_length` bytes of the C array; no
  function of the program reads the array beyond them.
* The tag stack is the list `data[0] .. data[size - 1]`; its top is the last element.
  `realloc` is taken to succeed.
-/

namespace Vue3Scanner

/-! ## Characters -/

/-- The code point of a character literal. -/
def ch (c : Char) : Nat := c.toNat

/-- The code points of a string literal. -/
def str (s : String) : List Nat := s.toList.map Char.toNat

/-- `iswspace` in the "C" locale: space, `\t`, `\n`, `\v`, `\f`, `\r`. -/
def iswspace (c : Nat) : Bool := c == 32 || (9 ≤ c && c ≤ 13)

/-- `iswalpha` in the "C" locale. -/
def iswalpha (c : Nat) : Bool := (65 ≤ c && c ≤ 90) || (97 ≤ c && c ≤ 122)

/-- `iswalnum` in the "C" locale. -/
def iswalnum (c : Nat) : Bool := iswalpha c || (48 ≤ c && c ≤ 57)

/-- `towupper` in the "C" locale. -/
def towupper (c : Nat) : Nat := if 97 ≤ c && c ≤ 122 then c - 32 else c

/-- The cast `(char)x`, as the byte it stores. -/
def to_char (c : Nat) : Nat := c % 256

/-- The bytes of a C string: those before the first NUL. -/
def c_str (buffer : List Nat) : List Nat := buffer.takeWhile (fun b => b != 0)

/-! ## tag.h -/

def TREE_SITTER_HTML_MAX_CUSTOM_TAG_NAME_LENGTH : Nat := 255

abbrev TagType := Nat

namespace TagType

abbrev AREA : TagType := 0
abbrev BASE : TagType := 1
abbrev BASEFONT : TagType := 2
abbrev BGSOUND : TagType := 3
abbrev BR : TagType := 4
abbrev COL : TagType := 5
abbrev COMMAND : TagType := 6
abbrev EMBED : TagType := 7
abbrev FRAME : TagType := 8
abbrev HR : TagType := 9
abbrev IMAGE : TagType := 10
abbrev IMG : TagType := 11
abbrev INPUT : TagType := 12
abbrev ISINDEX : TagType := 13
abbrev KEYGEN : TagType := 14
abbrev LINK : TagType := 15
abbrev MENUITEM : TagType := 16
abbrev META : TagType := 17
abbrev NEXTID : TagType := 18
abbrev PARAM : TagType := 19
abbrev SOURCE : TagType := 20
abbrev TRACK : TagType := 21
abbrev WBR : TagType := 22
abbrev END_OF_VOID_TAGS : TagType := 23
abbrev A : TagType := 24
abbrev ABBR : TagType := 25
abbrev ADDRESS : TagType := 26
abbrev ARTICLE : TagType := 27
abbrev ASIDE : TagType := 28
abbrev AUDIO : TagType := 29
abbrev B : TagType := 30
abbrev BDI : TagType := 31
abbrev BDO : TagType := 32
abbrev BLOCKQUOTE : TagType := 33
abbrev BODY : TagType := 34
abbrev BUTTON : TagType := 35
abbrev CANVAS : TagType := 36
abbrev CAPTION : TagType := 37
abbrev CITE : TagType := 38
abbrev CODE : TagType := 39
abbrev COLGROUP : TagType := 40
abbrev DATA : TagType := 41
abbrev DATALIST : TagType := 42
abbrev DD : TagType := 43
abbrev DEL : TagType := 44
abbrev DETAILS : TagType := 45
abbrev DFN : TagType := 46
abbrev DIALOG : TagType := 47
abbrev DIV : TagType := 48
abbrev DL : TagType := 49
abbrev DT : TagType := 50
abbrev EM : TagType := 51
abbrev FIELDSET : TagType := 52
abbrev FIGCAPTION : TagType := 53
abbrev FIGURE : TagType := 54
abbrev FOOTER : TagType := 55
abbrev FORM : TagType := 56
abbrev H1 : TagType := 57
abbrev H2 : TagType := 58
abbrev H3 : TagType := 59
abbrev H4 : TagType := 60
abbrev H5 : TagType := 61
abbrev H6 : TagType := 62
abbrev HEAD : TagType := 63
abbrev HEADER : TagType := 64
abbrev HGROUP : TagType := 65
abbrev HTML : TagType := 66
abbrev I : TagType := 67
abbrev IFRAME : TagType := 68
abbrev INS : TagType := 69
abbrev KBD : TagType := 70
abbrev LABEL : TagType := 71
abbrev LEGEND : TagType := 72
abbrev LI : TagType := 73
abbrev MAIN : TagType := 74
abbrev MAP : TagType := 75
abbrev MARK : TagType := 76
abbrev MATH : TagType := 77
abbrev MENU : TagType := 78
abbrev METER : TagType := 79
abbrev NAV : TagType := 80
abbrev NOSCRIPT : TagType := 81
abbrev OBJECT : TagType := 82
abbrev OL : TagType := 83
abbrev OPTGROUP : TagType := 84
abbrev OPTION : TagType := 85
abbrev OUTPUT : TagType := 86
abbrev P : TagType := 87
abbrev PICTURE : TagType := 88
abbrev PRE : TagType := 89
abbrev PROGRESS : TagType := 90
abbrev Q : TagType := 91
abbrev RB : TagType := 92
abbrev RP : TagType := 93
abbrev RT : TagType := 94
abbrev RTC : TagType := 95
abbrev RUBY : TagType := 96
abbrev S : TagType := 97
abbrev SAMP : TagType := 98
abbrev SCRIPT : TagType := 99
abbrev SECTION : TagType := 100
abbrev SELECT : TagType := 101
abbrev SLOT : TagType := 102
abbrev SMALL : TagType := 103
abbrev SPAN : TagType := 104
abbrev STRONG : TagType := 105
abbrev STYLE : TagType := 106
abbrev SUB : TagType := 107
abbrev SUMMARY : TagType := 108
abbrev SUP : TagType := 109
abbrev SVG : TagType := 110
abbrev TABLE : TagType := 111
abbrev TBODY : TagType := 112
abbrev TD : TagType := 113
abbrev TEMPLATE : TagType := 114
abbrev TEXTAREA : TagType := 115
abbrev TFOOT : TagType := 116
abbrev TH : TagType := 117
abbrev THEAD : TagType := 118
abbrev TIME : TagType := 119
abbrev TITLE : TagType := 120
abbrev TR : TagType := 121
abbrev U : TagType := 122
abbrev UL : TagType := 123
abbrev VAR : TagType := 124
abbrev VIDEO : TagType := 125
abbrev CUSTOM : TagType := 126

end TagType

structure Tag where
  type : TagType
  custom_tag_name : List Nat
deriving DecidableEq, Repr

def Tag.custom_tag_name_length (tag : Tag) : Nat := tag.custom_tag_name.length

def tag_reset (_tag : Tag) : Tag :=
  { type := TagType.END_OF_VOID_TAGS, custom_tag_name := [] }

def TAG_NAME_ENTRIES : List (String × TagType) := [
  ("AREA", TagType.AREA),
  ("BASE", TagType.BASE),
  ("BASEFONT", TagType.BASEFONT),
  ("BGSOUND", TagType.BGSOUND),
  ("BR", TagType.BR),
  ("COL", TagType.COL),
  ("COMMAND", TagType.COMMAND),
  ("EMBED", TagType.EMBED),
  ("FRAME", TagType.FRAME),
  ("HR", TagType.HR),
  ("IMAGE", TagType.IMAGE),
  ("IMG", TagType.IMG),
  ("INPUT", TagType.INPUT),
  ("ISINDEX", TagType.ISINDEX),
  ("KEYGEN", TagType.KEYGEN),
  ("LINK", TagType.LINK),
  ("MENUITEM", TagType.MENUITEM),
  ("META", TagType.META),
  ("NEXTID", TagType.NEXTID),
  ("PARAM", TagType.PARAM),
  ("SOURCE", TagType.SOURCE),
  ("TRACK", TagType.TRACK),
  ("WBR", TagType.WBR),
  ("A", TagType.A),
  ("ABBR", TagType.ABBR),
  ("ADDRESS", TagType.ADDRESS),
  ("ARTICLE", TagType.ARTICLE),
  ("ASIDE", TagType.ASIDE),
  ("AUDIO", TagType.AUDIO),
  ("B", TagType.B),
  ("BDI", TagType.BDI),
  ("BDO", TagType.BDO),
  ("BLOCKQUOTE", TagType.BLOCKQUOTE),
  ("BODY", TagType.BODY),
  ("BUTTON", TagType.BUTTON),
  ("CANVAS", TagType.CANVAS),
  ("CAPTION", TagType.CAPTION),
  ("CITE", TagType.CITE),
  ("CODE", TagType.CODE),
  ("COLGROUP", TagType.COLGROUP),
  ("DATA", TagType.DATA),
  ("DATALIST", TagType.DATALIST),
  ("DD", TagType.DD),
  ("DEL", TagType.DEL),
  ("DETAILS", TagType.DETAILS),
  ("DFN", TagType.DFN),
  ("DIALOG", TagType.DIALOG),
  ("DIV", TagType.DIV),
  ("DL", TagType.DL),
  ("DT", TagType.DT),
  ("EM", TagType.EM),
  ("FIELDSET", TagType.FIELDSET),
  ("FIGCAPTION", TagType.FIGCAPTION),
  ("FIGURE", TagType.FIGURE),
  ("FOOTER", TagType.FOOTER),
  ("FORM", TagType.FORM),
  ("H1", TagType.H1),
  ("H2", TagType.H2),
  ("H3", TagType.H3),
  ("H4", TagType.H4),
  ("H5", TagType.H5),
  ("H6", TagType.H6),
  ("HEAD", TagType.HEAD),
  ("HEADER", TagType.HEADER),
  ("HGROUP", TagType.HGROUP),
  ("HTML", TagType.HTML),
  ("I", TagType.I),
  ("IFRAME", TagType.IFRAME),
  ("INS", TagType.INS),
  ("KBD", TagType.KBD),
  ("LABEL", TagType.LABEL),
  ("LEGEND", TagType.LEGEND),
  ("LI", TagType.LI),
  ("MAIN", TagType.MAIN),
  ("MAP", TagType.MAP),
  ("MARK", TagType.MARK),
  ("MATH", TagType.MATH),
  ("MENU", TagType.MENU),
  ("METER", TagType.METER),
  ("NAV", TagType.NAV),
  ("NOSCRIPT", TagType.NOSCRIPT),
  ("OBJECT", TagType.OBJECT),
  ("OL", TagType.OL),
  ("OPTGROUP", TagType.OPTGROUP),
  ("OPTION", TagType.OPTION),
  ("OUTPUT", TagType.OUTPUT),
  ("P", TagType.P),
  ("PICTURE", TagType.PICTURE),
  ("PRE", TagType.PRE),
  ("PROGRESS", TagType.PROGRESS),
  ("Q", TagType.Q),
  ("RB", TagType.RB),
  ("RP", TagType.RP),
  ("RT", TagType.RT),
  ("RTC", TagType.RTC),
  ("RUBY", TagType.RUBY),
  ("S", TagType.S),
  ("SAMP", TagType.SAMP),
  ("SCRIPT", TagType.SCRIPT),
  ("SECTION", TagType.SECTION),
  ("SELECT", TagType.SELECT),
  ("SLOT", TagType.SLOT),
  ("SMALL", TagType.SMALL),
  ("SPAN", TagType.SPAN),
  ("STRONG", TagType.STRONG),
  ("STYLE", TagType.STYLE),
  ("SUB", TagType.SUB),
  ("SUMMARY", TagType.SUMMARY),
  ("SUP", TagType.SUP),
  ("SVG", TagType.SVG),
  ("TABLE", TagType.TABLE),
  ("TBODY", TagType.TBODY),
  ("TD", TagType.TD),
  ("TEMPLATE", TagType.TEMPLATE),
  ("TEXTAREA", TagType.TEXTAREA),
  ("TFOOT", TagType.TFOOT),
  ("TH", TagType.TH),
  ("THEAD", TagType.THEAD),
  ("TIME", TagType.TIME),
  ("TITLE", TagType.TITLE),
  ("TR", TagType.TR),
  ("U", TagType.U),
  ("UL", TagType.UL),
  ("VAR", TagType.VAR),
  ("VIDEO", TagType.VIDEO)
]

def TAG_TYPES_NOT_ALLOWED_IN_PARAGRAPHS : List TagType := [
  TagType.ADDRESS, TagType.ARTICLE, TagType.ASIDE, TagType.BLOCKQUOTE, TagType.DETAILS,
  TagType.DIV, TagType.DL, TagType.FIELDSET, TagType.FIGCAPTION, TagType.FIGURE,
  TagType.FOOTER, TagType.FORM, TagType.H1, TagType.H2, TagType.H3, TagType.H4, TagType.H5,
  TagType.H6, TagType.HEADER, TagType.HR, TagType.MAIN, TagType.NAV, TagType.OL, TagType.P,
  TagType.PRE, TagType.SECTION]

def tag_is_void (tag : Tag) : Bool := tag.type < TagType.END_OF_VOID_TAGS

def tag_names_equal (left right : Tag) : Bool :=
  if left.custom_tag_name_length != right.custom_tag_name_length then false
  else left.custom_tag_name.take left.custom_tag_name_length
    == right.custom_tag_name.take left.custom_tag_name_length

def tag_equals (left right : Tag) : Bool :=
  if left.type != right.type then false
  else if left.type != TagType.CUSTOM then true
  else tag_names_equal left right

def tag_type_allowed_in_paragraph (type : TagType) : Bool :=
  !(TAG_TYPES_NOT_ALLOWED_IN_PARAGRAPHS.any (fun t => t == type))

def tag_can_contain (parent child : Tag) : Bool :=
  let parent_type := parent.type
  let child_type := child.type
  if parent_type = TagType.LI then child_type != TagType.LI
  else if parent_type = TagType.DT || parent_type = TagType.DD then
    child_type != TagType.DT && child_type != TagType.DD
  else if parent_type = TagType.P then tag_type_allowed_in_paragraph child_type
  else if parent_type = TagType.COLGROUP then child_type == TagType.COL
  else if parent_type = TagType.RB || parent_type = TagType.RT || parent_type = TagType.RP then
    child_type != TagType.RB && child_type != TagType.RT && child_type != TagType.RP
  else if parent_type = TagType.OPTGROUP then child_type != TagType.OPTGROUP
  else if parent_type = TagType.TR then child_type != TagType.TR
  else if parent_type = TagType.TD || parent_type = TagType.TH then
    child_type != TagType.TD && child_type != TagType.TH && child_type != TagType.TR
  else true

def tag_set_custom_name (tag : Tag) (name : List Nat) (length : Nat) : Tag :=
  let length := if length > TREE_SITTER_HTML_MAX_CUSTOM_TAG_NAME_LENGTH
    then TREE_SITTER_HTML_MAX_CUSTOM_TAG_NAME_LENGTH else length
  { tag with custom_tag_name := name.take length }

def tag_make (type : TagType) : Tag :=
  { tag_reset { type := type, custom_tag_name := [] } with type := type }

/-- The argument is the character buffer handed over; `strcmp` and `strlen` see its bytes up
to the first NUL. -/
def tag_for_name (buffer : List Nat) : Tag :=
  let name := c_str buffer
  match TAG_NAME_ENTRIES.find? (fun entry => str entry.1 == name) with
  | some entry => tag_make entry.2
  | none => tag_set_custom_name (tag_make TagType.CUSTOM) name name.length

/-! ## scanner.cc: the tag stack -/

inductive TokenType where
  | TEXT_FRAGMENT
  | INTERPOLATION_TEXT
  | START_TAG_NAME
  | TEMPLATE_START_TAG_NAME
  | SCRIPT_START_TAG_NAME
  | STYLE_START_TAG_NAME
  | END_TAG_NAME
  | ERRONEOUS_END_TAG_NAME
  | SELF_CLOSING_TAG_DELIMITER
  | IMPLICIT_END_TAG
  | RAW_TEXT
  | COMMENT
deriving DecidableEq, Repr

open TokenType

/-- The live part `data[0 .. size)` of a `TagStack`. -/
abbrev TagStack := List Tag

structure Scanner where
  tags : TagStack
deriving DecidableEq, Repr

/-- The slots gained by growing are reset; shrinking keeps the first `size` slots. -/
def tag_stack_resize (stack : TagStack) (size : Nat) : TagStack :=
  if size > stack.length then
    stack ++ (List.replicate (size - stack.length) (tag_reset { type := 0, custom_tag_name := [] }))
  else stack.take size

def tag_stack_push (stack : TagStack) (tag : Tag) : TagStack := stack ++ [tag]

def tag_stack_pop (stack : TagStack) : TagStack := stack.dropLast

def tag_stack_top (stack : TagStack) : Option Tag := stack.getLast?

def tag_stack_empty (stack : TagStack) : Bool := stack.length == 0

def tag_stack_contains (stack : TagStack) (tag : Tag) : Bool :=
  stack.any (fun entry => tag_equals entry tag)

def scanner_new : Scanner := { tags := [] }

/-! ## The lexer of the host

`tree_sitter/parser.h` is not part of the sources; the lexer is the cursor of its interface:
`lookahead`, `advance(skip)`, `mark_end` and `result_symbol`. Positions count characters from
the position at which the call started. -/

structure TSLexer where
  /-- The characters from the current position to the end of the input. -/
  input : List Nat
  /-- The current position. -/
  position : Nat
  /-- Where the token starts: after the characters advanced over with `skip`. -/
  token_start : Nat
  /-- The position of the last `mark_end`, if there was one. -/
  token_end : Option Nat
  result_symbol : TokenType
deriving DecidableEq, Repr

/-- The lexer at the start of a call. -/
def TSLexer.start (input : List Nat) (result_symbol : TokenType) : TSLexer :=
  { input := input, position := 0, token_start := 0, token_end := none,
    result_symbol := result_symbol }

/-- The end of the token of a call that returned `true`: the marked end, or else the
position reached. -/
def TSLexer.token_end_position (lexer : TSLexer) : Nat :=
  match lexer.token_end with
  | some e => e
  | none => lexer.position

def TSLexer.lookahead (lexer : TSLexer) : Nat := lexer.input.headD 0

def TSLexer.advance (lexer : TSLexer) (skip : Bool) : TSLexer :=
  match lexer.input with
  | [] => lexer
  | _ :: rest =>
    { lexer with
      input := rest
      position := lexer.position + 1
      token_start := if skip then lexer.position + 1 else lexer.token_start }

def TSLexer.mark_end (lexer : TSLexer) : TSLexer :=
  { lexer with token_end := some lexer.position }

/-! ## scanner.cc: serialization -/

def TREE_SITTER_SERIALIZATION_BUFFER_SIZE : Nat := 1024

def UINT16_MAX : Nat := 65535

def UINT8_MAX : Nat := 255

/-- The body of the loop of `scanner_serialize` over the tags from `data[serialized_tag_count]`
on: the number of records written and their bytes. -/
def serialize_tags : List Tag → Nat → Nat × List Nat
  | [], _ => (0, [])
  | tag :: rest, offset =>
    if tag.type = TagType.CUSTOM then
      let name_length :=
        if tag.custom_tag_name_length > UINT8_MAX then UINT8_MAX else tag.custom_tag_name_length
      if offset + 2 + name_length ≥ TREE_SITTER_SERIALIZATION_BUFFER_SIZE then (0, [])
      else
        let r := serialize_tags rest (offset + 2 + name_length)
        (r.1 + 1,
          to_char tag.type :: to_char name_length :: (tag.custom_tag_name.take name_length ++ r.2))
    else
      if offset + 1 ≥ TREE_SITTER_SERIALIZATION_BUFFER_SIZE then (0, [])
      else
        let r := serialize_tags rest (offset + 1)
        (r.1 + 1, to_char tag.type :: r.2)

/-- The two bytes of a `uint16_t`, low byte first. -/
def u16_bytes (v : Nat) : List Nat := [v % 256, v / 256 % 256]

/-- The bytes written to the buffer; the value returned is their number. -/
def scanner_serialize (scanner : Scanner) : List Nat :=
  let tag_count_value := scanner.tags.length
  let tag_count := if tag_count_value > UINT16_MAX then UINT16_MAX else tag_count_value
  let r := serialize_tags (scanner.tags.take tag_count) 4
  u16_bytes r.1 ++ u16_bytes tag_count ++ r.2

/-- The loop of `scanner_deserialize` over the slots `data[j ..]`, with `n` records still
announced. A read outside the buffer has no value. -/
def deserialize_tags (buffer : List Nat) : Nat → Nat → List Tag → Option (List Tag)
  | _, _, [] => some []
  | 0, _, slot :: slots => some (slot :: slots)
  | n + 1, offset, slot :: slots =>
    if offset ≥ buffer.length then some (slot :: slots)
    else do
      let type ← buffer[offset]?
      let offset := offset + 1
      if type = TagType.CUSTOM then
        if offset ≥ buffer.length then some (tag_reset slot :: slots)
        else do
          let name_length ← buffer[offset]?
          let offset := offset + 1
          let name_length :=
            if name_length > TREE_SITTER_HTML_MAX_CUSTOM_TAG_NAME_LENGTH
            then TREE_SITTER_HTML_MAX_CUSTOM_TAG_NAME_LENGTH else name_length
          let name_length :=
            if name_length > buffer.length - offset then buffer.length - offset else name_length
          let name ← if offset + name_length ≤ buffer.length
            then some ((buffer.drop offset).take name_length) else none
          let rest ← deserialize_tags buffer n (offset + name_length) slots
          some ({ type := type, custom_tag_name := name } :: rest)
      else do
        let rest ← deserialize_tags buffer n offset slots
        some ({ type := type, custom_tag_name := [] } :: rest)

/-- The buffer is the `length` bytes handed over. The result is `none` if a byte outside
them is read. -/
def scanner_deserialize (_scanner : Scanner) (buffer : List Nat) : Option Scanner :=
  if buffer.length = 0 then some { tags := [] }
  else if buffer.length < 2 + 2 then some { tags := [] }
  else do
    let b0 ← buffer[0]?
    let b1 ← buffer[1]?
    let b2 ← buffer[2]?
    let b3 ← buffer[3]?
    let serialized_tag_count := b0 + 256 * b1
    let tag_count := b2 + 256 * b3
    let data := tag_stack_resize [] tag_count
    let data ← deserialize_tags buffer serialized_tag_count 4 data
    some { tags := data.take serialized_tag_count ++ (data.drop serialized_tag_count).map tag_reset }

/-! ## scanner.cc: the scans

A scan returns its `bool`, the scanner and the lexer it leaves. Every loop advances the lexer
once per iteration, so it runs with the number of characters left, plus one, as its bound; the
bound is never reached (the lemmas `skip_whitespace_bound` to `text_loop_bound`). -/

abbrev ScanResult := Bool × Scanner × TSLexer

def is_tag_name_char (c : Nat) : Bool := iswalnum c || c == ch '-' || c == ch ':'

/-- The `while` loop of `scan_tag_name`: `has_char`, the buffer filled so far and the
lexer. -/
def scan_tag_name_loop : Nat → Bool → List Nat → TSLexer → Bool × List Nat × TSLexer
  | 0, has_char, buffer, lexer => (has_char, buffer, lexer)
  | fuel + 1, has_char, buffer, lexer =>
    if is_tag_name_char lexer.lookahead then
      let buffer :=
        if buffer.length < TREE_SITTER_HTML_MAX_CUSTOM_TAG_NAME_LENGTH
        then buffer ++ [to_char (towupper lexer.lookahead)] else buffer
      scan_tag_name_loop fuel true buffer (lexer.advance false)
    else (has_char, buffer, lexer)

/-- Every caller passes `NULL` for `length`. The buffer returned holds the bytes before the
terminating NUL. -/
def scan_tag_name (lexer : TSLexer) : Bool × List Nat × TSLexer :=
  match scan_tag_name_loop (lexer.input.length + 1) false [] lexer with
  | (false, _, lexer) => (false, [], lexer)
  | (true, buffer, lexer) =>
    let capped_length :=
      if buffer.length > TREE_SITTER_HTML_MAX_CUSTOM_TAG_NAME_LENGTH
      then TREE_SITTER_HTML_MAX_CUSTOM_TAG_NAME_LENGTH else buffer.length
    (true, buffer.take capped_length, lexer)

/-- The `while` loop of `scan_comment`: whether a comment was closed, and the lexer. -/
def scan_comment_loop : Nat → Nat → TSLexer → Bool × TSLexer
  | 0, _, lexer => (false, lexer)
  | fuel + 1, dashes, lexer =>
    if lexer.lookahead = 0 then (false, lexer)
    else if lexer.lookahead = ch '-' then scan_comment_loop fuel (dashes + 1) (lexer.advance false)
    else if lexer.lookahead = ch '>' && dashes ≥ 2 then
      (true, ({ lexer with result_symbol := COMMENT }.advance false).mark_end)
    else scan_comment_loop fuel 0 (lexer.advance false)

def scan_comment (scanner : Scanner) (lexer : TSLexer) : ScanResult :=
  if lexer.lookahead != ch '-' then (false, scanner, lexer)
  else
    let lexer := lexer.advance false
    if lexer.lookahead != ch '-' then (false, scanner, lexer)
    else
      let lexer := lexer.advance false
      let r := scan_comment_loop (lexer.input.length + 1) 0 lexer
      (r.1, scanner, r.2)

/-- The `while` loop of `scan_raw_text`, with `delimiter_index` characters of the
delimiter matched. -/
def scan_raw_text_loop (end_delimiter : List Nat) : Nat → Nat → TSLexer → TSLexer
  | 0, _, lexer => lexer
  | fuel + 1, delimiter_index, lexer =>
    if lexer.lookahead = 0 then lexer
    else if to_char (towupper lexer.lookahead) = end_delimiter.getD delimiter_index 0 then
      if delimiter_index + 1 = end_delimiter.length then lexer
      else scan_raw_text_loop end_delimiter fuel (delimiter_index + 1) (lexer.advance false)
    else scan_raw_text_loop end_delimiter fuel 0 (lexer.advance false).mark_end

def scan_raw_text (scanner : Scanner) (lexer : TSLexer) : ScanResult :=
  match tag_stack_top scanner.tags with
  | none => (false, scanner, lexer)
  | some top =>
    let lexer := lexer.mark_end
    let end_delimiter := if top.type = TagType.SCRIPT then str "</SCRIPT" else str "</STYLE"
    let lexer := scan_raw_text_loop end_delimiter (lexer.input.length + 1) 0 lexer
    (true, scanner, { lexer with result_symbol := RAW_TEXT })

def scan_implicit_end_tag (scanner : Scanner) (lexer : TSLexer) : ScanResult :=
  let parent := tag_stack_top scanner.tags
  let is_closing_tag := lexer.lookahead == ch '/'
  if !is_closing_tag && (match parent with | some p => tag_is_void p | none => false) then
    (true, { scanner with tags := tag_stack_pop scanner.tags },
      { lexer with result_symbol := IMPLICIT_END_TAG })
  else
    let lexer := if is_closing_tag then lexer.advance false else lexer
    match scan_tag_name lexer with
    | (false, _, lexer) => (false, scanner, lexer)
    | (true, tag_name_buffer, lexer) =>
      let next_tag := tag_for_name tag_name_buffer
      if is_closing_tag then
        if !tag_stack_empty scanner.tags &&
            (match tag_stack_top scanner.tags with
              | some top => tag_equals top next_tag | none => false) then
          (false, scanner, lexer)
        else if tag_stack_contains scanner.tags next_tag then
          (true, { scanner with tags := tag_stack_pop scanner.tags },
            { lexer with result_symbol := IMPLICIT_END_TAG })
        else (false, scanner, lexer)
      else if (match parent with | some p => !tag_can_contain p next_tag | none => false) then
        (true, { scanner with tags := tag_stack_pop scanner.tags },
          { lexer with result_symbol := IMPLICIT_END_TAG })
      else (false, scanner, lexer)

def scan_start_tag_name (scanner : Scanner) (lexer : TSLexer) : ScanResult :=
  match scan_tag_name lexer with
  | (false, _, lexer) => (false, scanner, lexer)
  | (true, tag_name_buffer, lexer) =>
    let tag := tag_for_name tag_name_buffer
    let scanner := { scanner with tags := tag_stack_push scanner.tags tag }
    let symbol :=
      if tag.type = TagType.TEMPLATE then TEMPLATE_START_TAG_NAME
      else if tag.type = TagType.SCRIPT then SCRIPT_START_TAG_NAME
      else if tag.type = TagType.STYLE then STYLE_START_TAG_NAME
      else START_TAG_NAME
    (true, scanner, { lexer with result_symbol := symbol })

def scan_end_tag_name (scanner : Scanner) (lexer : TSLexer) : ScanResult :=
  match scan_tag_name lexer with
  | (false, _, lexer) => (false, scanner, lexer)
  | (true, tag_name_buffer, lexer) =>
    let tag := tag_for_name tag_name_buffer
    match tag_stack_top scanner.tags with
    | some top =>
      if tag_equals top tag then
        (true, { scanner with tags := tag_stack_pop scanner.tags },
          { lexer with result_symbol := END_TAG_NAME })
      else (true, scanner, { lexer with result_symbol := ERRONEOUS_END_TAG_NAME })
    | none => (true, scanner, { lexer with result_symbol := ERRONEOUS_END_TAG_NAME })

def scan_self_closing_tag_delimiter (scanner : Scanner) (lexer : TSLexer) : ScanResult :=
  let lexer := lexer.advance false
  if lexer.lookahead = ch '>' then
    let lexer := lexer.advance false
    if !tag_stack_empty scanner.tags then
      (true, { scanner with tags := tag_stack_pop scanner.tags },
        { lexer with result_symbol := SELF_CLOSING_TAG_DELIMITER })
    else (true, scanner, lexer)
  else (false, scanner, lexer)

/-- The loop `while (iswspace(lexer->lookahead)) lexer->advance(lexer, true)`. -/
def skip_whitespace : Nat → TSLexer → TSLexer
  | 0, lexer => lexer
  | fuel + 1, lexer =>
    if iswspace lexer.lookahead then skip_whitespace fuel (lexer.advance true) else lexer

def scanner_scan (scanner : Scanner) (lexer : TSLexer) (valid_symbols : TokenType → Bool) :
    ScanResult :=
  let lexer := skip_whitespace (lexer.input.length + 1) lexer
  if valid_symbols RAW_TEXT && !valid_symbols START_TAG_NAME && !valid_symbols END_TAG_NAME then
    scan_raw_text scanner lexer
  else if lexer.lookahead = ch '<' then
    let lexer := lexer.mark_end
    let lexer := lexer.advance false
    if lexer.lookahead = ch '!' then scan_comment scanner (lexer.advance false)
    else if valid_symbols IMPLICIT_END_TAG then scan_implicit_end_tag scanner lexer
    else (false, scanner, lexer)
  else if lexer.lookahead = 0 then
    if valid_symbols IMPLICIT_END_TAG then scan_implicit_end_tag scanner lexer
    else (false, scanner, lexer)
  else if lexer.lookahead = ch '/' then
    if valid_symbols SELF_CLOSING_TAG_DELIMITER then scan_self_closing_tag_delimiter scanner lexer
    else (false, scanner, lexer)
  else if (valid_symbols START_TAG_NAME || valid_symbols END_TAG_NAME)
      && !valid_symbols RAW_TEXT then
    if valid_symbols START_TAG_NAME then scan_start_tag_name scanner lexer
    else scan_end_tag_name scanner lexer
  else (false, scanner, lexer)

/-! ## scanner.c -/

/-- How the text loop of `tree_sitter_vue_external_scanner_scan` is left: by `break`, or by
the `return has_text` of the closing-brace branch. -/
inductive TextLoopExit where
  | broke (has_text : Bool)
  | returned (has_text : Bool)
deriving DecidableEq, Repr

/-- The loop `for (;; has_text = true)`. -/
def text_loop (interpolation_valid : Bool) : Nat → Bool → TSLexer → TextLoopExit × TSLexer
  | 0, has_text, lexer => (TextLoopExit.broke has_text, lexer)
  | fuel + 1, has_text, lexer =>
    if lexer.lookahead = 0 then (TextLoopExit.broke has_text, lexer.mark_end)
    else if lexer.lookahead = ch '<' then
      let lexer := lexer.mark_end.advance false
      if iswalpha lexer.lookahead || lexer.lookahead == ch '!' || lexer.lookahead == ch '?'
          || lexer.lookahead == ch '/' then (TextLoopExit.broke has_text, lexer)
      else text_loop interpolation_valid fuel true lexer
    else if lexer.lookahead = ch '\x7b' then
      let lexer := lexer.mark_end.advance false
      if lexer.lookahead = ch '\x7b' then (TextLoopExit.broke has_text, lexer)
      else text_loop interpolation_valid fuel true lexer
    else if lexer.lookahead = ch '\x7d' && interpolation_valid then
      let lexer := lexer.mark_end.advance false
      if lexer.lookahead = ch '\x7d' then
        (TextLoopExit.returned has_text, { lexer with result_symbol := INTERPOLATION_TEXT })
      else text_loop interpolation_valid fuel true lexer
    else text_loop interpolation_valid fuel true (lexer.advance false)

def tree_sitter_vue_external_scanner_scan (scanner : Scanner) (lexer : TSLexer)
    (valid_symbols : TokenType → Bool) : ScanResult :=
  let is_error_recovery := valid_symbols START_TAG_NAME && valid_symbols RAW_TEXT
  if !is_error_recovery && lexer.lookahead != ch '<'
      && (valid_symbols TEXT_FRAGMENT || valid_symbols INTERPOLATION_TEXT) then
    match text_loop (valid_symbols INTERPOLATION_TEXT) (lexer.input.length + 1) false lexer with
    | (TextLoopExit.returned has_text, lexer) => (has_text, scanner, lexer)
    | (TextLoopExit.broke has_text, lexer) =>
      if has_text then (true, scanner, { lexer with result_symbol := TEXT_FRAGMENT })
      else scanner_scan scanner lexer valid_symbols
  else scanner_scan scanner lexer valid_symbols

/-! ## Notions of the specification -/

/-- The canonical form of a tag name: uppercased, truncated to 255 characters. -/
def canonical_name (name : List Nat) : List Nat :=
  (name.map (fun c => to_char (towupper c))).take 255

/-- The tag a name is classified as. -/
def classify (name : List Nat) : Tag := tag_for_name (canonical_name name)

/-- Whether the text scan stops at the front of `input`: the lexer shows 0 (the end of the
input), or a `<` immediately followed by a letter, `!`, `?` or `/`, or two opening braces, or,
when interpolation-text is valid, two closing braces. -/
def text_stops_at (interpolation_valid : Bool) (input : List Nat) : Bool :=
  let c := input.headD 0
  let d := input.tail.headD 0
  c == 0 ||
  (c == ch '<' && (iswalpha d || d == ch '!' || d == ch '?' || d == ch '/')) ||
  (c == ch '\x7b' && d == ch '\x7b') ||
  (interpolation_valid && c == ch '\x7d' && d == ch '\x7d')

/-- The vector of valid symbols in which exactly the listed kinds are valid. -/
def valid_only (kinds : List TokenType) : TokenType → Bool := fun t => kinds.contains t

/-- What `scanner_deserialize` guarantees of a custom tag it builds from the record at
offset `o`. -/
def built_from_record (buffer : List Nat) (tag : Tag) (o : Nat) : Prop :=
  o + 1 < buffer.length ∧ buffer[o]? = some TagType.CUSTOM ∧
  tag.custom_tag_name = (buffer.drop (o + 2)).take (min (buffer.getD (o + 1) 0) 255) ∧
  tag.custom_tag_name.length ≤ 255 ∧
  tag.custom_tag_name.length ≤ buffer.length - (o + 2)

instance (buffer : List Nat) (tag : Tag) (o : Nat) : Decidable (built_from_record buffer tag o) := by
  unfold built_from_record
  infer_instance

/-- The size of the complete encoding of a stack: 4 header bytes, 1 byte per built-in tag,
2 bytes and the name per custom tag. -/
def encoding_size (tags : List Tag) : Nat :=
  4 + (tags.map (fun tag =>
    if tag.type = TagType.CUSTOM then 2 + tag.custom_tag_name.length else 1)).sum

/-- Four custom tags with names of 253 bytes: an encoding of exactly 1024 bytes. -/
def capacity_stack : Scanner :=
  { tags := List.replicate 4 (classify (List.replicate 253 (ch 'a'))) }

/-- Whether `input` begins with `delimiter`, which is in upper case, whatever the case of the
letters of `input`. -/
def begins_ignoring_case (delimiter input : List Nat) : Bool :=
  (input.take delimiter.length).map towupper == delimiter

/-- The record of a tag in the encoding: the type byte and, for a custom tag, the length byte
and the name. -/
def encode_tag (tag : Tag) : List Nat :=
  if tag.type = TagType.CUSTOM then
    tag.type :: tag.custom_tag_name.length :: tag.custom_tag_name
  else [tag.type]

/-- The records of the tags of a stack, one after the other. -/
def encode_tags : List Tag → List Nat
  | [] => []
  | tag :: rest => encode_tag tag ++ encode_tags rest

/-- A tag as classification produces it: a built-in tag with the empty name, or a custom tag
with a name of 1 to 255 bytes. -/
def classified (tag : Tag) : Prop :=
  (tag.type < TagType.CUSTOM ∧ tag.custom_tag_name = []) ∨
  (tag.type = TagType.CUSTOM ∧ 1 ≤ tag.custom_tag_name.length ∧
    tag.custom_tag_name.length ≤ 255)

instance (tag : Tag) : Decidable (classified tag) := by
  unfold classified
  infer_instance

/-- The child types the nesting table refuses in a paragraph. -/
def refused_in_paragraph : List TagType := [
  TagType.ADDRESS, TagType.ARTICLE, TagType.ASIDE, TagType.BLOCKQUOTE, TagType.DETAILS,
  TagType.DIV, TagType.DL, TagType.FIELDSET, TagType.FIGCAPTION, TagType.FIGURE,
  TagType.FOOTER, TagType.FORM, TagType.H1, TagType.H2, TagType.H3, TagType.H4, TagType.H5,
  TagType.H6, TagType.HEADER, TagType.HR, TagType.MAIN, TagType.NAV, TagType.OL, TagType.P,
  TagType.PRE, TagType.SECTION]

/-- The nesting table of the specification: whether a parent of type `p` refuses a child of
type `c`. -/
def refuses_child (p c : TagType) : Prop :=
  (p = TagType.LI ∧ c = TagType.LI) ∨
  ((p = TagType.DT ∨ p = TagType.DD) ∧ (c = TagType.DT ∨ c = TagType.DD)) ∨
  (p = TagType.P ∧ c ∈ refused_in_paragraph) ∨
  (p = TagType.COLGROUP ∧ c ≠ TagType.COL) ∨
  ((p = TagType.RB ∨ p = TagType.RT ∨ p = TagType.RP) ∧
    (c = TagType.RB ∨ c = TagType.RT ∨ c = TagType.RP)) ∨
  (p = TagType.OPTGROUP ∧ c = TagType.OPTGROUP) ∨
  (p = TagType.TR ∧ c = TagType.TR) ∨
  ((p = TagType.TD ∨ p = TagType.TH) ∧ (c = TagType.TD ∨ c = TagType.TH ∨ c = TagType.TR))

instance (p c : TagType) : Decidable (refuses_child p c) := by
  unfold refuses_child
  infer_instance

/-- The kind of the start-tag-name token for a tag name, by its canonical form. -/
def start_tag_name_kind (name : List Nat) : TokenType :=
  if canonical_name name = str "TEMPLATE" then TEMPLATE_START_TAG_NAME
  else if canonical_name name = str "SCRIPT" then SCRIPT_START_TAG_NAME
  else if canonical_name name = str "STYLE" then STYLE_START_TAG_NAME
  else START_TAG_NAME

/-- The stack after `k` successive calls of `scanner_scan` on the same input, each of which
returns an empty `IMPLICIT_END_TAG` token; `none` if one of the calls does not. -/
def implicit_end_tag_calls (valid_symbols : TokenType → Bool) (input : List Nat)
    (rs : TokenType) : Nat → Scanner → Option Scanner
  | 0, scanner => some scanner
  | k + 1, scanner =>
    let r := scanner_scan scanner (TSLexer.start input rs) valid_symbols
    if r.1 = true ∧ r.2.2.result_symbol = IMPLICIT_END_TAG ∧
        r.2.2.token_start = r.2.2.token_end_position then
      implicit_end_tag_calls valid_symbols input rs k r.2.1
    else none

/-- A value of the C struct `Tag` as the scanner builds it (`tag_make`, `tag_for_name`,
`tag_reset`, the records read by `scanner_deserialize`): the type is the value of its byte, the
name length is a `uint8_t`, and only a custom tag has a name. -/
def tag_well_formed (tag : Tag) : Prop :=
  tag.type < 256 ∧ tag.custom_tag_name.length ≤ 255 ∧
  (tag.type ≠ TagType.CUSTOM → tag.custom_tag_name = [])

instance (tag : Tag) : Decidable (tag_well_formed tag) := by
  unfold tag_well_formed
  infer_instance

/-- Whether the body of a comment (the input after the opening `--`) closes at position `j`:
a `>` immediately preceded by two `-` of the body. -/
def closes_comment_at (body : List Nat) (j : Nat) : Bool :=
  body.getD j 0 == ch '>' && decide (2 ≤ j) && body.getD (j - 1) 0 == ch '-'
    && body.getD (j - 2) 0 == ch '-'

/-- What one call may have done to the stack, by its result `r`, the scanner `s` it was given and
the result symbol `rs` the lexer held on entry: it declined and the stack is unchanged; or it
returned a token of a kind that leaves the stack unchanged; or it popped the top of a non-empty
stack and returned an end kind; or it pushed one entry and returned a start-tag-name kind; or it
found the stack empty, left it so, and returned with the result symbol still `rs`. -/
def stack_step (s : Scanner) (rs : TokenType) (r : ScanResult) : Prop :=
  (r.1 = false ∧ r.2.1 = s) ∨
  (r.1 = true ∧ r.2.1 = s ∧
    r.2.2.result_symbol ∈
      [TEXT_FRAGMENT, INTERPOLATION_TEXT, RAW_TEXT, COMMENT, ERRONEOUS_END_TAG_NAME]) ∨
  (r.1 = true ∧ s.tags ≠ [] ∧ r.2.1.tags = s.tags.dropLast ∧
    r.2.2.result_symbol ∈ [END_TAG_NAME, IMPLICIT_END_TAG, SELF_CLOSING_TAG_DELIMITER]) ∨
  (r.1 = true ∧ (∃ tag, r.2.1.tags = s.tags ++ [tag]) ∧
    r.2.2.result_symbol ∈ [START_TAG_NAME, TEMPLATE_START_TAG_NAME, SCRIPT_START_TAG_NAME,
      STYLE_START_TAG_NAME]) ∨
  (r.1 = true ∧ s.tags = [] ∧ r.2.1 = s ∧ r.2.2.result_symbol = rs)

/-! # Theorems -/

/-! ## Lemmas: characters -/

theorem tag_name_char_cases {c : Nat} (h : is_tag_name_char c = true) :
    (65 ≤ c ∧ c ≤ 90) ∨ (97 ≤ c ∧ c ≤ 122) ∨ (48 ≤ c ∧ c ≤ 57) ∨ c = 45 ∨ c = 58 := by
  simp only [is_tag_name_char, iswalnum, iswalpha, ch, Bool.or_eq_true, Bool.and_eq_true,
    decide_eq_true_eq, beq_iff_eq] at h
  have h1 : ('-' : Char).toNat = 45 := by decide
  have h2 : (':' : Char).toNat = 58 := by decide
  rw [h1, h2] at h
  omega

theorem tag_name_char_not_space {c : Nat} (h : is_tag_name_char c = true) :
    iswspace c = false := by
  have := tag_name_char_cases h
  simp only [iswspace, Bool.or_eq_false_iff, Bool.and_eq_false_iff, beq_eq_false_iff_ne,
    decide_eq_false_iff_not]
  omega

theorem upper_tag_name_char_ne_zero {c : Nat} (h : is_tag_name_char c = true) :
    to_char (towupper c) ≠ 0 := by
  have := tag_name_char_cases h
  simp only [to_char, towupper, Bool.and_eq_true, decide_eq_true_eq]
  split <;> omega

theorem ch_lt : ch '<' = 60 := by decide
theorem ch_gt : ch '>' = 62 := by decide
theorem ch_slash : ch '/' = 47 := by decide
theorem ch_bang : ch '!' = 33 := by decide
theorem ch_dash : ch '-' = 45 := by decide

/-! ## Lemmas: the lexer and the tag-name scan -/

theorem advance_cons (c : Nat) (rest : List Nat) (p ts : Nat) (te : Option Nat)
    (rs : TokenType) :
    (TSLexer.mk (c :: rest) p ts te rs).advance false = TSLexer.mk rest (p + 1) ts te rs := by
  simp [TSLexer.advance]

theorem skip_whitespace_not_space (fuel : Nat) (lexer : TSLexer)
    (h : iswspace lexer.lookahead = false) : skip_whitespace fuel lexer = lexer := by
  cases fuel with
  | zero => rfl
  | succ n => simp [skip_whitespace, h]

theorem scan_tag_name_loop_run (m : List Nat) (hm : ∀ c ∈ m, is_tag_name_char c = true) :
    ∀ (rest : List Nat) (fuel : Nat) (has_char : Bool) (buffer : List Nat) (p ts : Nat)
      (te : Option Nat) (rs : TokenType),
      is_tag_name_char (rest.headD 0) = false → m.length < fuel → buffer.length ≤ 255 →
      scan_tag_name_loop fuel has_char buffer (TSLexer.mk (m ++ rest) p ts te rs) =
        (has_char || !m.isEmpty,
          (buffer ++ m.map (fun c => to_char (towupper c))).take 255,
          TSLexer.mk rest (p + m.length) ts te rs) := by
  induction m with
  | nil =>
    intro rest fuel has_char buffer p ts te rs hrest hfuel hbuf
    cases fuel with
    | zero => simp at hfuel
    | succ n =>
      simp only [scan_tag_name_loop, TSLexer.lookahead, List.nil_append, hrest]
      simp [List.take_of_length_le hbuf]
  | cons c m ih =>
    intro rest fuel has_char buffer p ts te rs hrest hfuel hbuf
    cases fuel with
    | zero => simp at hfuel
    | succ n =>
      have hc : is_tag_name_char c = true := hm c (List.mem_cons_self _ _)
      have hm2 : ∀ d ∈ m, is_tag_name_char d = true := fun d hd => hm d (List.mem_cons_of_mem _ hd)
      have hlen : m.length < n := by simpa using hfuel
      simp only [scan_tag_name_loop, TSLexer.lookahead, List.cons_append, List.headD_cons, hc,
        if_true, TREE_SITTER_HTML_MAX_CUSTOM_TAG_NAME_LENGTH, advance_cons]
      by_cases hb : buffer.length < 255
      · rw [if_pos hb, ih hm2 rest n true _ (p + 1) ts te rs hrest hlen (by simp; omega)]
        simp [Nat.add_assoc, Nat.add_comm 1]
      · rw [if_neg hb, ih hm2 rest n true _ (p + 1) ts te rs hrest hlen hbuf]
        have h255 : buffer.length = 255 := by omega
        have e1 : ∀ xs : List Nat, (buffer ++ xs).take 255 = buffer := by
          intro xs
          rw [List.take_append_of_le_length (by omega), List.take_of_length_le (by omega)]
        simp [e1, Nat.add_assoc, Nat.add_comm 1]

theorem canonical_name_length (m : List Nat) : (canonical_name m).length ≤ 255 := by
  simp [canonical_name, List.length_take]

theorem scan_tag_name_run (m rest : List Nat) (p ts : Nat) (te : Option Nat) (rs : TokenType)
    (hm : ∀ c ∈ m, is_tag_name_char c = true) (hm0 : m ≠ [])
    (hrest : is_tag_name_char (rest.headD 0) = false) :
    scan_tag_name (TSLexer.mk (m ++ rest) p ts te rs) =
      (true, canonical_name m, TSLexer.mk rest (p + m.length) ts te rs) := by
  have hne : m.isEmpty = false := by cases m <;> simp_all
  have hl := canonical_name_length m
  unfold scan_tag_name
  rw [scan_tag_name_loop_run m hm rest _ false [] p ts te rs hrest (by simp; omega) (by simp)]
  simp only [hne, Bool.not_false, Bool.false_or, List.nil_append,
    TREE_SITTER_HTML_MAX_CUSTOM_TAG_NAME_LENGTH]
  have : (List.map (fun c => to_char (towupper c)) m).take 255 = canonical_name m := rfl
  rw [this]
  split
  · omega
  · rw [List.take_of_length_le (Nat.le_refl _)]

theorem scan_tag_name_none (lexer : TSLexer) (h : is_tag_name_char lexer.lookahead = false) :
    scan_tag_name lexer = (false, [], lexer) := by
  simp [scan_tag_name, scan_tag_name_loop, h]

/-! ## Lemmas: the bound of a loop is never reached

Each loop gives the same result with every bound above the number of characters left. -/

theorem advance_cons_skip (c : Nat) (rest : List Nat) (p ts : Nat) (te : Option Nat)
    (rs : TokenType) (skip : Bool) :
    (TSLexer.mk (c :: rest) p ts te rs).advance skip =
      TSLexer.mk rest (p + 1) (if skip then p + 1 else ts) te rs := by
  simp [TSLexer.advance]

theorem skip_whitespace_bound : ∀ (f1 f2 : Nat) (lexer : TSLexer),
    lexer.input.length < f1 → lexer.input.length < f2 →
    skip_whitespace f1 lexer = skip_whitespace f2 lexer := by
  intro f1
  induction f1 with
  | zero => intro f2 lexer h; simp at h
  | succ n ih =>
    intro f2 lexer h1 h2
    cases f2 with
    | zero => simp at h2
    | succ m =>
      obtain ⟨input, p, ts, te, rs⟩ := lexer
      cases input with
      | nil => simp [skip_whitespace, TSLexer.lookahead, iswspace]
      | cons c rest =>
        simp only [skip_whitespace, advance_cons_skip]
        split
        · exact ih m _ (by simpa using h1) (by simpa using h2)
        · rfl

theorem scan_tag_name_loop_bound : ∀ (f1 f2 : Nat) (has_char : Bool) (buffer : List Nat)
    (lexer : TSLexer), lexer.input.length < f1 → lexer.input.length < f2 →
    scan_tag_name_loop f1 has_char buffer lexer = scan_tag_name_loop f2 has_char buffer lexer := by
  intro f1
  induction f1 with
  | zero => intro f2 _ _ lexer h; simp at h
  | succ n ih =>
    intro f2 has_char buffer lexer h1 h2
    cases f2 with
    | zero => simp at h2
    | succ m =>
      obtain ⟨input, p, ts, te, rs⟩ := lexer
      cases input with
      | nil => simp [scan_tag_name_loop, TSLexer.lookahead, is_tag_name_char, iswalnum, iswalpha, ch]
      | cons c rest =>
        simp only [scan_tag_name_loop, advance_cons_skip]
        split
        · exact ih m _ _ _ (by simpa using h1) (by simpa using h2)
        · rfl

theorem scan_comment_loop_bound : ∀ (f1 f2 : Nat) (dashes : Nat) (lexer : TSLexer),
    lexer.input.length < f1 → lexer.input.length < f2 →
    scan_comment_loop f1 dashes lexer = scan_comment_loop f2 dashes lexer := by
  intro f1
  induction f1 with
  | zero => intro f2 _ lexer h; simp at h
  | succ n ih =>
    intro f2 dashes lexer h1 h2
    cases f2 with
    | zero => simp at h2
    | succ m =>
      obtain ⟨input, p, ts, te, rs⟩ := lexer
      cases input with
      | nil => simp [scan_comment_loop, TSLexer.lookahead]
      | cons c rest =>
        simp only [scan_comment_loop, advance_cons_skip]
        split
        · rfl
        · split
          · exact ih m _ _ (by simpa using h1) (by simpa using h2)
          · split
            · rfl
            · exact ih m _ _ (by simpa using h1) (by simpa using h2)

theorem scan_raw_text_loop_bound (end_delimiter : List Nat) : ∀ (f1 f2 : Nat)
    (delimiter_index : Nat) (lexer : TSLexer),
    lexer.input.length < f1 → lexer.input.length < f2 →
    scan_raw_text_loop end_delimiter f1 delimiter_index lexer =
      scan_raw_text_loop end_delimiter f2 delimiter_index lexer := by
  intro f1
  induction f1 with
  | zero => intro f2 _ lexer h; simp at h
  | succ n ih =>
    intro f2 delimiter_index lexer h1 h2
    cases f2 with
    | zero => simp at h2
    | succ m =>
      obtain ⟨input, p, ts, te, rs⟩ := lexer
      cases input with
      | nil => simp [scan_raw_text_loop, TSLexer.lookahead]
      | cons c rest =>
        simp only [scan_raw_text_loop, advance_cons_skip, TSLexer.mark_end]
        split
        · rfl
        · split
          · split
            · rfl
            · exact ih m _ _ (by simpa using h1) (by simpa using h2)
          · exact ih m _ _ (by simpa using h1) (by simpa using h2)

theorem text_loop_bound (iv : Bool) : ∀ (f1 f2 : Nat) (has_text : Bool) (lexer : TSLexer),
    lexer.input.length < f1 → lexer.input.length < f2 →
    text_loop iv f1 has_text lexer = text_loop iv f2 has_text lexer := by
  intro f1
  induction f1 with
  | zero => intro f2 _ lexer h; simp at h
  | succ n ih =>
    intro f2 has_text lexer h1 h2
    cases f2 with
    | zero => simp at h2
    | succ m =>
      obtain ⟨input, p, ts, te, rs⟩ := lexer
      cases input with
      | nil => simp [text_loop, TSLexer.lookahead]
      | cons c rest =>
        have e1 := ih m true (TSLexer.mk rest (p + 1) ts (some p) rs) (by simpa using h1)
          (by simpa using h2)
        have e2 := ih m true (TSLexer.mk rest (p + 1) ts te rs) (by simpa using h1)
          (by simpa using h2)
        simp only [text_loop, advance_cons_skip, TSLexer.mark_end, Bool.false_eq_true, if_false,
          e1, e2]

/-! ## Lemmas: classification -/

set_option maxRecDepth 100000 in
theorem table_types_nodup : (TAG_NAME_ENTRIES.map Prod.snd).Nodup := by decide

set_option maxRecDepth 100000 in
theorem table_types_ne_custom : ∀ e ∈ TAG_NAME_ENTRIES, e.2 ≠ TagType.CUSTOM := by decide

theorem c_str_of_no_nul (a : List Nat) (h : ∀ x ∈ a, x ≠ 0) : c_str a = a := by
  unfold c_str
  rw [List.takeWhile_eq_self_iff]
  intro x hx
  simpa using h x hx

theorem tag_equals_make (s t : TagType) (hs : s ≠ TagType.CUSTOM) :
    tag_equals (tag_make s) (tag_make t) = decide (s = t) := by
  by_cases h : s = t
  · subst h
    simp [tag_equals, tag_make, tag_reset, hs]
  · simp [tag_equals, tag_make, tag_reset, h]

theorem tag_equals_custom (a b : List Nat) (ha : a.length ≤ 255) (hb : b.length ≤ 255) :
    tag_equals (tag_set_custom_name (tag_make TagType.CUSTOM) a a.length)
      (tag_set_custom_name (tag_make TagType.CUSTOM) b b.length) = decide (a = b) := by
  have e1 : ¬ a.length > 255 := by omega
  have e2 : ¬ b.length > 255 := by omega
  simp only [tag_equals, tag_set_custom_name, tag_make, tag_reset, tag_names_equal,
    Tag.custom_tag_name_length, TREE_SITTER_HTML_MAX_CUSTOM_TAG_NAME_LENGTH, e1, e2, if_false,
    List.take_length, bne_self_eq_false, Bool.false_eq_true]
  by_cases h : a = b
  · subst h
    simp
  · by_cases hl : a.length = b.length
    · have : List.take a.length b = b := by rw [hl, List.take_length]
      simp [hl, h, this]
    · simp [hl, h]

theorem tag_for_name_of_some (a : List Nat) (h : ∀ x ∈ a, x ≠ 0) (e : String × TagType)
    (he : TAG_NAME_ENTRIES.find? (fun entry => str entry.1 == a) = some e) :
    tag_for_name a = tag_make e.2 := by
  simp only [tag_for_name, c_str_of_no_nul a h, he]

theorem tag_for_name_of_none (a : List Nat) (h : ∀ x ∈ a, x ≠ 0)
    (he : TAG_NAME_ENTRIES.find? (fun entry => str entry.1 == a) = none) :
    tag_for_name a = tag_set_custom_name (tag_make TagType.CUSTOM) a a.length := by
  simp only [tag_for_name, c_str_of_no_nul a h, he]

theorem tag_equals_tag_for_name (a b : List Nat) (ha : ∀ x ∈ a, x ≠ 0) (hb : ∀ x ∈ b, x ≠ 0)
    (hla : a.length ≤ 255) (hlb : b.length ≤ 255) :
    tag_equals (tag_for_name a) (tag_for_name b) = decide (a = b) := by
  cases ea : TAG_NAME_ENTRIES.find? (fun entry => str entry.1 == a) with
  | some e1 =>
    have h1 : str e1.1 = a := by simpa using List.find?_some ea
    have m1 := List.mem_of_find?_eq_some ea
    rw [tag_for_name_of_some a ha e1 ea]
    cases eb : TAG_NAME_ENTRIES.find? (fun entry => str entry.1 == b) with
    | some e2 =>
      have h2 : str e2.1 = b := by simpa using List.find?_some eb
      have m2 := List.mem_of_find?_eq_some eb
      rw [tag_for_name_of_some b hb e2 eb, tag_equals_make _ _ (table_types_ne_custom e1 m1)]
      by_cases hab : a = b
      · subst hab
        rw [ea] at eb
        cases eb
        simp
      · have : e1.2 ≠ e2.2 := by
          intro h
          have := List.inj_on_of_nodup_map table_types_nodup m1 m2 h
          subst this
          exact hab (h1.symm.trans h2)
        simp [this, hab]
    | none =>
      have hab : a ≠ b := by
        intro h
        subst h
        rw [ea] at eb
        cases eb
      have := table_types_ne_custom e1 m1
      rw [tag_for_name_of_none b hb eb]
      simp [tag_equals, tag_make, tag_reset, tag_set_custom_name, this, hab]
  | none =>
    rw [tag_for_name_of_none a ha ea]
    cases eb : TAG_NAME_ENTRIES.find? (fun entry => str entry.1 == b) with
    | some e2 =>
      have m2 := List.mem_of_find?_eq_some eb
      have hab : a ≠ b := by
        intro h
        subst h
        rw [ea] at eb
        cases eb
      have := table_types_ne_custom e2 m2
      rw [tag_for_name_of_some b hb e2 eb]
      simp [tag_equals, tag_make, tag_reset, tag_set_custom_name, Ne.symm this, hab]
    | none =>
      rw [tag_for_name_of_none b hb eb]
      exact tag_equals_custom a b hla hlb

theorem canonical_name_no_nul (m : List Nat) (hm : ∀ c ∈ m, is_tag_name_char c = true) :
    ∀ x ∈ canonical_name m, x ≠ 0 := by
  intro x hx
  have hx2 := List.mem_of_mem_take hx
  rw [List.mem_map] at hx2
  obtain ⟨c, hc, rfl⟩ := hx2
  exact upper_tag_name_char_ne_zero (hm c hc)

theorem tag_equals_classify (m n : List Nat) (hm : ∀ c ∈ m, is_tag_name_char c = true)
    (hn : ∀ c ∈ n, is_tag_name_char c = true) :
    tag_equals (classify n) (classify m) = decide (canonical_name n = canonical_name m) :=
  tag_equals_tag_for_name _ _ (canonical_name_no_nul n hn) (canonical_name_no_nul m hm)
    (canonical_name_length n) (canonical_name_length m)

/-! ## C1: the end-tag-name scan -/

theorem scanner_scan_end_tag_name (scanner : Scanner) (m rest : List Nat) (rs : TokenType)
    (valid_symbols : TokenType → Bool)
    (hend : valid_symbols END_TAG_NAME = true) (hstart : valid_symbols START_TAG_NAME = false)
    (hraw : valid_symbols RAW_TEXT = false)
    (hm : ∀ c ∈ m, is_tag_name_char c = true) (hm0 : m ≠ []) :
    scanner_scan scanner (TSLexer.start (m ++ rest) rs) valid_symbols =
      scan_end_tag_name scanner (TSLexer.start (m ++ rest) rs) := by
  obtain ⟨c, m', rfl⟩ := List.exists_cons_of_ne_nil hm0
  have hc := hm c (List.mem_cons_self _ _)
  have hcases := tag_name_char_cases hc
  have hl : (TSLexer.start (c :: m' ++ rest) rs).lookahead = c := rfl
  unfold scanner_scan
  rw [skip_whitespace_not_space _ _ (by rw [hl]; exact tag_name_char_not_space hc)]
  simp only [hl, hend, hstart, hraw, ch_lt, ch_slash]
  have h1 : c ≠ 60 := by omega
  have h2 : c ≠ 0 := by omega
  have h3 : c ≠ 47 := by omega
  simp [h1, h2, h3]

/-- C1. End-tag-name scan. The stack has the tag classified from a tag name `n` on top, end-tag-name
is valid, start-tag-name and raw-text are not, and the lookahead is at the non-empty run `m` of
tag-name characters. If the canonical forms of `m` and `n` are equal, `scanner_scan` returns
`END_TAG_NAME` and the stack loses exactly its top entry; for every other `m` it returns
`ERRONEOUS_END_TAG_NAME` and leaves the stack as it was; and on the empty stack it returns
`ERRONEOUS_END_TAG_NAME` and leaves the stack empty. In each case the token is the run `m`. -/
theorem end_tag_name_scan (below : List Tag) (n m rest : List Nat) (rs : TokenType)
    (valid_symbols : TokenType → Bool)
    (hend : valid_symbols END_TAG_NAME = true) (hstart : valid_symbols START_TAG_NAME = false)
    (hraw : valid_symbols RAW_TEXT = false)
    (hn : ∀ c ∈ n, is_tag_name_char c = true)
    (hm : ∀ c ∈ m, is_tag_name_char c = true) (hm0 : m ≠ [])
    (hrest : is_tag_name_char (rest.headD 0) = false) :
    scanner_scan { tags := below ++ [classify n] } (TSLexer.start (m ++ rest) rs) valid_symbols =
      (if canonical_name m = canonical_name n then
        (true, { tags := below }, TSLexer.mk rest m.length 0 none END_TAG_NAME)
      else
        (true, { tags := below ++ [classify n] },
          TSLexer.mk rest m.length 0 none ERRONEOUS_END_TAG_NAME)) ∧
    scanner_scan { tags := [] } (TSLexer.start (m ++ rest) rs) valid_symbols =
      (true, { tags := [] }, TSLexer.mk rest m.length 0 none ERRONEOUS_END_TAG_NAME) := by
  have hs := scan_tag_name_run m rest 0 0 none rs hm hm0 hrest
  have he := tag_equals_classify m n hm hn
  constructor
  · rw [scanner_scan_end_tag_name _ m rest rs valid_symbols hend hstart hraw hm hm0]
    simp only [scan_end_tag_name, TSLexer.start, hs, tag_stack_top, List.getLast?_concat,
      tag_stack_pop, List.dropLast_concat]
    have he2 : tag_equals (classify n) (tag_for_name (canonical_name m))
        = decide (canonical_name n = canonical_name m) := he
    rw [he2]
    by_cases h : canonical_name m = canonical_name n
    · simp [h]
    · have h2 : ¬ canonical_name n = canonical_name m := fun e => h e.symm
      simp [h, h2]
  · rw [scanner_scan_end_tag_name _ m rest rs valid_symbols hend hstart hraw hm hm0]
    simp [scan_end_tag_name, TSLexer.start, hs, tag_stack_top]

/-- C1 at the stack `[DIV, SPAN]` and at the empty stack, with the input `span>`. -/
theorem end_tag_name_scan_witness :
    scanner_scan { tags := [tag_make TagType.DIV] ++ [classify (str "SPAN")] }
        (TSLexer.start (str "span" ++ str ">") TEXT_FRAGMENT) (valid_only [END_TAG_NAME]) =
      (true, { tags := [tag_make TagType.DIV] },
        TSLexer.mk (str ">") 4 0 none END_TAG_NAME) ∧
    scanner_scan { tags := [] } (TSLexer.start (str "span" ++ str ">") TEXT_FRAGMENT)
        (valid_only [END_TAG_NAME]) =
      (true, { tags := [] }, TSLexer.mk (str ">") 4 0 none ERRONEOUS_END_TAG_NAME) := by
  have h := end_tag_name_scan [tag_make TagType.DIV] (str "SPAN") (str "span") (str ">")
    TEXT_FRAGMENT (valid_only [END_TAG_NAME]) (by decide) (by decide) (by decide)
    (by decide) (by decide) (by decide) (by decide)
  rw [if_pos (by decide)] at h
  exact h

/-! ## C3: the implicit end tag before a start tag -/

theorem start_lookahead (c : Nat) (rest : List Nat) (rs : TokenType) :
    (TSLexer.start (c :: rest) rs).lookahead = c := rfl

theorem iswspace_lt : iswspace (ch '<') = false := by decide

theorem iswspace_slash : iswspace (ch '/') = false := by decide

/-- C3. Implicit end tag before a start tag the parent cannot contain. The top `T` of the stack
is not void, implicit-end-tag is valid, raw-text mode is not active, and the input is `<`
followed by the non-empty tag name `n`. If `T` cannot contain the tag classified from `n`,
`scanner_scan` returns `IMPLICIT_END_TAG`, removes exactly the top entry, and the token is
empty: it starts at 0 and its end is marked at 0, before the `<`. If `T` can contain it, the scan
declines and the stack is unchanged. On the stack `[DIV, P]` with the input `<DIV>` the scan
returns `IMPLICIT_END_TAG` and leaves `[DIV]`; the next request at the same `<` declines; and a
start-tag-name request at `DIV>` returns `START_TAG_NAME` with the stack `[DIV, DIV]`. -/
theorem implicit_end_tag_before_start_tag (below : List Tag) (T : Tag) (n rest : List Nat)
    (rs : TokenType) (valid_symbols : TokenType → Bool)
    (hvalid : valid_symbols IMPLICIT_END_TAG = true)
    (hraw : (valid_symbols RAW_TEXT && !valid_symbols START_TAG_NAME
      && !valid_symbols END_TAG_NAME) = false)
    (hT : tag_is_void T = false)
    (hn : ∀ c ∈ n, is_tag_name_char c = true) (hn0 : n ≠ [])
    (hrest : is_tag_name_char (rest.headD 0) = false) :
    scanner_scan { tags := below ++ [T] } (TSLexer.start (ch '<' :: (n ++ rest)) rs)
        valid_symbols =
      (if tag_can_contain T (classify n) then
        (false, { tags := below ++ [T] }, TSLexer.mk rest (1 + n.length) 0 (some 0) rs)
      else
        (true, { tags := below },
          TSLexer.mk rest (1 + n.length) 0 (some 0) IMPLICIT_END_TAG)) ∧
    (TSLexer.mk rest (1 + n.length) 0 (some 0) IMPLICIT_END_TAG).token_end_position = 0 ∧
    scanner_scan { tags := [tag_make TagType.DIV, tag_make TagType.P] }
        (TSLexer.start (str "<DIV>") TEXT_FRAGMENT) (valid_only [IMPLICIT_END_TAG]) =
      (true, { tags := [tag_make TagType.DIV] },
        TSLexer.mk (str ">") 4 0 (some 0) IMPLICIT_END_TAG) ∧
    scanner_scan { tags := [tag_make TagType.DIV] }
        (TSLexer.start (str "<DIV>") TEXT_FRAGMENT) (valid_only [IMPLICIT_END_TAG]) =
      (false, { tags := [tag_make TagType.DIV] },
        TSLexer.mk (str ">") 4 0 (some 0) TEXT_FRAGMENT) ∧
    scanner_scan { tags := [tag_make TagType.DIV] }
        (TSLexer.start (str "DIV>") TEXT_FRAGMENT) (valid_only [START_TAG_NAME]) =
      (true, { tags := [tag_make TagType.DIV, tag_make TagType.DIV] },
        TSLexer.mk (str ">") 3 0 none START_TAG_NAME) := by
  refine ⟨?_, rfl, by decide, by decide, by decide⟩
  obtain ⟨c, n', rfl⟩ := List.exists_cons_of_ne_nil hn0
  have hc := hn c (List.mem_cons_self _ _)
  have hcases := tag_name_char_cases hc
  have hs := scan_tag_name_run (c :: n') rest 1 0 (some 0) rs hn (by simp) hrest
  have h1 : c ≠ 33 := by omega
  have h2 : (c == 47) = false := by simp; omega
  unfold scanner_scan
  rw [skip_whitespace_not_space _ _ (by rw [start_lookahead]; exact iswspace_lt)]
  simp only [hraw, start_lookahead, if_true, Bool.false_eq_true, if_false, hvalid]
  simp only [TSLexer.start, TSLexer.mark_end, advance_cons, TSLexer.lookahead,
    List.cons_append, List.headD_cons, ch_bang, h1, if_false]
  simp only [scan_implicit_end_tag, tag_stack_top, List.getLast?_concat, TSLexer.lookahead,
    List.headD_cons, ch_slash, h2, hT, Bool.not_false, Bool.true_and, Bool.false_eq_true,
    if_false]
  have hs2 : scan_tag_name (TSLexer.mk (c :: (n' ++ rest)) (0 + 1) 0 (some 0) rs) =
      (true, canonical_name (c :: n'), TSLexer.mk rest (1 + (c :: n').length) 0 (some 0) rs) := by
    simpa using hs
  rw [hs2]
  simp only [tag_stack_pop, List.dropLast_concat]
  by_cases hcc : tag_can_contain T (classify (c :: n')) = true
  · have : tag_can_contain T (tag_for_name (canonical_name (c :: n'))) = true := hcc
    simp [this, hcc]
  · have hcc2 : tag_can_contain T (classify (c :: n')) = false := by simpa using hcc
    have : tag_can_contain T (tag_for_name (canonical_name (c :: n'))) = false := hcc2
    simp [this, hcc2]

/-- C3 at the stack `[UL, LI]`: the input `<li>` closes the open list item, the input `<b>`
does not. -/
theorem implicit_end_tag_before_start_tag_witness :
    scanner_scan { tags := [tag_make TagType.UL] ++ [tag_make TagType.LI] }
        (TSLexer.start (ch '<' :: (str "li" ++ str ">")) TEXT_FRAGMENT)
        (valid_only [IMPLICIT_END_TAG]) =
      (true, { tags := [tag_make TagType.UL] },
        TSLexer.mk (str ">") 3 0 (some 0) IMPLICIT_END_TAG) ∧
    scanner_scan { tags := [tag_make TagType.UL] ++ [tag_make TagType.LI] }
        (TSLexer.start (ch '<' :: (str "b" ++ str ">")) TEXT_FRAGMENT)
        (valid_only [IMPLICIT_END_TAG]) =
      (false, { tags := [tag_make TagType.UL] ++ [tag_make TagType.LI] },
        TSLexer.mk (str ">") 2 0 (some 0) TEXT_FRAGMENT) := by
  have h1 := (implicit_end_tag_before_start_tag [tag_make TagType.UL] (tag_make TagType.LI)
    (str "li") (str ">") TEXT_FRAGMENT (valid_only [IMPLICIT_END_TAG]) (by decide) (by decide)
    (by decide) (by decide) (by decide) (by decide)).1
  have h2 := (implicit_end_tag_before_start_tag [tag_make TagType.UL] (tag_make TagType.LI)
    (str "b") (str ">") TEXT_FRAGMENT (valid_only [IMPLICIT_END_TAG]) (by decide) (by decide)
    (by decide) (by decide) (by decide) (by decide)).1
  rw [if_neg (by decide)] at h1
  rw [if_pos (by decide)] at h2
  exact ⟨h1, h2⟩

/-! ## C4 and C7: void elements and the self-closing delimiter -/

/-- C4 as stated fails: with implicit-end-tag valid and raw-text mode active (raw-text valid,
start-tag-name and end-tag-name not), the stack `[BR]` with a void top and the input `<a>`
give a `RAW_TEXT` token over the whole input, and the stack keeps its entry. -/
theorem void_auto_close_in_raw_text_mode :
    tag_is_void (tag_make TagType.BR) = true ∧
    valid_only [IMPLICIT_END_TAG, RAW_TEXT] IMPLICIT_END_TAG = true ∧
    scanner_scan { tags := [tag_make TagType.BR] } (TSLexer.start (str "<a>") TEXT_FRAGMENT)
        (valid_only [IMPLICIT_END_TAG, RAW_TEXT]) =
      (true, { tags := [tag_make TagType.BR] }, TSLexer.mk [] 3 0 (some 3) RAW_TEXT) := by
  decide

/-- C4, amended. Void element auto-close. The top `T` of the stack is void, implicit-end-tag is
valid, raw-text mode is not active, and the input is `<` followed by anything but `/` and `!`
(the end of the input included). Then `scanner_scan` returns `IMPLICIT_END_TAG` and the stack
loses exactly its top entry; nothing is pushed, and the lexer is left right after the `<`, with
no character of the new tag name read. -/
theorem void_auto_close (below : List Tag) (T : Tag) (rest : List Nat) (rs : TokenType)
    (valid_symbols : TokenType → Bool)
    (hvalid : valid_symbols IMPLICIT_END_TAG = true)
    (hraw : (valid_symbols RAW_TEXT && !valid_symbols START_TAG_NAME
      && !valid_symbols END_TAG_NAME) = false)
    (hT : tag_is_void T = true)
    (hslash : rest.headD 0 ≠ ch '/') (hbang : rest.headD 0 ≠ ch '!') :
    scanner_scan { tags := below ++ [T] } (TSLexer.start (ch '<' :: rest) rs) valid_symbols =
      (true, { tags := below }, TSLexer.mk rest 1 0 (some 0) IMPLICIT_END_TAG) := by
  unfold scanner_scan
  rw [skip_whitespace_not_space _ _ (by rw [start_lookahead]; exact iswspace_lt)]
  simp only [hraw, start_lookahead, if_true, Bool.false_eq_true, if_false, hvalid]
  simp only [TSLexer.start, TSLexer.mark_end, advance_cons, TSLexer.lookahead, hbang, if_false]
  have h2 : (rest.headD 0 == ch '/') = false := by simpa using hslash
  simp only [scan_implicit_end_tag, tag_stack_top, List.getLast?_concat, TSLexer.lookahead,
    h2, hT, Bool.not_false, Bool.and_self, if_true, tag_stack_pop, List.dropLast_concat]

/-- C4, amended, at the stack `[DIV, BR]` with the input `<span>`. -/
theorem void_auto_close_witness :
    scanner_scan { tags := [tag_make TagType.DIV] ++ [tag_make TagType.BR] }
        (TSLexer.start (ch '<' :: str "span>") TEXT_FRAGMENT) (valid_only [IMPLICIT_END_TAG]) =
      (true, { tags := [tag_make TagType.DIV] },
        TSLexer.mk (str "span>") 1 0 (some 0) IMPLICIT_END_TAG) :=
  void_auto_close [tag_make TagType.DIV] (tag_make TagType.BR) (str "span>") TEXT_FRAGMENT
    (valid_only [IMPLICIT_END_TAG]) (by decide) (by decide) (by decide) (by decide) (by decide)

/-- C7. Self-closing delimiter on an open element. The stack is not empty, self-closing-delimiter
is valid and raw-text mode is not active. At the input `/>`, `scanner_scan` returns
`SELF_CLOSING_TAG_DELIMITER`, the token is the two characters (it starts at 0, no end is marked
and the lexer is at 2), and the stack loses exactly its top entry. At a `/` that is not followed
by `>`, the scan declines and the stack is unchanged. -/
theorem self_closing_delimiter (below : List Tag) (T : Tag) (rest : List Nat) (rs : TokenType)
    (valid_symbols : TokenType → Bool)
    (hvalid : valid_symbols SELF_CLOSING_TAG_DELIMITER = true)
    (hraw : (valid_symbols RAW_TEXT && !valid_symbols START_TAG_NAME
      && !valid_symbols END_TAG_NAME) = false) :
    scanner_scan { tags := below ++ [T] } (TSLexer.start (ch '/' :: ch '>' :: rest) rs)
        valid_symbols =
      (true, { tags := below }, TSLexer.mk rest 2 0 none SELF_CLOSING_TAG_DELIMITER) ∧
    (TSLexer.mk rest 2 0 none SELF_CLOSING_TAG_DELIMITER).token_end_position = 2 ∧
    (rest.headD 0 ≠ ch '>' →
      scanner_scan { tags := below ++ [T] } (TSLexer.start (ch '/' :: rest) rs) valid_symbols =
        (false, { tags := below ++ [T] }, TSLexer.mk rest 1 0 none rs)) := by
  have hne : below ++ [T] ≠ [] := by simp
  have hlen : ((below ++ [T]).length == 0) = false := by simp
  refine ⟨?_, rfl, ?_⟩
  · unfold scanner_scan
    rw [skip_whitespace_not_space _ _ (by rw [start_lookahead]; exact iswspace_slash)]
    simp only [hraw, start_lookahead, Bool.false_eq_true, if_false, hvalid]
    simp [ch_slash, ch_lt, scan_self_closing_tag_delimiter, TSLexer.start, TSLexer.advance,
      TSLexer.lookahead, tag_stack_empty, tag_stack_pop, ch_gt]
  · intro hgt
    unfold scanner_scan
    rw [skip_whitespace_not_space _ _ (by rw [start_lookahead]; exact iswspace_slash)]
    simp only [hraw, start_lookahead, Bool.false_eq_true, if_false, hvalid]
    have : ¬ (rest.head?.getD 0 = 62) := by simpa [ch_gt] using hgt
    simp [ch_slash, ch_lt, scan_self_closing_tag_delimiter, TSLexer.start, TSLexer.advance,
      TSLexer.lookahead, ch_gt, this]

/-- C7 at the stack `[DIV, IMG]` with the inputs `/>` and `/x`. -/
theorem self_closing_delimiter_witness :
    scanner_scan { tags := [tag_make TagType.DIV] ++ [tag_make TagType.IMG] }
        (TSLexer.start (ch '/' :: ch '>' :: str "x") TEXT_FRAGMENT)
        (valid_only [SELF_CLOSING_TAG_DELIMITER]) =
      (true, { tags := [tag_make TagType.DIV] },
        TSLexer.mk (str "x") 2 0 none SELF_CLOSING_TAG_DELIMITER) ∧
    scanner_scan { tags := [tag_make TagType.DIV] ++ [tag_make TagType.IMG] }
        (TSLexer.start (ch '/' :: str "x") TEXT_FRAGMENT)
        (valid_only [SELF_CLOSING_TAG_DELIMITER]) =
      (false, { tags := [tag_make TagType.DIV] ++ [tag_make TagType.IMG] },
        TSLexer.mk (str "x") 1 0 none TEXT_FRAGMENT) :=
  have h := self_closing_delimiter [tag_make TagType.DIV] (tag_make TagType.IMG) (str "x")
    TEXT_FRAGMENT (valid_only [SELF_CLOSING_TAG_DELIMITER]) (by decide) (by decide)
  ⟨h.1, h.2.2 (by decide)⟩

/-! ## C8: text and interpolation -/

theorem ch_lbrace : ch '\x7b' = 123 := by decide
theorem ch_rbrace : ch '\x7d' = 125 := by decide
theorem ch_question : ch '?' = 63 := by decide

theorem text_loop_step (iv : Bool) (c : Nat) (rest : List Nat) (fuel : Nat) (has_text : Bool)
    (p ts : Nat) (te : Option Nat) (rs : TokenType)
    (h : text_stops_at iv (c :: rest) = false) :
    ∃ te2, text_loop iv (fuel + 1) has_text (TSLexer.mk (c :: rest) p ts te rs) =
      text_loop iv fuel true (TSLexer.mk rest (p + 1) ts te2 rs) := by
  simp only [text_stops_at, List.headD_cons, List.tail_cons, Bool.or_eq_false_iff,
    Bool.and_eq_false_iff, beq_eq_false_iff_ne, ch_lt, ch_lbrace, ch_rbrace, ch_bang,
    ch_question, ch_slash] at h
  obtain ⟨⟨⟨h0, h1⟩, h2⟩, h3⟩ := h
  simp only [text_loop, TSLexer.lookahead, List.headD_cons, h0, if_false, ch_lt, ch_lbrace,
    ch_rbrace, ch_bang, ch_question, ch_slash, TSLexer.mark_end, advance_cons]
  generalize rest.headD 0 = d at *
  by_cases c1 : c = 60
  · subst c1
    simp only [if_true]
    have : (iswalpha d || d == 33 || d == 63 || d == 47) = false := by
      rcases h1 with h1 | h1
      · exact absurd rfl h1
      · simpa [Bool.or_assoc, and_assoc] using h1
    rw [this]
    exact ⟨_, rfl⟩
  · rw [if_neg c1]
    by_cases c2 : c = 123
    · subst c2
      simp only [if_true]
      have : ¬ d = 123 := by
        rcases h2 with h2 | h2
        · exact absurd rfl h2
        · exact h2
      rw [if_neg this]
      exact ⟨_, rfl⟩
    · rw [if_neg c2]
      by_cases c3 : (decide (c = 125) && iv) = true
      · rw [if_pos c3]
        simp only [Bool.and_eq_true, decide_eq_true_eq] at c3
        obtain ⟨c3, hiv⟩ := c3
        subst c3
        have : ¬ d = 125 := by
          rcases h3 with (h3 | h3) | h3
          · simp [hiv] at h3
          · exact absurd rfl h3
          · exact h3
        rw [if_neg this]
        exact ⟨_, rfl⟩
      · rw [if_neg c3]
        exact ⟨_, rfl⟩

theorem text_loop_stop (iv : Bool) (input : List Nat) (fuel : Nat) (has_text : Bool)
    (p ts : Nat) (te : Option Nat) (rs : TokenType)
    (h : text_stops_at iv input = true) :
    text_loop iv (fuel + 1) has_text (TSLexer.mk input p ts te rs) =
      (if input.headD 0 = 0 then
        (TextLoopExit.broke has_text, TSLexer.mk input p ts (some p) rs)
      else if input.headD 0 = ch '\x7d' then
        (TextLoopExit.returned has_text,
          TSLexer.mk input.tail (p + 1) ts (some p) INTERPOLATION_TEXT)
      else (TextLoopExit.broke has_text, TSLexer.mk input.tail (p + 1) ts (some p) rs)) := by
  cases input with
  | nil => simp [text_loop, TSLexer.lookahead, TSLexer.mark_end]
  | cons c rest =>
    simp only [text_stops_at, List.headD_cons, List.tail_cons, Bool.or_eq_true,
      Bool.and_eq_true, beq_iff_eq, ch_lt, ch_lbrace, ch_rbrace, ch_bang,
      ch_question, ch_slash] at h
    simp only [text_loop, TSLexer.lookahead, List.headD_cons, ch_lt, ch_lbrace,
      ch_rbrace, ch_bang, ch_question, ch_slash, TSLexer.mark_end, advance_cons, List.tail_cons]
    generalize rest.headD 0 = d at *
    by_cases c0 : c = 0
    · simp [c0]
    · rw [if_neg c0, if_neg c0]
      rcases h with ((h | h) | h) | h
      · exact absurd h c0
      · obtain ⟨rfl, hd⟩ := h
        have : (iswalpha d || d == 33 || d == 63 || d == 47) = true := by
          simpa [Bool.or_assoc, or_assoc] using hd
        simp [this]
      · obtain ⟨rfl, hd⟩ := h
        simp [hd]
      · obtain ⟨⟨hiv, rfl⟩, hd⟩ := h
        simp [hd, hiv]

theorem text_loop_run (iv : Bool) : ∀ (i : Nat) (input : List Nat) (fuel : Nat)
    (has_text : Bool) (p ts : Nat) (te : Option Nat) (rs : TokenType),
    text_stops_at iv (input.drop i) = true →
    (∀ j < i, text_stops_at iv (input.drop j) = false) →
    input.length < fuel →
    text_loop iv fuel has_text (TSLexer.mk input p ts te rs) =
      (if (input.drop i).headD 0 = 0 then
        (TextLoopExit.broke (has_text || decide (0 < i)),
          TSLexer.mk (input.drop i) (p + i) ts (some (p + i)) rs)
      else if (input.drop i).headD 0 = ch '\x7d' then
        (TextLoopExit.returned (has_text || decide (0 < i)),
          TSLexer.mk (input.drop (i + 1)) (p + i + 1) ts (some (p + i)) INTERPOLATION_TEXT)
      else
        (TextLoopExit.broke (has_text || decide (0 < i)),
          TSLexer.mk (input.drop (i + 1)) (p + i + 1) ts (some (p + i)) rs)) := by
  intro i
  induction i with
  | zero =>
    intro input fuel has_text p ts te rs hstop _ hfuel
    cases fuel with
    | zero => simp at hfuel
    | succ f =>
      rw [text_loop_stop iv input f has_text p ts te rs (by simpa using hstop)]
      simp
  | succ k ih =>
    intro input fuel has_text p ts te rs hstop hmin hfuel
    have h0 := hmin 0 (Nat.succ_pos k)
    cases input with
    | nil => simp [text_stops_at] at h0
    | cons c rest =>
      cases fuel with
      | zero => simp at hfuel
      | succ f =>
        obtain ⟨te2, hstep⟩ := text_loop_step iv c rest f has_text p ts te rs (by simpa using h0)
        rw [hstep, ih rest f true (p + 1) ts te2 rs (by simpa using hstop)
          (fun j hj => by simpa using hmin (j + 1) (by omega)) (by simpa using hfuel)]
        simp [Nat.add_assoc, Nat.add_comm 1 k]

/-- C8. Text and interpolation extent. Not in error recovery, with the lookahead not `<` and
plain-text or interpolation-text valid, let `i` be the first position at which the text stops
(`text_stops_at`): the end of the input, a `<` followed by a letter, `!`, `?` or `/`, two opening
braces, or, when interpolation-text is valid, two closing braces. If `i > 0`,
`tree_sitter_vue_external_scanner_scan` returns a token that spans exactly the input before `i`,
of kind `INTERPOLATION_TEXT` when the stop is the two closing braces and `TEXT_FRAGMENT`
otherwise, and the tag stack is unchanged. On the input of the example, with both kinds valid,
the calls at the offsets 0, 5 and 8 return plain-text `abc`, interpolation-text `x` and
plain-text `def`, and the call at `<div>` returns no token. -/
theorem text_extent (scanner : Scanner) (input : List Nat) (rs : TokenType)
    (valid_symbols : TokenType → Bool) (i : Nat)
    (hrecovery : (valid_symbols START_TAG_NAME && valid_symbols RAW_TEXT) = false)
    (hlookahead : input.headD 0 ≠ ch '<')
    (hvalid : (valid_symbols TEXT_FRAGMENT || valid_symbols INTERPOLATION_TEXT) = true)
    (hstop : text_stops_at (valid_symbols INTERPOLATION_TEXT) (input.drop i) = true)
    (hfirst : ∀ j < i, text_stops_at (valid_symbols INTERPOLATION_TEXT) (input.drop j) = false)
    (hi : 0 < i) :
    (∃ lexer,
      tree_sitter_vue_external_scanner_scan scanner (TSLexer.start input rs) valid_symbols =
        (true, scanner, lexer) ∧
      lexer.token_start = 0 ∧ lexer.token_end_position = i ∧
      lexer.result_symbol =
        (if (input.drop i).take 2 = [ch '\x7d', ch '\x7d'] then INTERPOLATION_TEXT
          else TEXT_FRAGMENT)) ∧
    (∃ lexer,
      tree_sitter_vue_external_scanner_scan scanner
          (TSLexer.start (str "abc\x7b\x7bx\x7d\x7ddef<div>") rs)
          (valid_only [TEXT_FRAGMENT, INTERPOLATION_TEXT]) = (true, scanner, lexer) ∧
      lexer.token_start = 0 ∧ lexer.token_end_position = 3 ∧
      lexer.result_symbol = TEXT_FRAGMENT) ∧
    (∃ lexer,
      tree_sitter_vue_external_scanner_scan scanner
          (TSLexer.start (str "x\x7d\x7ddef<div>") rs)
          (valid_only [TEXT_FRAGMENT, INTERPOLATION_TEXT]) = (true, scanner, lexer) ∧
      lexer.token_start = 0 ∧ lexer.token_end_position = 1 ∧
      lexer.result_symbol = INTERPOLATION_TEXT) ∧
    (∃ lexer,
      tree_sitter_vue_external_scanner_scan scanner
          (TSLexer.start (str "def<div>") rs)
          (valid_only [TEXT_FRAGMENT, INTERPOLATION_TEXT]) = (true, scanner, lexer) ∧
      lexer.token_start = 0 ∧ lexer.token_end_position = 3 ∧
      lexer.result_symbol = TEXT_FRAGMENT) ∧
    (∃ lexer,
      tree_sitter_vue_external_scanner_scan scanner (TSLexer.start (str "<div>") rs)
          (valid_only [TEXT_FRAGMENT, INTERPOLATION_TEXT]) = (false, scanner, lexer)) := by
  refine ⟨?_, ⟨_, rfl, rfl, rfl, rfl⟩, ⟨_, rfl, rfl, rfl, rfl⟩, ⟨_, rfl, rfl, rfl, rfl⟩,
    ⟨_, rfl⟩⟩
  have hrun := text_loop_run (valid_symbols INTERPOLATION_TEXT) i input (input.length + 1) false
    0 0 none rs hstop hfirst (Nat.lt_succ_self _)
  have hpos : decide (0 < i) = true := by simpa using hi
  have hl : ((TSLexer.start input rs).lookahead != ch '<') = true := by
    simpa [TSLexer.start, TSLexer.lookahead] using hlookahead
  unfold tree_sitter_vue_external_scanner_scan
  simp only [hrecovery, hl, hvalid, Bool.not_false, Bool.and_self, if_true]
  have hrun2 : text_loop (valid_symbols INTERPOLATION_TEXT) ((TSLexer.start input rs).input.length + 1)
      false (TSLexer.start input rs) = _ := hrun
  rw [hrun2]
  simp only [hpos, Bool.or_true, Nat.zero_add]
  -- the three ways the loop is left
  generalize hrest : input.drop i = tl at *
  simp only [text_stops_at, Bool.or_eq_true, Bool.and_eq_true, beq_iff_eq, ch_lt, ch_lbrace,
    ch_rbrace] at hstop
  by_cases c0 : tl.headD 0 = 0
  · rw [if_pos c0]
    refine ⟨_, rfl, rfl, rfl, ?_⟩
    have : ¬ (tl.take 2 = [ch '\x7d', ch '\x7d']) := by
      intro h
      cases tl with
      | nil => simp at h
      | cons a t => simp [ch_rbrace] at h c0; omega
    simp [this]
  · rw [if_neg c0]
    by_cases c1 : tl.headD 0 = ch '\x7d'
    · rw [if_pos c1]
      refine ⟨_, rfl, rfl, rfl, ?_⟩
      have : tl.take 2 = [ch '\x7d', ch '\x7d'] := by
        rw [ch_rbrace] at c1
        rcases hstop with ((h | h) | h) | h
        · exact absurd h c0
        · omega
        · omega
        · cases tl with
          | nil => simp at c1
          | cons a t =>
            cases t with
            | nil => simp at h
            | cons b t2 => simp [ch_rbrace] at h ⊢; omega
      simp [this]
    · rw [if_neg c1]
      refine ⟨_, rfl, rfl, rfl, ?_⟩
      have : ¬ (tl.take 2 = [ch '\x7d', ch '\x7d']) := by
        intro h
        cases tl with
        | nil => simp at h
        | cons a t => simp at h c1; omega
      simp [this]

/-- C8 at the input of its example: the text stops first at position 3. -/
theorem text_extent_witness :
    ∃ lexer,
      tree_sitter_vue_external_scanner_scan scanner_new
          (TSLexer.start (str "abc\x7b\x7bx\x7d\x7ddef<div>") TEXT_FRAGMENT)
          (valid_only [TEXT_FRAGMENT, INTERPOLATION_TEXT]) = (true, scanner_new, lexer) ∧
      lexer.token_start = 0 ∧ lexer.token_end_position = 3 ∧
      lexer.result_symbol =
        (if ((str "abc\x7b\x7bx\x7d\x7ddef<div>").drop 3).take 2 = [ch '\x7d', ch '\x7d']
          then INTERPOLATION_TEXT else TEXT_FRAGMENT) :=
  (text_extent scanner_new (str "abc\x7b\x7bx\x7d\x7ddef<div>") TEXT_FRAGMENT
    (valid_only [TEXT_FRAGMENT, INTERPOLATION_TEXT]) 3 (by decide) (by decide) (by decide)
    (by decide) (by decide) (by decide)).1

/-! ## Lemmas: deserialization -/

theorem deserialize_tags_total (buffer : List Nat) (slots : List Tag) :
    ∀ (n offset : Nat), ∃ out, deserialize_tags buffer n offset slots = some out ∧
      out.length = slots.length ∧
      ∀ tag ∈ out, tag ∈ slots ∨ tag.type ≠ TagType.CUSTOM ∨
        ∃ o, offset ≤ o ∧ built_from_record buffer tag o := by
  induction slots with
  | nil =>
    intro n offset
    exact ⟨[], by simp [deserialize_tags], rfl, by simp⟩
  | cons slot slots ih =>
    intro n offset
    cases n with
    | zero =>
      exact ⟨slot :: slots, by simp [deserialize_tags], rfl, fun tag h => Or.inl h⟩
    | succ n =>
      by_cases h1 : offset ≥ buffer.length
      · exact ⟨slot :: slots, by simp [deserialize_tags, h1], rfl, fun tag h => Or.inl h⟩
      · have hlt : offset < buffer.length := by omega
        have hget : buffer[offset]? = some buffer[offset] := List.getElem?_eq_getElem hlt
        by_cases hc : buffer[offset] = TagType.CUSTOM
        · by_cases h2 : offset + 1 ≥ buffer.length
          · refine ⟨tag_reset slot :: slots, by simp [deserialize_tags, h1, hget, hc, h2], rfl, ?_⟩
            intro tag h
            rcases List.mem_cons.1 h with h | h
            · exact Or.inr (Or.inl (by rw [h]; simp [tag_reset]))
            · exact Or.inl (List.mem_cons_of_mem _ h)
          · have hlt2 : offset + 1 < buffer.length := by omega
            have hget2 : buffer[offset + 1]? = some buffer[offset + 1] :=
              List.getElem?_eq_getElem hlt2
            obtain ⟨out, hout, hlen, hmem⟩ := ih n
              (offset + 1 + 1 + min (min buffer[offset + 1] 255) (buffer.length - (offset + 1 + 1)))
            refine ⟨Tag.mk buffer[offset] ((buffer.drop (offset + 1 + 1)).take
                  (min (min buffer[offset + 1] 255) (buffer.length - (offset + 1 + 1)))) :: out,
              ?_, by simp [hlen], ?_⟩
            · have e1 : ∀ x : Nat, (if x > 255 then 255 else x) = min x 255 := by
                intro x; split <;> omega
              have e2 : ∀ x y : Nat, (if x > y then y else x) = min x y := by
                intro x y; split <;> omega
              simp only [deserialize_tags, h1, hget, hc, h2, hget2, if_false, if_true,
                Option.bind_eq_bind, Option.some_bind, TREE_SITTER_HTML_MAX_CUSTOM_TAG_NAME_LENGTH,
                e1, e2]
              have e3 : offset + 1 + 1 + min (min buffer[offset + 1] 255)
                  (buffer.length - (offset + 1 + 1)) ≤ buffer.length := by omega
              rw [if_pos e3]
              simp only [Option.some_bind, hout]
            · intro tag h
              rcases List.mem_cons.1 h with h | h
              · refine Or.inr (Or.inr ⟨offset, Nat.le_refl _, hlt2, by rw [hget, hc], ?_, ?_, ?_⟩)
                · rw [h]
                  simp only []
                  have : buffer.getD (offset + 1) 0 = buffer[offset + 1] := by
                    simp [List.getD, hget2]
                  rw [this, List.take_eq_take]
                  simp only [List.length_drop]
                  omega
                · rw [h]
                  simp only [List.length_take, List.length_drop]
                  omega
                · rw [h]
                  simp only [List.length_take, List.length_drop]
                  omega
              · rcases hmem tag h with h | h | ⟨o, ho, hb⟩
                · exact Or.inl (List.mem_cons_of_mem _ h)
                · exact Or.inr (Or.inl h)
                · exact Or.inr (Or.inr ⟨o, by omega, hb⟩)
        · obtain ⟨out, hout, hlen, hmem⟩ := ih n (offset + 1)
          refine ⟨Tag.mk buffer[offset] [] :: out, ?_, by simp [hlen], ?_⟩
          · simp [deserialize_tags, h1, hget, hc, hout]
          · intro tag h
            rcases List.mem_cons.1 h with h | h
            · exact Or.inr (Or.inl (by rw [h]; exact hc))
            · rcases hmem tag h with h | h | ⟨o, ho, hb⟩
              · exact Or.inl (List.mem_cons_of_mem _ h)
              · exact Or.inr (Or.inl h)
              · exact Or.inr (Or.inr ⟨o, by omega, hb⟩)

/-! ## C10 and C9: deserialization of arbitrary buffers -/

theorem tag_stack_resize_nil (n : Nat) :
    tag_stack_resize [] n = List.replicate n (Tag.mk TagType.END_OF_VOID_TAGS []) := by
  cases n with
  | zero => simp [tag_stack_resize]
  | succ k => simp [tag_stack_resize, tag_reset]

theorem scanner_deserialize_short (scanner : Scanner) (buffer : List Nat)
    (h : buffer.length < 4) : scanner_deserialize scanner buffer = some { tags := [] } := by
  unfold scanner_deserialize
  by_cases h0 : buffer.length = 0
  · rw [if_pos h0]
  · rw [if_neg h0, if_pos (by omega)]

theorem scanner_deserialize_long (scanner : Scanner) (buffer : List Nat)
    (h : 4 ≤ buffer.length) :
    ∃ data,
      deserialize_tags buffer (buffer.getD 0 0 + 256 * buffer.getD 1 0) 4
        (List.replicate (buffer.getD 2 0 + 256 * buffer.getD 3 0)
          (Tag.mk TagType.END_OF_VOID_TAGS [])) = some data ∧
      data.length = buffer.getD 2 0 + 256 * buffer.getD 3 0 ∧
      (∀ tag ∈ data, tag.type = TagType.CUSTOM → ∃ o, 4 ≤ o ∧ built_from_record buffer tag o) ∧
      scanner_deserialize scanner buffer =
        some { tags := data.take (buffer.getD 0 0 + 256 * buffer.getD 1 0) ++
          (data.drop (buffer.getD 0 0 + 256 * buffer.getD 1 0)).map tag_reset } := by
  obtain ⟨data, hdata, hlen, hmem⟩ := deserialize_tags_total buffer
    (List.replicate (buffer.getD 2 0 + 256 * buffer.getD 3 0) (Tag.mk TagType.END_OF_VOID_TAGS []))
    (buffer.getD 0 0 + 256 * buffer.getD 1 0) 4
  refine ⟨data, hdata, by simpa using hlen, ?_, ?_⟩
  · intro tag ht hc
    rcases hmem tag ht with h1 | h1 | h1
    · rw [List.eq_of_mem_replicate h1] at hc
      exact absurd hc (by decide)
    · exact absurd hc h1
    · exact h1
  · match buffer, h with
    | b0 :: b1 :: b2 :: b3 :: rest, _ =>
      simp only [scanner_deserialize, List.length_cons, Nat.add_eq_zero, and_false, if_false,
        show ¬ (rest.length + 1 + 1 + 1 + 1 < 2 + 2) by omega, List.getElem?_cons_zero,
        List.getElem?_cons_succ, Option.bind_eq_bind, Option.some_bind, tag_stack_resize_nil]
      simp only [List.getD_cons_zero, List.getD_cons_succ] at hdata
      simp [hdata]

/-- C10. Deserialisation stays in bounds. For every byte buffer, `scanner_deserialize` reads no
byte outside the buffer (it has a result). The stack it leaves has depth 0 when the buffer is
shorter than 4 bytes and otherwise the depth stored in the bytes 2 and 3, so never more than
65535. Every custom tag in it was built from a record at some offset `o` of the buffer (type
byte at `o`, length byte at `o + 1`), and its name has at most 255 bytes and at most as many
as remained in the buffer after the length byte. -/
theorem deserialize_in_bounds (scanner : Scanner) (buffer : List Nat)
    (hbytes : ∀ b ∈ buffer, b < 256) :
    ∃ result, scanner_deserialize scanner buffer = some result ∧
      (buffer.length < 4 → result.tags.length = 0) ∧
      (4 ≤ buffer.length →
        result.tags.length = buffer.getD 2 0 + 256 * buffer.getD 3 0) ∧
      result.tags.length ≤ 65535 ∧
      ∀ tag ∈ result.tags, tag.type = TagType.CUSTOM →
        ∃ o, 4 ≤ o ∧ o + 1 < buffer.length ∧ buffer[o]? = some TagType.CUSTOM ∧
          tag.custom_tag_name = (buffer.drop (o + 2)).take (min (buffer.getD (o + 1) 0) 255) ∧
          tag.custom_tag_name.length ≤ 255 ∧
          tag.custom_tag_name.length ≤ buffer.length - (o + 2) := by
  by_cases h : buffer.length < 4
  · exact ⟨_, scanner_deserialize_short scanner buffer h, fun _ => rfl, fun h4 => by omega,
      by simp, by simp⟩
  · have h4 : 4 ≤ buffer.length := by omega
    obtain ⟨data, _, hlen, hmem, hres⟩ := scanner_deserialize_long scanner buffer h4
    have hl : (data.take (buffer.getD 0 0 + 256 * buffer.getD 1 0) ++
        (data.drop (buffer.getD 0 0 + 256 * buffer.getD 1 0)).map tag_reset).length
        = buffer.getD 2 0 + 256 * buffer.getD 3 0 := by
      simp only [List.length_append, List.length_take, List.length_map, List.length_drop, hlen]
      omega
    have hb : ∀ i, buffer.getD i 0 < 256 := by
      intro i
      by_cases hi : i < buffer.length
      · rw [List.getD_eq_getElem _ _ hi]
        exact hbytes _ (List.getElem_mem _)
      · rw [List.getD_eq_default _ _ (by omega)]
        omega
    refine ⟨_, hres, fun h3 => absurd h3 h, fun _ => hl, ?_, ?_⟩
    · have h2 := hb 2
      have h3 := hb 3
      simp only [hl]
      omega
    · intro tag ht hc
      simp only [List.mem_append, List.mem_map] at ht
      rcases ht with ht | ⟨t, _, ht⟩
      · exact hmem tag (List.mem_of_mem_take ht) hc
      · rw [← ht] at hc
        exact absurd hc (by simp [tag_reset])

/-- C10 at a buffer whose only record announces a name of 200 bytes and holds 2. -/
theorem deserialize_in_bounds_witness :
    ∃ result, scanner_deserialize scanner_new [1, 0, 1, 0, 126, 200, 65, 66] = some result ∧
      result.tags.length = 1 ∧
      ∀ tag ∈ result.tags, tag.type = TagType.CUSTOM → tag.custom_tag_name.length ≤ 2 := by
  obtain ⟨result, h1, _, h3, _, h5⟩ :=
    deserialize_in_bounds scanner_new [1, 0, 1, 0, 126, 200, 65, 66] (by decide)
  refine ⟨result, h1, h3 (by decide), ?_⟩
  intro tag ht hc
  obtain ⟨o, ho, _, _, _, _, hrem⟩ := h5 tag ht hc
  simp only [List.length_cons, List.length_nil] at hrem
  omega

/-- C9 as stated fails: the header `[5, 0, 2, 0]` announces 5 serialized tags for a logical size
of 2 and is followed by no record at all, and `scanner_deserialize` leaves a stack of two reset
tags, not the empty stack. -/
theorem malformed_snapshot_keeps_logical_size :
    scanner_deserialize scanner_new [5, 0, 2, 0] =
      some { tags := [Tag.mk TagType.END_OF_VOID_TAGS [], Tag.mk TagType.END_OF_VOID_TAGS []] } := by
  decide

/-- C9, amended. For every scanner state and every buffer, `scanner_deserialize` leaves the tag
stack empty when the buffer is shorter than the 4-byte header. When the header is there, the
stack is not emptied, whatever the counts: its depth is the logical size declared in the bytes 2
and 3, every entry at or above the serialized-tag count of the bytes 0 and 1 is the reset tag,
and with no bytes after the header every entry is the reset tag. -/
theorem malformed_snapshot (scanner : Scanner) (buffer : List Nat) :
    ∃ result, scanner_deserialize scanner buffer = some result ∧
      (buffer.length < 4 → result.tags = []) ∧
      (4 ≤ buffer.length →
        result.tags.length = buffer.getD 2 0 + 256 * buffer.getD 3 0 ∧
        (∀ j, buffer.getD 0 0 + 256 * buffer.getD 1 0 ≤ j → j < result.tags.length →
          result.tags[j]? = some (Tag.mk TagType.END_OF_VOID_TAGS [])) ∧
        (buffer.length = 4 → ∀ tag ∈ result.tags, tag = Tag.mk TagType.END_OF_VOID_TAGS [])) := by
  by_cases h : buffer.length < 4
  · exact ⟨_, scanner_deserialize_short scanner buffer h, fun _ => rfl, fun h4 => by omega⟩
  · have h4 : 4 ≤ buffer.length := by omega
    obtain ⟨data, hdata, hlen, _, hres⟩ := scanner_deserialize_long scanner buffer h4
    have hl : (data.take (buffer.getD 0 0 + 256 * buffer.getD 1 0) ++
        (data.drop (buffer.getD 0 0 + 256 * buffer.getD 1 0)).map tag_reset).length
        = buffer.getD 2 0 + 256 * buffer.getD 3 0 := by
      simp only [List.length_append, List.length_take, List.length_map, List.length_drop, hlen]
      omega
    refine ⟨_, hres, fun h3 => absurd h3 h, fun _ => ⟨hl, ?_, ?_⟩⟩
    · intro j hj hjl
      rw [hl] at hjl
      generalize buffer.getD 0 0 + 256 * buffer.getD 1 0 = ser at *
      have htl : (data.take ser).length = ser := by
        rw [List.length_take, hlen]
        omega
      rw [List.getElem?_append_right (by omega), htl, List.getElem?_map, List.getElem?_drop]
      have : ser + (j - ser) < data.length := by omega
      rw [List.getElem?_eq_getElem this]
      rfl
    · intro h5 tag ht
      have hd : data = List.replicate (buffer.getD 2 0 + 256 * buffer.getD 3 0)
          (Tag.mk TagType.END_OF_VOID_TAGS []) := by
        generalize buffer.getD 0 0 + 256 * buffer.getD 1 0 = ser at *
        generalize buffer.getD 2 0 + 256 * buffer.getD 3 0 = tc at *
        cases tc with
        | zero =>
          cases data with
          | nil => rfl
          | cons a t => simp at hlen
        | succ k =>
          cases ser with
          | zero =>
            simp only [List.replicate_succ, deserialize_tags] at hdata
            simpa [List.replicate_succ] using hdata.symm
          | succ s =>
            simp only [List.replicate_succ, deserialize_tags, h5, ge_iff_le, Nat.le_refl,
              if_true] at hdata
            simpa [List.replicate_succ] using hdata.symm
      simp only [List.mem_append, List.mem_map] at ht
      rcases ht with ht | ⟨t, _, ht⟩
      · have := List.mem_of_mem_take ht
        rw [hd] at this
        exact List.eq_of_mem_replicate this
      · rw [← ht]
        rfl

/-- C9, amended, at a header that is followed by one record for two announced ones. -/
theorem malformed_snapshot_witness :
    ∃ result, scanner_deserialize scanner_new [2, 0, 3, 0, 48] = some result ∧
      result.tags.length = 3 ∧
      result.tags[2]? = some (Tag.mk TagType.END_OF_VOID_TAGS []) := by
  obtain ⟨result, h1, _, h3⟩ := malformed_snapshot scanner_new [2, 0, 3, 0, 48]
  obtain ⟨h4, h5, _⟩ := h3 (by decide)
  exact ⟨result, h1, h4, h5 2 (by decide) (by rw [h4]; decide)⟩

/-! ## Lemmas: the round trip below the capacity -/

theorem encode_tag_length (tag : Tag) :
    (encode_tag tag).length =
      (if tag.type = TagType.CUSTOM then 2 + tag.custom_tag_name.length else 1) := by
  unfold encode_tag
  split
  · simp only [List.length_cons]
    omega
  · rfl

theorem getElem?_at_length (pre : List Nat) (x : Nat) (xs : List Nat) :
    (pre ++ x :: xs)[pre.length]? = some x := by
  rw [List.getElem?_append_right (Nat.le_refl _)]
  simp

theorem getElem?_at_length_succ (pre : List Nat) (x y : Nat) (xs : List Nat) :
    (pre ++ x :: y :: xs)[pre.length + 1]? = some y := by
  rw [List.getElem?_append_right (by omega)]
  simp

theorem drop_at_length_succ_succ (pre : List Nat) (x y : Nat) (xs : List Nat) :
    (pre ++ x :: y :: xs).drop (pre.length + 1 + 1) = xs := by
  have : pre ++ x :: y :: xs = (pre ++ [x, y]) ++ xs := by simp
  rw [this]
  have hl : (pre ++ [x, y]).length = pre.length + 1 + 1 := by simp
  rw [← hl, List.drop_left]

theorem encoding_size_eq (tags : List Tag) :
    encoding_size tags = 4 + (encode_tags tags).length := by
  induction tags with
  | nil => rfl
  | cons t ts ih =>
    have h1 := encode_tag_length t
    have h2 := ih
    simp only [encoding_size, List.map_cons, List.sum_cons, encode_tags, List.length_append,
      h1] at h2 ⊢
    omega

theorem length_le_encode_tags (tags : List Tag) : tags.length ≤ (encode_tags tags).length := by
  induction tags with
  | nil => simp
  | cons t ts ih =>
    have : 1 ≤ (encode_tag t).length := by
      unfold encode_tag
      split <;> simp
    simp only [encode_tags, List.length_cons, List.length_append]
    omega

theorem serialize_tags_fits (tags : List Tag) (h : ∀ t ∈ tags, classified t) :
    ∀ offset, offset + (encode_tags tags).length < TREE_SITTER_SERIALIZATION_BUFFER_SIZE →
      serialize_tags tags offset = (tags.length, encode_tags tags) := by
  induction tags with
  | nil => intro offset _; rfl
  | cons t ts ih =>
    intro offset hfit
    have ht := h t (List.mem_cons_self _ _)
    have hts := ih (fun x hx => h x (List.mem_cons_of_mem _ hx))
    have hl := encode_tag_length t
    have hC : TagType.CUSTOM = 126 := rfl
    simp only [encode_tags, List.length_append, TREE_SITTER_SERIALIZATION_BUFFER_SIZE] at hfit
    rcases ht with ⟨hb, hname⟩ | ⟨hc, h1, h255⟩
    · have hb2 : @LT.lt Nat _ t.type 126 := hb
      have hne : ¬ t.type = TagType.CUSTOM := by
        intro h
        have h2 : @Eq Nat t.type 126 := h
        omega
      rw [if_neg hne] at hl
      rw [hl] at hfit
      have hrec := hts (offset + 1) (by
        simp only [TREE_SITTER_SERIALIZATION_BUFFER_SIZE]; omega)
      simp only [serialize_tags, hne, if_false, TREE_SITTER_SERIALIZATION_BUFFER_SIZE, hrec,
        encode_tags, encode_tag, to_char]
      rw [if_neg (by omega), Nat.mod_eq_of_lt (by omega)]
      rfl
    · rw [if_pos hc] at hl
      rw [hl] at hfit
      have hrec := hts (offset + 2 + t.custom_tag_name.length) (by
        simp only [TREE_SITTER_SERIALIZATION_BUFFER_SIZE]; omega)
      have hcap : ¬ t.custom_tag_name.length > 255 := by omega
      simp only [serialize_tags, hc, if_true, TREE_SITTER_SERIALIZATION_BUFFER_SIZE,
        Tag.custom_tag_name_length, UINT8_MAX, hcap, if_false, hrec, encode_tags, encode_tag,
        to_char, List.take_length]
      rw [if_neg (by omega), Nat.mod_eq_of_lt (by decide : (TagType.CUSTOM : Nat) < 256),
        Nat.mod_eq_of_lt (by omega : t.custom_tag_name.length < 256)]
      simp

theorem deserialize_encoded (tags : List Tag) (h : ∀ t ∈ tags, classified t) :
    ∀ (pre : List Nat) (slots : List Tag), tags.length ≤ slots.length →
      deserialize_tags (pre ++ encode_tags tags) tags.length pre.length slots =
        some (tags ++ slots.drop tags.length) := by
  induction tags with
  | nil =>
    intro pre slots _
    cases slots <;> simp [deserialize_tags]
  | cons t ts ih =>
    intro pre slots hlen
    have ht := h t (List.mem_cons_self _ _)
    have hts := ih (fun x hx => h x (List.mem_cons_of_mem _ hx))
    cases slots with
    | nil => simp at hlen
    | cons slot slots =>
      have hlen2 : ts.length ≤ slots.length := Nat.le_of_succ_le_succ hlen
      have hrec := hts (pre ++ encode_tag t) slots hlen2
      rw [List.append_assoc] at hrec
      rcases ht with ⟨hb, hname⟩ | ⟨hc, h1, h255⟩
      · have hne : ¬ t.type = TagType.CUSTOM := by
          intro h2
          have hb2 : @LT.lt Nat _ t.type 126 := hb
          have h3 : @Eq Nat t.type 126 := h2
          omega
        have henc : encode_tag t = [t.type] := by simp [encode_tag, hne]
        rw [henc] at hrec
        have hbuf : pre ++ encode_tags (t :: ts) = pre ++ t.type :: encode_tags ts := by
          simp [encode_tags, henc]
        have hget : (pre ++ encode_tags (t :: ts))[pre.length]? = some t.type := by
          rw [hbuf, getElem?_at_length]
        have hlt : ¬ pre.length ≥ (pre ++ encode_tags (t :: ts)).length := by
          rw [hbuf]
          simp
        have hrec2 : deserialize_tags (pre ++ encode_tags (t :: ts)) ts.length (pre.length + 1)
            slots = some (ts ++ List.drop ts.length slots) := by
          rw [hbuf]
          simpa using hrec
        simp only [List.length_cons, deserialize_tags, hlt, if_false, hget, Option.bind_eq_bind,
          Option.some_bind, hne, hrec2, List.drop_succ_cons, List.cons_append]
        cases t
        simp_all
      · have henc : encode_tag t = t.type :: t.custom_tag_name.length :: t.custom_tag_name := by
          simp [encode_tag, hc]
        rw [henc] at hrec
        have hbuf : pre ++ encode_tags (t :: ts) =
            pre ++ t.type :: t.custom_tag_name.length :: (t.custom_tag_name ++ encode_tags ts) := by
          simp [encode_tags, henc]
        have hget : (pre ++ encode_tags (t :: ts))[pre.length]? = some TagType.CUSTOM := by
          rw [hbuf, ← hc, getElem?_at_length]
        have hget2 : (pre ++ encode_tags (t :: ts))[pre.length + 1]? =
            some t.custom_tag_name.length := by
          rw [hbuf, getElem?_at_length_succ]
        have hbl : (pre ++ encode_tags (t :: ts)).length =
            pre.length + 1 + 1 + (t.custom_tag_name.length + (encode_tags ts).length) := by
          rw [hbuf]
          simp only [List.length_append, List.length_cons]
          omega
        have hlt : ¬ pre.length ≥ (pre ++ encode_tags (t :: ts)).length := by omega
        have hlt2 : ¬ pre.length + 1 ≥ (pre ++ encode_tags (t :: ts)).length := by omega
        have hdrop : List.drop (pre.length + 1 + 1) (pre ++ encode_tags (t :: ts)) =
            t.custom_tag_name ++ encode_tags ts := by
          rw [hbuf, drop_at_length_succ_succ]
        have hrec2 : deserialize_tags (pre ++ encode_tags (t :: ts)) ts.length
            (pre.length + 1 + 1 + t.custom_tag_name.length) slots =
            some (ts ++ List.drop ts.length slots) := by
          rw [hbuf]
          have : (pre ++ t.type :: t.custom_tag_name.length :: t.custom_tag_name).length
              = pre.length + 1 + 1 + t.custom_tag_name.length := by
            simp only [List.length_append, List.length_cons]
            omega
          rw [← this]
          simpa using hrec
        have hcap : ¬ t.custom_tag_name.length > 255 := by omega
        have hcap2 : ¬ t.custom_tag_name.length >
            (pre ++ encode_tags (t :: ts)).length - (pre.length + 1 + 1) := by omega
        have hin : pre.length + 1 + 1 + t.custom_tag_name.length ≤
            (pre ++ encode_tags (t :: ts)).length := by omega
        simp only [List.length_cons, deserialize_tags, hlt, if_false, hget, Option.bind_eq_bind,
          Option.some_bind, if_true, hlt2, hget2, TREE_SITTER_HTML_MAX_CUSTOM_TAG_NAME_LENGTH,
          hcap, hcap2, hin, hdrop, List.take_left, hrec2, List.drop_succ_cons, List.cons_append]
        cases t
        simp_all

/-- The round trip of C2 below the capacity: a stack of classified tags whose complete encoding
is smaller than the buffer (at most 1023 bytes) is what `scanner_deserialize` gives back from the
bytes `scanner_serialize` wrote, whatever the scanner held before. -/
theorem round_trip_below_capacity (previous s : Scanner) (hwf : ∀ t ∈ s.tags, classified t)
    (hfit : encoding_size s.tags < TREE_SITTER_SERIALIZATION_BUFFER_SIZE) :
    scanner_deserialize previous (scanner_serialize s) = some s := by
  rw [encoding_size_eq s.tags] at hfit
  have hlen := length_le_encode_tags s.tags
  simp only [TREE_SITTER_SERIALIZATION_BUFFER_SIZE] at hfit
  have hcount : ¬ s.tags.length > UINT16_MAX := by
    simp only [UINT16_MAX]
    omega
  have hser := serialize_tags_fits s.tags hwf 4 (by
    simp only [TREE_SITTER_SERIALIZATION_BUFFER_SIZE]; omega)
  have hbytes : scanner_serialize s =
      [s.tags.length % 256, s.tags.length / 256 % 256, s.tags.length % 256,
        s.tags.length / 256 % 256] ++ encode_tags s.tags := by
    simp [scanner_serialize, hcount, List.take_length, hser, u16_bytes]
  have hdes := deserialize_encoded s.tags hwf
    [s.tags.length % 256, s.tags.length / 256 % 256, s.tags.length % 256,
      s.tags.length / 256 % 256]
    (List.replicate s.tags.length (Tag.mk TagType.END_OF_VOID_TAGS [])) (by simp)
  have hval : s.tags.length % 256 + 256 * (s.tags.length / 256 % 256) = s.tags.length := by
    omega
  rw [hbytes]
  simp only [scanner_deserialize, List.length_append, List.length_cons, List.length_nil,
    List.cons_append, List.nil_append, Nat.add_eq_zero, and_false, if_false,
    show ¬ ((encode_tags s.tags).length + 1 + 1 + 1 + 1 < 2 + 2) by omega,
    List.getElem?_cons_zero, List.getElem?_cons_succ, Option.bind_eq_bind, Option.some_bind,
    hval, tag_stack_resize_nil]
  simp only [List.length_cons, List.length_nil, List.cons_append, List.nil_append] at hdes
  rw [hdes]
  simp [List.drop_eq_nil_of_le]

/-- The round trip below the capacity at the stack `[DIV, MY-TAG]`. -/
theorem round_trip_below_capacity_witness :
    scanner_deserialize scanner_new
        (scanner_serialize { tags := [classify (str "div"), classify (str "my-tag")] }) =
      some { tags := [classify (str "div"), classify (str "my-tag")] } :=
  round_trip_below_capacity scanner_new _ (by decide) (by decide)

/-! ## Lemmas: the raw-text scan on characters below 256 -/

theorem drop_succ_of_drop_eq_cons {s : List Nat} {q c : Nat} {rest : List Nat}
    (h : s.drop q = c :: rest) : s.drop (q + 1) = rest := by
  have := congrArg (List.drop 1) h
  simpa [List.drop_drop, Nat.add_comm] using this

theorem take_succ_of_drop_eq_cons {s : List Nat} {e idx c : Nat} {rest : List Nat}
    (h : s.drop (e + idx) = c :: rest) :
    (s.drop e).take (idx + 1) = (s.drop e).take idx ++ [c] := by
  rw [List.take_add, List.drop_drop, h]
  rfl

theorem take_succ_getD (D : List Nat) (idx : Nat) (h : idx < D.length) :
    D.take (idx + 1) = D.take idx ++ [D.getD idx 0] := by
  rw [List.take_add, List.drop_eq_getElem_cons h, List.getD_eq_getElem _ _ h]
  rfl

theorem begins_length {D s : List Nat} (h : begins_ignoring_case D s = true) :
    D.length ≤ s.length := by
  simp only [begins_ignoring_case, beq_iff_eq] at h
  have := congrArg List.length h
  simp only [List.length_map, List.length_take] at this
  omega

theorem raw_text_loop_not_early (D s : List Nat) (p : Nat)
    (hnul : ∀ c ∈ s, c ≠ 0) (hbyte : ∀ c ∈ s, to_char (towupper c) = towupper c)
    (hocc : begins_ignoring_case D (s.drop p) = true)
    (hfirst : ∀ j < p, begins_ignoring_case D (s.drop j) = false) :
    ∀ (fuel idx q e ts : Nat) (rs : TokenType),
      (s.drop q).length < fuel → idx < D.length → q = e + idx →
      ((s.drop e).take idx).map towupper = D.take idx →
      ∃ e2, (scan_raw_text_loop D fuel idx (TSLexer.mk (s.drop q) q ts (some e) rs)).token_end
          = some e2 ∧ p ≤ e2 := by
  have hpl : D.length ≤ s.length - p := by
    have := begins_length hocc
    simpa using this
  intro fuel
  induction fuel with
  | zero => intro idx q e ts rs h; simp at h
  | succ f ih =>
    intro idx q e ts rs hfuel hidx hq hinv
    cases hdrop : s.drop q with
    | nil =>
      refine ⟨e, by simp [scan_raw_text_loop, TSLexer.lookahead], ?_⟩
      have h1 : s.length ≤ q := by simpa using hdrop
      omega
    | cons c rest =>
      have hc : c ∈ s := List.mem_of_mem_drop (by rw [hdrop]; exact List.mem_cons_self _ _)
      have hc0 := hnul c hc
      have hrest := drop_succ_of_drop_eq_cons hdrop
      have hfuel2 : (s.drop (q + 1)).length < f := by
        rw [hrest]
        rw [hdrop] at hfuel
        simpa using hfuel
      simp only [scan_raw_text_loop, TSLexer.lookahead, List.headD_cons, hc0, if_false,
        advance_cons, TSLexer.mark_end]
      by_cases hm : to_char (towupper c) = D.getD idx 0
      · rw [if_pos hm]
        have hinv2 : ((s.drop e).take (idx + 1)).map towupper = D.take (idx + 1) := by
          rw [take_succ_of_drop_eq_cons (by rw [← hq]; exact hdrop), take_succ_getD D idx hidx,
            List.map_append, hinv, ← hm, hbyte c hc]
          rfl
        by_cases hfull : idx + 1 = D.length
        · rw [if_pos hfull]
          refine ⟨e, rfl, ?_⟩
          by_contra hlt
          have hb := hfirst e (by omega)
          rw [hfull, List.take_length] at hinv2
          simp [begins_ignoring_case, hinv2] at hb
        · rw [if_neg hfull]
          have := ih (idx + 1) (q + 1) e ts rs hfuel2 (by omega) (by omega) hinv2
          rw [hrest] at this
          exact this
      · rw [if_neg hm]
        have := ih 0 (q + 1) (q + 1) ts rs hfuel2 (by omega) rfl (by simp)
        rw [hrest] at this
        exact this


theorem towupper_eq_lt {c : Nat} (h : towupper c = 60) : c = 60 := by
  simp only [towupper, Bool.and_eq_true, decide_eq_true_eq] at h
  split at h <;> omega

theorem to_char_towupper_of_lt {c : Nat} (h : c < 256) : to_char (towupper c) = towupper c := by
  simp only [to_char, towupper, Bool.and_eq_true, decide_eq_true_eq]
  split <;> omega

theorem raw_text_loop_match_run (D : List Nat) : ∀ (o2 d1 d2 post : List Nat)
    (fuel q ts : Nat) (te : Option Nat) (rs : TokenType),
    D = d1 ++ d2 → o2.map towupper = d2 → d2 ≠ [] →
    (∀ c ∈ o2, c ≠ 0 ∧ to_char (towupper c) = towupper c) →
    (o2 ++ post).length < fuel →
    (scan_raw_text_loop D fuel d1.length (TSLexer.mk (o2 ++ post) q ts te rs)).token_end = te := by
  intro o2
  induction o2 with
  | nil =>
    intro d1 d2 post fuel q ts te rs _ hmap hne
    exact absurd hmap.symm hne
  | cons c o2 ih =>
    intro d1 d2 post fuel q ts te rs hD hmap hne hchars hfuel
    cases fuel with
    | zero => simp at hfuel
    | succ f =>
      obtain ⟨hc0, hcb⟩ := hchars c (List.mem_cons_self _ _)
      have hget : D.getD d1.length 0 = towupper c := by
        rw [hD, ← hmap]
        simp only [List.map_cons, List.getD, List.get?_eq_getElem?, getElem?_at_length]
        rfl
      simp only [scan_raw_text_loop, TSLexer.lookahead, List.cons_append, List.headD_cons, hc0,
        if_false, hcb, hget, if_true, advance_cons]
      by_cases hfull : d1.length + 1 = D.length
      · rw [if_pos hfull]
      · rw [if_neg hfull]
        have hD2 : D = (d1 ++ [towupper c]) ++ o2.map towupper := by
          rw [hD, ← hmap]
          simp
        have hne2 : o2.map towupper ≠ [] := by
          intro h
          apply hfull
          rw [hD2, h]
          simp
        have := ih (d1 ++ [towupper c]) (o2.map towupper) post f (q + 1) ts te rs hD2 rfl hne2
          (fun x hx => hchars x (List.mem_cons_of_mem _ hx)) (by simpa using hfuel)
        simpa using this

theorem raw_text_loop_exact (D occ post : List Nat) (hD0 : D.getD 0 0 = 60)
    (hocc : occ.map towupper = D) (hDne : D ≠ [])
    (hchars : ∀ c ∈ occ, c ≠ 0 ∧ to_char (towupper c) = towupper c) :
    ∀ (pre : List Nat) (fuel q ts : Nat) (rs : TokenType),
    (∀ c ∈ pre, c ≠ 0 ∧ c ≠ 60 ∧ to_char (towupper c) = towupper c) →
    (pre ++ (occ ++ post)).length < fuel →
    (scan_raw_text_loop D fuel 0 (TSLexer.mk (pre ++ (occ ++ post)) q ts (some q) rs)).token_end
      = some (q + pre.length) := by
  intro pre
  induction pre with
  | nil =>
    intro fuel q ts rs _ hfuel
    have := raw_text_loop_match_run D occ [] D post fuel q ts (some q) rs rfl hocc hDne hchars
      (by simpa using hfuel)
    simpa using this
  | cons c pre ih =>
    intro fuel q ts rs hpre hfuel
    cases fuel with
    | zero => simp at hfuel
    | succ f =>
      obtain ⟨hc0, hc60, hcb⟩ := hpre c (List.mem_cons_self _ _)
      have hne : ¬ towupper c = 60 := fun h => hc60 (towupper_eq_lt h)
      simp only [scan_raw_text_loop, TSLexer.lookahead, List.cons_append, List.headD_cons, hc0,
        if_false, hcb, hD0, hne, advance_cons, TSLexer.mark_end]
      have := ih f (q + 1) ts rs (fun x hx => hpre x (List.mem_cons_of_mem _ hx))
        (by simpa using hfuel)
      rw [this]
      simp only [List.length_cons]
      congr 1
      omega

theorem raw_text_loop_token_start (D : List Nat) : ∀ (fuel idx : Nat) (lexer : TSLexer),
    (scan_raw_text_loop D fuel idx lexer).token_start = lexer.token_start := by
  intro fuel
  induction fuel with
  | zero => intro idx lexer; rfl
  | succ f ih =>
    intro idx lexer
    obtain ⟨input, p, ts, te, rs⟩ := lexer
    cases input with
    | nil => simp [scan_raw_text_loop, TSLexer.lookahead]
    | cons c rest =>
      simp only [scan_raw_text_loop, advance_cons, TSLexer.mark_end]
      split
      · rfl
      · split
        · split
          · rfl
          · rw [ih]
        · rw [ih]

/-- The raw-text scan of C6 on characters below 256. With the top `SCRIPT` and an input of
characters that are not NUL and below 256, in which the delimiter occurs first at position `p`,
`scan_raw_text` returns a `RAW_TEXT` token that does not end before `p`, and that ends exactly
at `p` when no `<` stands before `p`. -/
theorem raw_text_script_below_256 (below : List Tag) (T : Tag) (s : List Nat) (rs : TokenType)
    (p : Nat) (hT : T.type = TagType.SCRIPT)
    (hnul : ∀ c ∈ s, c ≠ 0) (hbyte : ∀ c ∈ s, c < 256)
    (hocc : begins_ignoring_case (str "</SCRIPT") (s.drop p) = true)
    (hfirst : ∀ j < p, begins_ignoring_case (str "</SCRIPT") (s.drop j) = false) :
    ∃ lexer, scan_raw_text { tags := below ++ [T] } (TSLexer.start s rs) =
        (true, { tags := below ++ [T] }, lexer) ∧
      lexer.result_symbol = RAW_TEXT ∧ lexer.token_start = 0 ∧
      p ≤ lexer.token_end_position ∧
      ((∀ c ∈ s.take p, c ≠ ch '<') → lexer.token_end_position = p) := by
  have hA : ∀ c ∈ s, to_char (towupper c) = towupper c :=
    fun c hc => to_char_towupper_of_lt (hbyte c hc)
  obtain ⟨e2, he2, hle⟩ := raw_text_loop_not_early (str "</SCRIPT") s p hnul hA hocc hfirst
    (s.length + 1) 0 0 0 0 rs (by simp) (by decide) rfl (by simp)
  simp only [List.drop_zero] at he2
  refine ⟨{ scan_raw_text_loop (str "</SCRIPT") (s.length + 1) 0 (TSLexer.mk s 0 0 (some 0) rs)
    with result_symbol := RAW_TEXT }, ?_, rfl, ?_, ?_, ?_⟩
  · simp only [scan_raw_text, tag_stack_top, List.getLast?_concat, hT, if_true, TSLexer.start,
      TSLexer.mark_end]
  · exact raw_text_loop_token_start _ _ _ _
  · simp only [TSLexer.token_end_position, he2]
    exact hle
  · intro hnolt
    have hlen := begins_length hocc
    simp only [List.length_drop] at hlen
    have hDl : (str "</SCRIPT").length = 8 := by decide
    have hsplit : s = s.take p ++ (((s.drop p).take 8) ++ ((s.drop p).drop 8)) := by
      rw [List.take_append_drop, List.take_append_drop]
    have hoccm : ((s.drop p).take 8).map towupper = str "</SCRIPT" := by
      have := hocc
      simp only [begins_ignoring_case, beq_iff_eq, hDl] at this
      exact this
    have hex := raw_text_loop_exact (str "</SCRIPT") ((s.drop p).take 8) ((s.drop p).drop 8)
      (by decide) hoccm (by decide)
      (fun c hc => by
        have hcs : c ∈ s := List.mem_of_mem_drop (List.mem_of_mem_take hc)
        exact ⟨hnul c hcs, hA c hcs⟩)
      (s.take p) (s.length + 1) 0 0 rs
      (fun c hc => by
        have hcs : c ∈ s := List.mem_of_mem_take hc
        have := hnolt c hc
        rw [ch_lt] at this
        exact ⟨hnul c hcs, this, hA c hcs⟩)
      (by rw [← hsplit]; simp)
    rw [← hsplit] at hex
    simp only [TSLexer.token_end_position, hex, List.length_take]
    rw [hDl] at hlen
    omega

/-- The raw-text scan on characters below 256, at the input `a <b </ScRipt>`: the token ends at
the delimiter, position 5, although a `<` stands before it. -/
theorem raw_text_script_below_256_witness :
    ∃ lexer, scan_raw_text { tags := [] ++ [tag_make TagType.SCRIPT] }
        (TSLexer.start (str "a <b </ScRipt>") TEXT_FRAGMENT) =
        (true, { tags := [] ++ [tag_make TagType.SCRIPT] }, lexer) ∧
      lexer.result_symbol = RAW_TEXT ∧ 5 ≤ lexer.token_end_position := by
  obtain ⟨lexer, h1, h2, _, h4, _⟩ := raw_text_script_below_256 [] (tag_make TagType.SCRIPT)
    (str "a <b </ScRipt>") TEXT_FRAGMENT 5 rfl (by decide) (by decide) (by decide) (by decide)
  exact ⟨lexer, h1, h2, h4⟩

/-! ## C2, C5 and C6: where the code departs from the claim -/

set_option maxRecDepth 1000000 in
/-- C2 fails at the capacity: the stack of four custom tags with names of 253 bytes has an
encoding of exactly 1024 bytes, which fits the buffer, but `scanner_serialize` writes only three
records (769 bytes), and `scanner_deserialize` of them gives back the first three tags and the
reset tag in place of the fourth. -/
theorem round_trip_at_capacity :
    encoding_size capacity_stack.tags = TREE_SITTER_SERIALIZATION_BUFFER_SIZE ∧
    (scanner_serialize capacity_stack).length = 769 ∧
    (scanner_serialize capacity_stack).take 4 = [3, 0, 4, 0] ∧
    scanner_deserialize scanner_new (scanner_serialize capacity_stack) =
      some { tags := capacity_stack.tags.take 3 ++ [Tag.mk TagType.END_OF_VOID_TAGS []] } ∧
    capacity_stack.tags[3]? = some (Tag.mk TagType.CUSTOM (List.replicate 253 (ch 'A'))) := by
  decide

/-- C5 fails on a `<` right before the delimiter: with the top `SCRIPT` and the input
`<</script>`, the delimiter occurs first at position 1, and the `RAW_TEXT` token runs to the
end of the input, position 10. -/
theorem raw_text_misses_delimiter_after_lt :
    begins_ignoring_case (str "</SCRIPT") ((str "<</script>").drop 0) = false ∧
    begins_ignoring_case (str "</SCRIPT") ((str "<</script>").drop 1) = true ∧
    scanner_scan { tags := [tag_make TagType.SCRIPT] } (TSLexer.start (str "<</script>") TEXT_FRAGMENT)
        (valid_only [RAW_TEXT]) =
      (true, { tags := [tag_make TagType.SCRIPT] }, TSLexer.mk [] 10 0 (some 10) RAW_TEXT) := by
  decide

/-- C6 fails on a character that the cast to `char` turns into `<`. The code point 20028
(U+4E3C) is 60 modulo 256. With the top `SCRIPT`: on that character followed by `</script>`,
the delimiter occurs first at position 1 and no `<` stands before it, and the `RAW_TEXT` token
runs to the end of the input, position 10; on that character followed by `/script</script>`,
the delimiter occurs first at position 8, and the token ends at position 0. -/
theorem raw_text_takes_wide_character_for_lt :
    to_char (towupper 20028) = ch '<' ∧
    begins_ignoring_case (str "</SCRIPT") ((20028 :: str "</script>").drop 0) = false ∧
    begins_ignoring_case (str "</SCRIPT") ((20028 :: str "</script>").drop 1) = true ∧
    ch '<' ∉ (20028 :: str "</script>").take 1 ∧
    scan_raw_text { tags := [tag_make TagType.SCRIPT] }
        (TSLexer.start (20028 :: str "</script>") TEXT_FRAGMENT) =
      (true, { tags := [tag_make TagType.SCRIPT] }, TSLexer.mk [] 10 0 (some 10) RAW_TEXT) ∧
    (∀ j < 8, begins_ignoring_case (str "</SCRIPT")
      ((20028 :: str "/script</script>").drop j) = false) ∧
    begins_ignoring_case (str "</SCRIPT") ((20028 :: str "/script</script>").drop 8) = true ∧
    scan_raw_text { tags := [tag_make TagType.SCRIPT] }
        (TSLexer.start (20028 :: str "/script</script>") TEXT_FRAGMENT) =
      (true, { tags := [tag_make TagType.SCRIPT] },
        TSLexer.mk (str "t</script>") 7 0 (some 0) RAW_TEXT) := by
  decide

/-! ## Lemmas: what a scan does to the stack, the token start and the result symbol -/

theorem skip_whitespace_run (ws : List Nat) (hws : ∀ c ∈ ws, iswspace c = true) :
    ∀ (rest : List Nat) (fuel p ts : Nat) (te : Option Nat) (rs : TokenType),
      iswspace (rest.headD 0) = false → ws.length < fuel →
      skip_whitespace fuel (TSLexer.mk (ws ++ rest) p ts te rs) =
        TSLexer.mk rest (p + ws.length) (if ws = [] then ts else p + ws.length) te rs := by
  induction ws with
  | nil =>
    intro rest fuel p ts te rs hrest _
    rw [skip_whitespace_not_space _ _ (by simpa [TSLexer.lookahead] using hrest)]
    simp
  | cons c ws ih =>
    intro rest fuel p ts te rs hrest hfuel
    cases fuel with
    | zero => simp at hfuel
    | succ f =>
      have hc : iswspace c = true := hws c (List.mem_cons_self _ _)
      simp only [skip_whitespace, TSLexer.lookahead, List.cons_append, List.headD_cons, hc,
        if_true, advance_cons_skip]
      rw [ih (fun x hx => hws x (List.mem_cons_of_mem _ hx)) rest f (p + 1) (p + 1) te rs hrest
        (by simpa using hfuel)]
      simp only [List.length_cons, reduceCtorEq, if_false]
      by_cases hw : ws = []
      · subst hw; simp
      · simp [hw, Nat.add_assoc, Nat.add_comm 1]

theorem scanner_scan_skips_whitespace (scanner : Scanner) (ws rest : List Nat) (rs : TokenType)
    (valid_symbols : TokenType → Bool) (hws : ∀ c ∈ ws, iswspace c = true)
    (hrest : iswspace (rest.headD 0) = false) :
    scanner_scan scanner (TSLexer.start (ws ++ rest) rs) valid_symbols =
      scanner_scan scanner (TSLexer.mk rest ws.length ws.length none rs) valid_symbols := by
  have h1 := skip_whitespace_run ws hws rest ((ws ++ rest).length + 1) 0 0 none rs hrest
    (by simp; omega)
  have h2 : skip_whitespace (rest.length + 1) (TSLexer.mk rest ws.length ws.length none rs) =
      TSLexer.mk rest ws.length ws.length none rs :=
    skip_whitespace_not_space _ _ (by simpa [TSLexer.lookahead] using hrest)
  have h3 : (if ws = [] then 0 else ws.length) = ws.length := by
    cases ws <;> simp
  simp only [Nat.zero_add, h3] at h1
  unfold scanner_scan
  simp only [TSLexer.start, h1, h2]

theorem scan_tag_name_loop_keeps (fuel : Nat) : ∀ (has_char : Bool) (buffer : List Nat)
    (lexer : TSLexer),
    (scan_tag_name_loop fuel has_char buffer lexer).2.2.token_start = lexer.token_start ∧
    (scan_tag_name_loop fuel has_char buffer lexer).2.2.result_symbol = lexer.result_symbol := by
  induction fuel with
  | zero => intro _ _ _; exact ⟨rfl, rfl⟩
  | succ f ih =>
    intro has_char buffer lexer
    obtain ⟨input, p, ts, te, rs⟩ := lexer
    cases input with
    | nil =>
      simp [scan_tag_name_loop, TSLexer.lookahead, is_tag_name_char, iswalnum, iswalpha, ch]
    | cons c rest =>
      simp only [scan_tag_name_loop, advance_cons_skip]
      split
      · exact ih _ _ _
      · exact ⟨rfl, rfl⟩

theorem scan_tag_name_keeps (lexer : TSLexer) :
    (scan_tag_name lexer).2.2.token_start = lexer.token_start ∧
    (scan_tag_name lexer).2.2.result_symbol = lexer.result_symbol := by
  have h := scan_tag_name_loop_keeps (lexer.input.length + 1) false [] lexer
  unfold scan_tag_name
  rcases hr : scan_tag_name_loop (lexer.input.length + 1) false [] lexer with ⟨b, buf, l2⟩
  rw [hr] at h
  cases b <;> exact h

theorem scan_comment_loop_keeps (fuel : Nat) : ∀ (dashes : Nat) (lexer : TSLexer),
    (scan_comment_loop fuel dashes lexer).2.token_start = lexer.token_start ∧
    ((scan_comment_loop fuel dashes lexer).1 = true →
      (scan_comment_loop fuel dashes lexer).2.result_symbol = COMMENT) ∧
    ((scan_comment_loop fuel dashes lexer).1 = false →
      (scan_comment_loop fuel dashes lexer).2.result_symbol = lexer.result_symbol) := by
  induction fuel with
  | zero => intro _ _; exact ⟨rfl, by simp [scan_comment_loop], fun _ => rfl⟩
  | succ f ih =>
    intro dashes lexer
    obtain ⟨input, p, ts, te, rs⟩ := lexer
    cases input with
    | nil => simp [scan_comment_loop, TSLexer.lookahead]
    | cons c rest =>
      simp only [scan_comment_loop, advance_cons_skip, TSLexer.mark_end]
      split
      · simp
      · split
        · exact ih _ _
        · split
          · simp
          · exact ih _ _

theorem advance_keeps (lexer : TSLexer) :
    (lexer.advance false).token_start = lexer.token_start ∧
    (lexer.advance false).result_symbol = lexer.result_symbol := by
  obtain ⟨input, p, ts, te, rs⟩ := lexer
  cases input <;> simp [TSLexer.advance]

theorem scan_comment_result (scanner : Scanner) (lexer : TSLexer) :
    (scan_comment scanner lexer).2.1 = scanner ∧
    (scan_comment scanner lexer).2.2.token_start = lexer.token_start ∧
    ((scan_comment scanner lexer).1 = true →
      (scan_comment scanner lexer).2.2.result_symbol = COMMENT) := by
  by_cases h1 : (lexer.lookahead != ch '-') = true
  · simp [scan_comment, h1]
  · by_cases h2 : ((lexer.advance false).lookahead != ch '-') = true
    · simp [scan_comment, h1, h2, (advance_keeps lexer).1]
    · have h := scan_comment_loop_keeps (((lexer.advance false).advance false).input.length + 1) 0
        ((lexer.advance false).advance false)
      simp only [scan_comment, h1, h2, Bool.false_eq_true, if_false]
      refine ⟨trivial, ?_, h.2.1⟩
      rw [h.1, (advance_keeps _).1, (advance_keeps _).1]


theorem top_some_ne_nil {stack : TagStack} {t : Tag} (h : tag_stack_top stack = some t) :
    stack ≠ [] := by
  intro hn
  subst hn
  simp [tag_stack_top] at h

theorem contains_ne_nil {stack : TagStack} {t : Tag} (h : tag_stack_contains stack t = true) :
    stack ≠ [] := by
  intro hn
  subst hn
  simp [tag_stack_contains] at h

theorem scan_implicit_end_tag_result (scanner : Scanner) (lexer : TSLexer) :
    (scan_implicit_end_tag scanner lexer).2.2.token_start = lexer.token_start ∧
    ((scan_implicit_end_tag scanner lexer).1 = true →
      scanner.tags ≠ [] ∧
      (scan_implicit_end_tag scanner lexer).2.1.tags = scanner.tags.dropLast ∧
      (scan_implicit_end_tag scanner lexer).2.2.result_symbol = IMPLICIT_END_TAG) ∧
    ((scan_implicit_end_tag scanner lexer).1 = false →
      (scan_implicit_end_tag scanner lexer).2.1 = scanner ∧
      (scan_implicit_end_tag scanner lexer).2.2.result_symbol = lexer.result_symbol) := by
  unfold scan_implicit_end_tag
  simp only []
  split
  · rename_i h
    simp only [Bool.and_eq_true] at h
    have hne : scanner.tags ≠ [] := by
      cases ht : tag_stack_top scanner.tags with
      | none => simp [ht] at h
      | some t => exact top_some_ne_nil ht
    simp [tag_stack_pop, hne]
  · have hk := scan_tag_name_keeps
      (if (lexer.lookahead == ch '/') = true then lexer.advance false else lexer)
    have hks : (if (lexer.lookahead == ch '/') = true then lexer.advance false else lexer).token_start
        = lexer.token_start ∧
        (if (lexer.lookahead == ch '/') = true then lexer.advance false else lexer).result_symbol
        = lexer.result_symbol := by
      split
      · exact advance_keeps lexer
      · exact ⟨rfl, rfl⟩
    rcases hr : scan_tag_name
      (if (lexer.lookahead == ch '/') = true then lexer.advance false else lexer) with ⟨b, buf, l2⟩
    rw [hr] at hk
    simp only [] at hk
    cases b with
    | false =>
      simp only []
      exact ⟨hk.1.trans hks.1, by simp, fun _ => ⟨trivial, hk.2.trans hks.2⟩⟩
    | true =>
      simp only []
      split
      · split
        · exact ⟨hk.1.trans hks.1, by simp, fun _ => ⟨rfl, hk.2.trans hks.2⟩⟩
        · split
          · rename_i hc
            exact ⟨hk.1.trans hks.1, fun _ => ⟨contains_ne_nil hc, rfl, rfl⟩, by simp⟩
          · exact ⟨hk.1.trans hks.1, by simp, fun _ => ⟨rfl, hk.2.trans hks.2⟩⟩
      · split
        · rename_i hc
          have hne : scanner.tags ≠ [] := by
            cases ht : tag_stack_top scanner.tags with
            | none => simp [ht] at hc
            | some t => exact top_some_ne_nil ht
          exact ⟨hk.1.trans hks.1, fun _ => ⟨hne, rfl, rfl⟩, by simp⟩
        · exact ⟨hk.1.trans hks.1, by simp, fun _ => ⟨rfl, hk.2.trans hks.2⟩⟩

theorem scan_start_tag_name_result (scanner : Scanner) (lexer : TSLexer) :
    (scan_start_tag_name scanner lexer).2.2.token_start = lexer.token_start ∧
    ((scan_start_tag_name scanner lexer).1 = true →
      (∃ tag, (scan_start_tag_name scanner lexer).2.1.tags = scanner.tags ++ [tag]) ∧
      ((scan_start_tag_name scanner lexer).2.2.result_symbol = START_TAG_NAME ∨
        (scan_start_tag_name scanner lexer).2.2.result_symbol = TEMPLATE_START_TAG_NAME ∨
        (scan_start_tag_name scanner lexer).2.2.result_symbol = SCRIPT_START_TAG_NAME ∨
        (scan_start_tag_name scanner lexer).2.2.result_symbol = STYLE_START_TAG_NAME)) ∧
    ((scan_start_tag_name scanner lexer).1 = false →
      (scan_start_tag_name scanner lexer).2.1 = scanner) := by
  unfold scan_start_tag_name
  have hk := scan_tag_name_keeps lexer
  rcases hr : scan_tag_name lexer with ⟨b, buf, l2⟩
  rw [hr] at hk
  cases b with
  | false => exact ⟨hk.1, by simp, fun _ => rfl⟩
  | true =>
    simp only []
    refine ⟨hk.1, fun _ => ⟨⟨_, rfl⟩, ?_⟩, by simp⟩
    split
    · simp
    · split
      · simp
      · split <;> simp

theorem scan_end_tag_name_result (scanner : Scanner) (lexer : TSLexer) :
    (scan_end_tag_name scanner lexer).2.2.token_start = lexer.token_start ∧
    ((scan_end_tag_name scanner lexer).1 = true →
      ((scan_end_tag_name scanner lexer).2.2.result_symbol = END_TAG_NAME ∧ scanner.tags ≠ [] ∧
        (scan_end_tag_name scanner lexer).2.1.tags = scanner.tags.dropLast) ∨
      ((scan_end_tag_name scanner lexer).2.2.result_symbol = ERRONEOUS_END_TAG_NAME ∧
        (scan_end_tag_name scanner lexer).2.1 = scanner)) ∧
    ((scan_end_tag_name scanner lexer).1 = false →
      (scan_end_tag_name scanner lexer).2.1 = scanner) := by
  unfold scan_end_tag_name
  have hk := scan_tag_name_keeps lexer
  rcases hr : scan_tag_name lexer with ⟨b, buf, l2⟩
  rw [hr] at hk
  cases b with
  | false => exact ⟨hk.1, by simp, fun _ => rfl⟩
  | true =>
    simp only []
    cases ht : tag_stack_top scanner.tags with
    | none => exact ⟨hk.1, fun _ => Or.inr ⟨rfl, rfl⟩, by simp⟩
    | some top =>
      simp only []
      split
      · exact ⟨hk.1, fun _ => Or.inl ⟨rfl, top_some_ne_nil ht, rfl⟩, by simp⟩
      · exact ⟨hk.1, fun _ => Or.inr ⟨rfl, rfl⟩, by simp⟩

theorem scan_self_closing_tag_delimiter_result (scanner : Scanner) (lexer : TSLexer) :
    (scan_self_closing_tag_delimiter scanner lexer).2.2.token_start = lexer.token_start ∧
    ((scan_self_closing_tag_delimiter scanner lexer).1 = true →
      (scanner.tags ≠ [] ∧
        (scan_self_closing_tag_delimiter scanner lexer).2.1.tags = scanner.tags.dropLast ∧
        (scan_self_closing_tag_delimiter scanner lexer).2.2.result_symbol
          = SELF_CLOSING_TAG_DELIMITER) ∨
      (scanner.tags = [] ∧ (scan_self_closing_tag_delimiter scanner lexer).2.1 = scanner ∧
        (scan_self_closing_tag_delimiter scanner lexer).2.2.result_symbol
          = lexer.result_symbol)) ∧
    ((scan_self_closing_tag_delimiter scanner lexer).1 = false →
      (scan_self_closing_tag_delimiter scanner lexer).2.1 = scanner) := by
  unfold scan_self_closing_tag_delimiter
  have h1 := advance_keeps lexer
  have h2 := advance_keeps (lexer.advance false)
  simp only []
  split
  · split
    · rename_i hne
      have : scanner.tags ≠ [] := by
        intro h
        simp [tag_stack_empty, h] at hne
      exact ⟨h2.1.trans h1.1, fun _ => Or.inl ⟨this, rfl, rfl⟩, by simp⟩
    · rename_i he
      have : scanner.tags = [] := by
        simpa [tag_stack_empty] using he
      exact ⟨h2.1.trans h1.1, fun _ => Or.inr ⟨this, rfl, h2.2.trans h1.2⟩, by simp⟩
  · exact ⟨h1.1, by simp, fun _ => rfl⟩

theorem scan_raw_text_loop_symbol (D : List Nat) : ∀ (fuel idx : Nat) (lexer : TSLexer),
    (scan_raw_text_loop D fuel idx lexer).result_symbol = lexer.result_symbol := by
  intro fuel
  induction fuel with
  | zero => intro idx lexer; rfl
  | succ f ih =>
    intro idx lexer
    obtain ⟨input, p, ts, te, rs⟩ := lexer
    cases input with
    | nil => simp [scan_raw_text_loop, TSLexer.lookahead]
    | cons c rest =>
      simp only [scan_raw_text_loop, advance_cons, TSLexer.mark_end]
      split
      · rfl
      · split
        · split
          · rfl
          · rw [ih]
        · rw [ih]

theorem scan_raw_text_result (scanner : Scanner) (lexer : TSLexer) :
    (scan_raw_text scanner lexer).2.1 = scanner ∧
    (scan_raw_text scanner lexer).2.2.token_start = lexer.token_start ∧
    ((scan_raw_text scanner lexer).1 = true →
      scanner.tags ≠ [] ∧ (scan_raw_text scanner lexer).2.2.result_symbol = RAW_TEXT) ∧
    (scanner.tags ≠ [] → (scan_raw_text scanner lexer).1 = true) := by
  unfold scan_raw_text
  cases ht : tag_stack_top scanner.tags with
  | none =>
    refine ⟨rfl, rfl, by simp, ?_⟩
    intro hne
    exfalso
    apply hne
    simpa [tag_stack_top] using ht
  | some top =>
    refine ⟨rfl, ?_, fun _ => ⟨top_some_ne_nil ht, rfl⟩, fun _ => rfl⟩
    show (scan_raw_text_loop _ _ 0 lexer.mark_end).token_start = lexer.token_start
    rw [raw_text_loop_token_start]
    rfl


theorem skip_whitespace_symbol : ∀ (fuel : Nat) (lexer : TSLexer),
    (skip_whitespace fuel lexer).result_symbol = lexer.result_symbol := by
  intro fuel
  induction fuel with
  | zero => intro lexer; rfl
  | succ f ih =>
    intro lexer
    obtain ⟨input, p, ts, te, rs⟩ := lexer
    cases input with
    | nil => simp [skip_whitespace, TSLexer.lookahead, iswspace]
    | cons c rest =>
      simp only [skip_whitespace, advance_cons_skip]
      split
      · rw [ih]
      · rfl

theorem scanner_scan_token_start (scanner : Scanner) (lexer : TSLexer)
    (valid_symbols : TokenType → Bool) (h : iswspace lexer.lookahead = false) :
    (scanner_scan scanner lexer valid_symbols).2.2.token_start = lexer.token_start := by
  unfold scanner_scan
  rw [skip_whitespace_not_space _ _ h]
  simp only []
  split
  · exact (scan_raw_text_result scanner lexer).2.1
  · split
    · split
      · rw [(scan_comment_result scanner _).2.1, (advance_keeps _).1, (advance_keeps _).1]
        rfl
      · split
        · rw [(scan_implicit_end_tag_result scanner _).1, (advance_keeps _).1]
          rfl
        · simp only []
          rw [(advance_keeps _).1]
          rfl
    · split
      · split
        · exact (scan_implicit_end_tag_result scanner lexer).1
        · rfl
      · split
        · split
          · exact (scan_self_closing_tag_delimiter_result scanner lexer).1
          · rfl
        · split
          · split
            · exact (scan_start_tag_name_result scanner lexer).1
            · exact (scan_end_tag_name_result scanner lexer).1
          · rfl

theorem scanner_scan_in_recovery (scanner : Scanner) (lexer : TSLexer)
    (valid_symbols : TokenType → Bool)
    (hstart : valid_symbols START_TAG_NAME = true) (hraw : valid_symbols RAW_TEXT = true) :
    ((scanner_scan scanner lexer valid_symbols).1 = true →
      ((scanner_scan scanner lexer valid_symbols).2.2.result_symbol = COMMENT ∧
        (scanner_scan scanner lexer valid_symbols).2.1 = scanner) ∨
      (scanner.tags ≠ [] ∧
        (scanner_scan scanner lexer valid_symbols).2.1.tags = scanner.tags.dropLast ∧
        ((scanner_scan scanner lexer valid_symbols).2.2.result_symbol = IMPLICIT_END_TAG ∨
          (scanner_scan scanner lexer valid_symbols).2.2.result_symbol
            = SELF_CLOSING_TAG_DELIMITER)) ∨
      (scanner.tags = [] ∧ (scanner_scan scanner lexer valid_symbols).2.1 = scanner ∧
        (scanner_scan scanner lexer valid_symbols).2.2.result_symbol = lexer.result_symbol)) ∧
    ((scanner_scan scanner lexer valid_symbols).1 = false →
      (scanner_scan scanner lexer valid_symbols).2.1 = scanner) := by
  have hsym := skip_whitespace_symbol (lexer.input.length + 1) lexer
  unfold scanner_scan
  generalize skip_whitespace (lexer.input.length + 1) lexer = l at hsym ⊢
  simp only [hstart, hraw, Bool.not_true, Bool.and_false, Bool.false_and, Bool.false_eq_true,
    if_false, Bool.or_true, Bool.true_or]
  split
  · split
    · have h := scan_comment_result scanner ((l.mark_end.advance false).advance false)
      exact ⟨fun ht => Or.inl ⟨h.2.2 ht, h.1⟩, fun _ => h.1⟩
    · split
      · have h := scan_implicit_end_tag_result scanner (l.mark_end.advance false)
        exact ⟨fun ht => Or.inr (Or.inl ⟨(h.2.1 ht).1, (h.2.1 ht).2.1, Or.inl (h.2.1 ht).2.2⟩),
          fun hf => (h.2.2 hf).1⟩
      · exact ⟨by simp, fun _ => rfl⟩
  · split
    · split
      · have h := scan_implicit_end_tag_result scanner l
        exact ⟨fun ht => Or.inr (Or.inl ⟨(h.2.1 ht).1, (h.2.1 ht).2.1, Or.inl (h.2.1 ht).2.2⟩),
          fun hf => (h.2.2 hf).1⟩
      · exact ⟨by simp, fun _ => rfl⟩
    · split
      · split
        · have h := scan_self_closing_tag_delimiter_result scanner l
          refine ⟨fun ht => ?_, fun hf => h.2.2 hf⟩
          rcases h.2.1 ht with ⟨h1, h2, h3⟩ | ⟨h1, h2, h3⟩
          · exact Or.inr (Or.inl ⟨h1, h2, Or.inr h3⟩)
          · exact Or.inr (Or.inr ⟨h1, h2, h3.trans hsym⟩)
        · exact ⟨by simp, fun _ => rfl⟩
      · exact ⟨by simp, fun _ => rfl⟩

/-! ## C17: the nesting-validity table -/

theorem allowed_in_paragraph_iff (c : TagType) :
    tag_type_allowed_in_paragraph c = true ↔ c ∉ refused_in_paragraph := by
  simp only [tag_type_allowed_in_paragraph, TAG_TYPES_NOT_ALLOWED_IN_PARAGRAPHS,
    refused_in_paragraph, Bool.not_eq_true', List.any_eq_false, beq_iff_eq]
  constructor
  · intro h hc
    exact h c hc rfl
  · intro h x hx hxc
    exact h (hxc ▸ hx)

/-- C17. Nesting-validity table. For every parent and child tag, `tag_can_contain` is false
exactly when the table of the specification refuses the child (`refuses_child`: `LI` in `LI`;
`DT` or `DD` in `DT` or `DD`; one of the 26 listed block types in `P`; anything but `COL` in
`COLGROUP`; `RB`, `RT` or `RP` in one of them; `OPTGROUP` in `OPTGROUP`; `TR` in `TR`; `TD`, `TH`
or `TR` in `TD` or `TH`) and true in all other cases. In particular a custom, void or sentinel
parent accepts every child. -/
theorem nesting_validity_table :
    (∀ parent child : Tag,
      (tag_can_contain parent child = false ↔ refuses_child parent.type child.type) ∧
      (tag_can_contain parent child = true ↔ ¬ refuses_child parent.type child.type)) ∧
    (∀ parent child : Tag,
      (parent.type = TagType.CUSTOM ∨ tag_is_void parent = true ∨
        parent.type = TagType.END_OF_VOID_TAGS) → tag_can_contain parent child = true) := by
  have key : ∀ parent child : Tag,
      tag_can_contain parent child = false ↔ refuses_child parent.type child.type := by
    intro parent child
    obtain ⟨p, pn⟩ := parent
    obtain ⟨c, cn⟩ := child
    simp only [tag_can_contain, refuses_child]
    have hp := allowed_in_paragraph_iff c
    by_cases h1 : p = TagType.LI
    · subst h1
      simp
      try tauto
    by_cases h2 : p = TagType.DT
    · subst h2
      simp
      try tauto
    by_cases h3 : p = TagType.DD
    · subst h3
      simp
      try tauto
    by_cases h4 : p = TagType.P
    · subst h4
      simp only [Bool.eq_false_iff, ne_eq, hp]
      simp
      cases hb : tag_type_allowed_in_paragraph c
      · have : ¬ (c ∉ refused_in_paragraph) := fun h => by simp [hp.2 h] at hb
        simpa using this
      · simpa using hp.1 hb
    by_cases h5 : p = TagType.COLGROUP
    · subst h5
      simp
      try tauto
    by_cases h6 : p = TagType.RB
    · subst h6
      simp
      try tauto
    by_cases h7 : p = TagType.RT
    · subst h7
      simp
      try tauto
    by_cases h8 : p = TagType.RP
    · subst h8
      simp
      try tauto
    by_cases h9 : p = TagType.OPTGROUP
    · subst h9
      simp
      try tauto
    by_cases h10 : p = TagType.TR
    · subst h10
      simp
      try tauto
    by_cases h11 : p = TagType.TD
    · subst h11
      simp
      try tauto
    by_cases h12 : p = TagType.TH
    · subst h12
      simp
      try tauto
    simp [h1, h2, h3, h4, h5, h6, h7, h8, h9, h10, h11, h12]
  refine ⟨fun parent child => ⟨key parent child, ?_⟩, ?_⟩
  · rw [← key parent child]
    simp
  · intro parent child h
    obtain ⟨p, pn⟩ := parent
    have hv : @LT.lt Nat _ p 24 ∨ @Eq Nat p 126 := by
      simp only [tag_is_void, decide_eq_true_eq] at h
      rcases h with h | h | h
      · exact Or.inr h
      · have h2 : @LT.lt Nat _ p 23 := h
        exact Or.inl (by omega)
      · have h2 : @Eq Nat p 23 := h
        exact Or.inl (by omega)
    have hne : ∀ K : Nat, 24 ≤ K → K < 126 → ¬ (@Eq Nat p K) := by
      intro K h1 h2 hK
      omega
    have e1 : ¬ p = TagType.LI := hne _ (by decide) (by decide)
    have e2 : ¬ p = TagType.DT := hne _ (by decide) (by decide)
    have e3 : ¬ p = TagType.DD := hne _ (by decide) (by decide)
    have e4 : ¬ p = TagType.P := hne _ (by decide) (by decide)
    have e5 : ¬ p = TagType.COLGROUP := hne _ (by decide) (by decide)
    have e6 : ¬ p = TagType.RB := hne _ (by decide) (by decide)
    have e7 : ¬ p = TagType.RT := hne _ (by decide) (by decide)
    have e8 : ¬ p = TagType.RP := hne _ (by decide) (by decide)
    have e9 : ¬ p = TagType.OPTGROUP := hne _ (by decide) (by decide)
    have e10 : ¬ p = TagType.TR := hne _ (by decide) (by decide)
    have e11 : ¬ p = TagType.TD := hne _ (by decide) (by decide)
    have e12 : ¬ p = TagType.TH := hne _ (by decide) (by decide)
    simp [tag_can_contain, e1, e2, e3, e4, e5, e6, e7, e8, e9, e10, e11, e12]

/-- C17 at a custom parent and at a paragraph: a custom tag accepts a `DIV`, a `P` refuses it. -/
theorem nesting_validity_table_witness :
    tag_can_contain (classify (str "my-tag")) (tag_make TagType.DIV) = true ∧
    (tag_can_contain (tag_make TagType.P) (tag_make TagType.DIV) = false ↔
      refuses_child TagType.P TagType.DIV) :=
  ⟨nesting_validity_table.2 (classify (str "my-tag")) (tag_make TagType.DIV)
      (Or.inl (by decide)),
    (nesting_validity_table.1 (tag_make TagType.P) (tag_make TagType.DIV)).1⟩

/-! ## C12: the end of the input -/

/-- C12 as stated fails: on the stack `[DIV]`, whose top is not void, `scanner_scan` at the end of
the input with implicit-end-tag valid declines and the stack keeps its entry. -/
theorem end_of_input_keeps_non_void_top :
    tag_is_void (tag_make TagType.DIV) = false ∧
    scanner_scan { tags := [tag_make TagType.DIV] } (TSLexer.start [] TEXT_FRAGMENT)
        (valid_only [IMPLICIT_END_TAG]) =
      (false, { tags := [tag_make TagType.DIV] }, TSLexer.start [] TEXT_FRAGMENT) := by
  decide

/-- C12, amended. End-of-input flush. On a non-empty stack with top `T`, `scanner_scan` called at
the end of the input with implicit-end-tag valid and raw-text mode not active pops the top entry
and returns `IMPLICIT_END_TAG` when `T` is void; when `T` is not void it declines and the stack
is unchanged. -/
theorem end_of_input_flush (below : List Tag) (T : Tag) (rs : TokenType)
    (valid_symbols : TokenType → Bool)
    (hvalid : valid_symbols IMPLICIT_END_TAG = true)
    (hraw : (valid_symbols RAW_TEXT && !valid_symbols START_TAG_NAME
      && !valid_symbols END_TAG_NAME) = false) :
    scanner_scan { tags := below ++ [T] } (TSLexer.start [] rs) valid_symbols =
      (if tag_is_void T then
        (true, { tags := below }, TSLexer.mk [] 0 0 none IMPLICIT_END_TAG)
      else (false, { tags := below ++ [T] }, TSLexer.mk [] 0 0 none rs)) := by
  unfold scanner_scan
  simp only [TSLexer.start, List.length_nil, Nat.zero_add, skip_whitespace, TSLexer.lookahead,
    List.headD_nil, hraw, Bool.false_eq_true, if_false, hvalid, if_true, ch_lt]
  have h0 : iswspace 0 = false := by decide
  simp only [h0, Bool.false_eq_true, if_false, show ¬ (0 = 60) by decide, if_true]
  have hs : (0 == ch '/') = false := by decide
  have hn : is_tag_name_char 0 = false := by decide
  by_cases hT : tag_is_void T = true
  · simp [scan_implicit_end_tag, tag_stack_top, TSLexer.lookahead, hs, hT, tag_stack_pop]
  · have hT2 : tag_is_void T = false := by simpa using hT
    simp [scan_implicit_end_tag, tag_stack_top, TSLexer.lookahead, hs, hT2, scan_tag_name,
      scan_tag_name_loop, hn]

/-- C12, amended, at the stack `[DIV, BR]`: the first call at the end of the input pops the void
`BR`, the second declines at `DIV`. -/
theorem end_of_input_flush_witness :
    scanner_scan { tags := [tag_make TagType.DIV] ++ [tag_make TagType.BR] }
        (TSLexer.start [] TEXT_FRAGMENT) (valid_only [IMPLICIT_END_TAG]) =
      (true, { tags := [tag_make TagType.DIV] }, TSLexer.mk [] 0 0 none IMPLICIT_END_TAG) ∧
    scanner_scan { tags := [] ++ [tag_make TagType.DIV] }
        (TSLexer.start [] TEXT_FRAGMENT) (valid_only [IMPLICIT_END_TAG]) =
      (false, { tags := [] ++ [tag_make TagType.DIV] }, TSLexer.mk [] 0 0 none TEXT_FRAGMENT) := by
  have h1 := end_of_input_flush [tag_make TagType.DIV] (tag_make TagType.BR) TEXT_FRAGMENT
    (valid_only [IMPLICIT_END_TAG]) (by decide) (by decide)
  have h2 := end_of_input_flush [] (tag_make TagType.DIV) TEXT_FRAGMENT
    (valid_only [IMPLICIT_END_TAG]) (by decide) (by decide)
  rw [if_pos (by decide)] at h1
  rw [if_neg (by decide)] at h2
  exact ⟨h1, h2⟩

/-! ## C15: the self-closing delimiter on the empty stack -/

theorem self_closing_on_empty_stack (rest : List Nat) (rs : TokenType)
    (valid_symbols : TokenType → Bool)
    (hvalid : valid_symbols SELF_CLOSING_TAG_DELIMITER = true)
    (hraw : (valid_symbols RAW_TEXT && !valid_symbols START_TAG_NAME
      && !valid_symbols END_TAG_NAME) = false) :
    scanner_scan { tags := [] } (TSLexer.start (ch '/' :: ch '>' :: rest) rs) valid_symbols =
      (true, { tags := [] }, TSLexer.mk rest 2 0 none rs) := by
  unfold scanner_scan
  rw [skip_whitespace_not_space _ _ (by rw [start_lookahead]; exact iswspace_slash)]
  simp only [hraw, start_lookahead, Bool.false_eq_true, if_false, hvalid]
  simp [ch_slash, ch_lt, scan_self_closing_tag_delimiter, TSLexer.start, TSLexer.advance,
    TSLexer.lookahead, tag_stack_empty, ch_gt]

/-- C15 fails: on the empty stack, with self-closing-delimiter the only valid kind, the input `/>`
makes `scanner_scan` return `true` with both characters consumed and the stack empty, but the
result symbol is not set: it is the kind the lexer held before the call, `TEXT_FRAGMENT` (the
kind numbered 0) in the first call below and `COMMENT` in the second. -/
theorem self_closing_on_empty_stack_keeps_symbol :
    scanner_scan { tags := [] } (TSLexer.start (str "/>") TEXT_FRAGMENT)
        (valid_only [SELF_CLOSING_TAG_DELIMITER]) =
      (true, { tags := [] }, TSLexer.mk [] 2 0 none TEXT_FRAGMENT) ∧
    scanner_scan { tags := [] } (TSLexer.start (str "/>") COMMENT)
        (valid_only [SELF_CLOSING_TAG_DELIMITER]) =
      (true, { tags := [] }, TSLexer.mk [] 2 0 none COMMENT) := by
  decide

/-! ## C13: leading whitespace -/

/-- C13 as stated fails: with the top `SCRIPT`, raw-text the only valid kind and the input
`  x</script>`, the two leading blanks are skipped as trivia and the `RAW_TEXT` token starts at
position 2 and ends at 3: it is `x`, without the blanks. -/
theorem raw_text_skips_leading_whitespace :
    scanner_scan { tags := [tag_make TagType.SCRIPT] }
        (TSLexer.start (str "  x</script>") TEXT_FRAGMENT) (valid_only [RAW_TEXT]) =
      (true, { tags := [tag_make TagType.SCRIPT] },
        TSLexer.mk (str "t>") 10 2 (some 3) RAW_TEXT) := by
  decide

/-- C13, amended. Leading whitespace. In every mode, raw-text mode included, `scanner_scan`
skips the leading whitespace `ws` of its input as trivia: the call is the call on the lexer that
stands after `ws` with the token start there, and the lexer it leaves has its token start right
after `ws`. In raw-text mode on a non-empty stack the call returns a `RAW_TEXT` token, which so
starts after the whitespace and does not include it. -/
theorem leading_whitespace_is_trivia (scanner : Scanner) (ws rest : List Nat) (rs : TokenType)
    (valid_symbols : TokenType → Bool)
    (hws : ∀ c ∈ ws, iswspace c = true) (hrest : iswspace (rest.headD 0) = false) :
    scanner_scan scanner (TSLexer.start (ws ++ rest) rs) valid_symbols =
      scanner_scan scanner (TSLexer.mk rest ws.length ws.length none rs) valid_symbols ∧
    (scanner_scan scanner (TSLexer.start (ws ++ rest) rs) valid_symbols).2.2.token_start
      = ws.length ∧
    ((valid_symbols RAW_TEXT && !valid_symbols START_TAG_NAME && !valid_symbols END_TAG_NAME)
        = true → scanner.tags ≠ [] →
      (scanner_scan scanner (TSLexer.start (ws ++ rest) rs) valid_symbols).1 = true ∧
      (scanner_scan scanner (TSLexer.start (ws ++ rest) rs) valid_symbols).2.1 = scanner ∧
      (scanner_scan scanner (TSLexer.start (ws ++ rest) rs) valid_symbols).2.2.result_symbol
        = RAW_TEXT) := by
  have h1 := scanner_scan_skips_whitespace scanner ws rest rs valid_symbols hws hrest
  have hl : iswspace (TSLexer.mk rest ws.length ws.length none rs).lookahead = false := by
    simpa [TSLexer.lookahead] using hrest
  refine ⟨h1, ?_, ?_⟩
  · rw [h1, scanner_scan_token_start _ _ _ hl]
  · intro hraw hne
    rw [h1]
    have hr := scan_raw_text_result scanner (TSLexer.mk rest ws.length ws.length none rs)
    have he : scanner_scan scanner (TSLexer.mk rest ws.length ws.length none rs) valid_symbols =
        scan_raw_text scanner (TSLexer.mk rest ws.length ws.length none rs) := by
      unfold scanner_scan
      rw [skip_whitespace_not_space _ _ hl]
      simp only [hraw, if_true]
    rw [he]
    exact ⟨hr.2.2.2 hne, hr.1, (hr.2.2.1 (hr.2.2.2 hne)).2⟩

/-- C13, amended, at the top `STYLE` with a line break and a blank before the text. -/
theorem leading_whitespace_is_trivia_witness :
    (scanner_scan { tags := [tag_make TagType.STYLE] }
        (TSLexer.start ([10, 32] ++ str "a</style>") TEXT_FRAGMENT)
        (valid_only [RAW_TEXT])).2.2.token_start = 2 ∧
    (scanner_scan { tags := [tag_make TagType.STYLE] }
        (TSLexer.start ([10, 32] ++ str "a</style>") TEXT_FRAGMENT)
        (valid_only [RAW_TEXT])).2.2.result_symbol = RAW_TEXT := by
  have h := leading_whitespace_is_trivia { tags := [tag_make TagType.STYLE] } [10, 32]
    (str "a</style>") TEXT_FRAGMENT (valid_only [RAW_TEXT]) (by decide) (by decide)
  exact ⟨h.2.1, (h.2.2 (by decide) (by decide)).2.2⟩

/-! ## C16: the start-tag-name scan -/

theorem tag_for_name_type_iff (a : List Nat) (ha : ∀ x ∈ a, x ≠ 0) (hla : a.length ≤ 255)
    (name : String) (type : TagType) (hname : tag_for_name (str name) = tag_make type)
    (hnul : ∀ x ∈ str name, x ≠ 0) (hlen : (str name).length ≤ 255)
    (htype : type ≠ TagType.CUSTOM) :
    (tag_for_name a).type = type ↔ a = str name := by
  have h := tag_equals_tag_for_name (str name) a hnul ha hlen hla
  rw [hname] at h
  constructor
  · intro ht
    have : tag_equals (tag_make type) (tag_for_name a) = true := by
      simp [tag_equals, tag_make, tag_reset, ht, htype]
    rw [this] at h
    exact (of_decide_eq_true h.symm).symm
  · intro he
    rw [he, hname]
    rfl

theorem start_tag_name_kind_eq (n : List Nat) (hn : ∀ c ∈ n, is_tag_name_char c = true) :
    (if (classify n).type = TagType.TEMPLATE then TEMPLATE_START_TAG_NAME
      else if (classify n).type = TagType.SCRIPT then SCRIPT_START_TAG_NAME
      else if (classify n).type = TagType.STYLE then STYLE_START_TAG_NAME
      else START_TAG_NAME) = start_tag_name_kind n := by
  have hnul := canonical_name_no_nul n hn
  have hlen := canonical_name_length n
  have h1 := tag_for_name_type_iff (canonical_name n) hnul hlen "TEMPLATE" TagType.TEMPLATE
    (by decide) (by decide) (by decide) (by decide)
  have h2 := tag_for_name_type_iff (canonical_name n) hnul hlen "SCRIPT" TagType.SCRIPT
    (by decide) (by decide) (by decide) (by decide)
  have h3 := tag_for_name_type_iff (canonical_name n) hnul hlen "STYLE" TagType.STYLE
    (by decide) (by decide) (by decide) (by decide)
  unfold start_tag_name_kind classify
  simp only [h1, h2, h3]

/-- C16 as stated fails in its last clause: with start-tag-name the only valid kind, the input
`<!---->` begins with an empty run of tag-name characters, and `scanner_scan` does not decline:
it returns a `COMMENT` token over the seven characters. -/
theorem empty_run_is_not_always_declined :
    is_tag_name_char (ch '<') = false ∧
    scanner_scan { tags := [] } (TSLexer.start (str "<!---->") TEXT_FRAGMENT)
        (valid_only [START_TAG_NAME]) =
      (true, { tags := [] }, TSLexer.mk [] 7 0 (some 7) COMMENT) := by
  decide

/-- C16, amended. Start-tag-name scan. Start-tag-name is valid and raw-text is not. On an input
that begins, after the whitespace `ws`, with the non-empty maximal run `n` of tag-name
characters, `scanner_scan` consumes the whole run (the token goes from the end of `ws` to the end
of `n`), leaves the stack `s` with the one new top entry `classify n`, and returns
`TEMPLATE_START_TAG_NAME`, `SCRIPT_START_TAG_NAME` or `STYLE_START_TAG_NAME` when the canonical
name is `TEMPLATE`, `SCRIPT` or `STYLE`, and `START_TAG_NAME` for every other name. On an empty
run whose first character is not `<`, not `/` and not the end of the input, it declines and the
stack is unchanged. -/
theorem start_tag_name_scan (s : List Tag) (ws n rest : List Nat) (rs : TokenType)
    (valid_symbols : TokenType → Bool)
    (hstart : valid_symbols START_TAG_NAME = true) (hraw : valid_symbols RAW_TEXT = false)
    (hws : ∀ c ∈ ws, iswspace c = true)
    (hn : ∀ c ∈ n, is_tag_name_char c = true)
    (hrest : is_tag_name_char (rest.headD 0) = false) :
    (n ≠ [] →
      scanner_scan { tags := s } (TSLexer.start (ws ++ (n ++ rest)) rs) valid_symbols =
        (true, { tags := s ++ [classify n] },
          TSLexer.mk rest (ws.length + n.length) ws.length none (start_tag_name_kind n)) ∧
      (TSLexer.mk rest (ws.length + n.length) ws.length none
        (start_tag_name_kind n)).token_end_position = ws.length + n.length) ∧
    (iswspace (rest.headD 0) = false → rest.headD 0 ≠ ch '<' → rest.headD 0 ≠ ch '/' →
      rest.headD 0 ≠ 0 →
      scanner_scan { tags := s } (TSLexer.start (ws ++ rest) rs) valid_symbols =
        (false, { tags := s }, TSLexer.mk rest ws.length ws.length none rs)) := by
  constructor
  · intro hn0
    refine ⟨?_, rfl⟩
    obtain ⟨c, n', rfl⟩ := List.exists_cons_of_ne_nil hn0
    have hc := hn c (List.mem_cons_self _ _)
    have hcases := tag_name_char_cases hc
    have hsp : iswspace (((c :: n') ++ rest).headD 0) = false := by
      simpa using tag_name_char_not_space hc
    rw [scanner_scan_skips_whitespace _ ws ((c :: n') ++ rest) rs valid_symbols hws hsp]
    have hs := scan_tag_name_run (c :: n') rest ws.length ws.length none rs hn (by simp) hrest
    unfold scanner_scan
    rw [skip_whitespace_not_space _ _ (by simpa [TSLexer.lookahead] using hsp)]
    have h1 : c ≠ 60 := by omega
    have h2 : c ≠ 0 := by omega
    have h3 : c ≠ 47 := by omega
    simp only [hstart, hraw, Bool.false_and, Bool.false_eq_true, if_false, TSLexer.lookahead,
      List.cons_append, List.headD_cons, ch_lt, ch_slash, h1, h2, h3, Bool.true_or, Bool.not_false,
      Bool.and_self, if_true]
    have hs2 : scan_tag_name (TSLexer.mk (c :: (n' ++ rest)) ws.length ws.length none rs) = _ := hs
    simp only [scan_start_tag_name, hs2, tag_stack_push]
    have hk := start_tag_name_kind_eq (c :: n') hn
    have hk2 : (if (tag_for_name (canonical_name (c :: n'))).type = TagType.TEMPLATE then
        TEMPLATE_START_TAG_NAME
      else if (tag_for_name (canonical_name (c :: n'))).type = TagType.SCRIPT then
        SCRIPT_START_TAG_NAME
      else if (tag_for_name (canonical_name (c :: n'))).type = TagType.STYLE then
        STYLE_START_TAG_NAME
      else START_TAG_NAME) = start_tag_name_kind (c :: n') := hk
    rw [hk2]
    rfl
  · intro hsp hlt hslash h0
    rw [scanner_scan_skips_whitespace _ ws rest rs valid_symbols hws hsp]
    unfold scanner_scan
    rw [skip_whitespace_not_space _ _ (by simpa [TSLexer.lookahead] using hsp)]
    simp only [hstart, hraw, Bool.false_and, Bool.false_eq_true, if_false, TSLexer.lookahead,
      hlt, hslash, h0, Bool.true_or, Bool.not_false, Bool.and_self, if_true]
    rw [scan_start_tag_name, scan_tag_name_none _ (by simpa [TSLexer.lookahead] using hrest)]

/-- C16, amended, at the stack `[DIV]`: ` Script>` pushes `SCRIPT` with its own kind, `my-tag ` a
custom tag with the generic kind, and `=x` is declined. -/
theorem start_tag_name_scan_witness :
    scanner_scan { tags := [tag_make TagType.DIV] }
        (TSLexer.start ([32] ++ (str "Script" ++ str ">")) TEXT_FRAGMENT)
        (valid_only [START_TAG_NAME]) =
      (true, { tags := [tag_make TagType.DIV, tag_make TagType.SCRIPT] },
        TSLexer.mk (str ">") 7 1 none SCRIPT_START_TAG_NAME) ∧
    scanner_scan { tags := [tag_make TagType.DIV] }
        (TSLexer.start ([] ++ (str "my-tag" ++ str " ")) TEXT_FRAGMENT)
        (valid_only [START_TAG_NAME]) =
      (true, { tags := [tag_make TagType.DIV, Tag.mk TagType.CUSTOM (str "MY-TAG")] },
        TSLexer.mk (str " ") 6 0 none START_TAG_NAME) ∧
    scanner_scan { tags := [tag_make TagType.DIV] }
        (TSLexer.start ([] ++ str "=x") TEXT_FRAGMENT) (valid_only [START_TAG_NAME]) =
      (false, { tags := [tag_make TagType.DIV] }, TSLexer.mk (str "=x") 0 0 none TEXT_FRAGMENT) := by
  have h1 := (start_tag_name_scan [tag_make TagType.DIV] [32] (str "Script") (str ">")
    TEXT_FRAGMENT (valid_only [START_TAG_NAME]) (by decide) (by decide) (by decide) (by decide)
    (by decide)).1 (by decide)
  have h2 := (start_tag_name_scan [tag_make TagType.DIV] [] (str "my-tag") (str " ")
    TEXT_FRAGMENT (valid_only [START_TAG_NAME]) (by decide) (by decide) (by decide) (by decide)
    (by decide)).1 (by decide)
  have h3 := (start_tag_name_scan [tag_make TagType.DIV] [] [] (str "=x")
    TEXT_FRAGMENT (valid_only [START_TAG_NAME]) (by decide) (by decide) (by decide) (by decide)
    (by decide)).2 (by decide) (by decide) (by decide) (by decide)
  refine ⟨?_, ?_, ?_⟩
  · rw [h1.1]; decide
  · rw [h2.1]; decide
  · exact h3

/-! ## C18: implicit end tags before a closing tag -/

theorem scanner_scan_closing_tag (s : List Tag) (n rest : List Nat) (rs : TokenType)
    (valid_symbols : TokenType → Bool)
    (hvalid : valid_symbols IMPLICIT_END_TAG = true)
    (hraw : (valid_symbols RAW_TEXT && !valid_symbols START_TAG_NAME
      && !valid_symbols END_TAG_NAME) = false)
    (hn : ∀ c ∈ n, is_tag_name_char c = true) (hn0 : n ≠ [])
    (hrest : is_tag_name_char (rest.headD 0) = false) :
    scanner_scan { tags := s } (TSLexer.start (ch '<' :: ch '/' :: (n ++ rest)) rs)
        valid_symbols =
      (if (match s.getLast? with | some top => tag_equals top (classify n) | none => false)
          = true then
        (false, { tags := s }, TSLexer.mk rest (2 + n.length) 0 (some 0) rs)
      else if tag_stack_contains s (classify n) = true then
        (true, { tags := s.dropLast }, TSLexer.mk rest (2 + n.length) 0 (some 0) IMPLICIT_END_TAG)
      else (false, { tags := s }, TSLexer.mk rest (2 + n.length) 0 (some 0) rs)) := by
  have hs := scan_tag_name_run n rest 2 0 (some 0) rs hn hn0 hrest
  unfold scanner_scan
  rw [skip_whitespace_not_space _ _ (by rw [start_lookahead]; exact iswspace_lt)]
  simp only [hraw, start_lookahead, if_true, Bool.false_eq_true, if_false, hvalid]
  simp only [TSLexer.start, TSLexer.mark_end, advance_cons, TSLexer.lookahead,
    List.headD_cons, ch_bang, ch_slash, show ¬ (47 = 33) by decide, if_false]
  simp only [scan_implicit_end_tag, TSLexer.lookahead, List.headD_cons, ch_slash, beq_self_eq_true,
    Bool.not_true, Bool.false_and, Bool.false_eq_true, if_false, if_true, advance_cons]
  have hs2 : scan_tag_name (TSLexer.mk (n ++ rest) (0 + 1 + 1) 0 (some 0) rs) =
      (true, canonical_name n, TSLexer.mk rest (2 + n.length) 0 (some 0) rs) := by
    simpa using hs
  rw [hs2]
  simp only [tag_stack_top, tag_stack_pop, tag_stack_empty]
  have hc : tag_for_name (canonical_name n) = classify n := rfl
  rw [hc]
  cases hl : s.getLast? with
  | none =>
    have : s = [] := by simpa using hl
    subst this
    simp [tag_stack_contains]
  | some top =>
    have hne : s ≠ [] := by
      intro h
      subst h
      simp at hl
    have hlen : (s.length == 0) = false := by
      simp [hne]
    by_cases he : tag_equals top (classify n) = true
    · simp [hlen, he]
    · simp [hlen, he]

/-- C18 as stated fails: with implicit-end-tag valid and raw-text mode active, the stack
`[DIV, SPAN]` and the input `</div>` give a `RAW_TEXT` token over the whole input, and nothing is
popped. -/
theorem closing_tag_in_raw_text_mode :
    valid_only [IMPLICIT_END_TAG, RAW_TEXT] IMPLICIT_END_TAG = true ∧
    tag_stack_contains [tag_make TagType.DIV, tag_make TagType.SPAN] (classify (str "div")) = true ∧
    scanner_scan { tags := [tag_make TagType.DIV, tag_make TagType.SPAN] }
        (TSLexer.start (str "</div>") TEXT_FRAGMENT) (valid_only [IMPLICIT_END_TAG, RAW_TEXT]) =
      (true, { tags := [tag_make TagType.DIV, tag_make TagType.SPAN] },
        TSLexer.mk [] 6 0 (some 6) RAW_TEXT) := by
  decide

/-- C18, amended. Implicit end tags for a mismatched closing tag converge. Implicit-end-tag is
valid, raw-text mode is not active, and the input is `</` followed by the tag name `n`. If the
top of the stack equals `classify n`, `scanner_scan` declines and the stack is unchanged. If no
entry of the stack equals `classify n` (the empty stack included), it declines and the stack is
unchanged. If the entry `M` equals `classify n` and the `d >= 1` entries `above` it do not, one
call returns an empty `IMPLICIT_END_TAG` token (start and marked end at 0) and pops exactly the
top entry, and `d` successive calls leave the stack with `M` on top, where the next call
declines. -/
theorem implicit_end_tags_converge (n rest : List Nat) (rs : TokenType)
    (valid_symbols : TokenType → Bool)
    (hvalid : valid_symbols IMPLICIT_END_TAG = true)
    (hraw : (valid_symbols RAW_TEXT && !valid_symbols START_TAG_NAME
      && !valid_symbols END_TAG_NAME) = false)
    (hn : ∀ c ∈ n, is_tag_name_char c = true) (hn0 : n ≠ [])
    (hrest : is_tag_name_char (rest.headD 0) = false) :
    (∀ (below : List Tag) (T : Tag), tag_equals T (classify n) = true →
      scanner_scan { tags := below ++ [T] } (TSLexer.start (ch '<' :: ch '/' :: (n ++ rest)) rs)
          valid_symbols =
        (false, { tags := below ++ [T] }, TSLexer.mk rest (2 + n.length) 0 (some 0) rs)) ∧
    (∀ s : List Tag, (∀ t ∈ s, tag_equals t (classify n) = false) →
      scanner_scan { tags := s } (TSLexer.start (ch '<' :: ch '/' :: (n ++ rest)) rs)
          valid_symbols =
        (false, { tags := s }, TSLexer.mk rest (2 + n.length) 0 (some 0) rs)) ∧
    (∀ (below : List Tag) (M : Tag) (above : List Tag), tag_equals M (classify n) = true →
      (∀ t ∈ above, tag_equals t (classify n) = false) → above ≠ [] →
      scanner_scan { tags := below ++ M :: above }
          (TSLexer.start (ch '<' :: ch '/' :: (n ++ rest)) rs) valid_symbols =
        (true, { tags := (below ++ M :: above).dropLast },
          TSLexer.mk rest (2 + n.length) 0 (some 0) IMPLICIT_END_TAG) ∧
      implicit_end_tag_calls valid_symbols (ch '<' :: ch '/' :: (n ++ rest)) rs above.length
          { tags := below ++ M :: above } = some { tags := below ++ [M] }) := by
  have key := fun s => scanner_scan_closing_tag s n rest rs valid_symbols hvalid hraw hn hn0 hrest
  have step : ∀ (below : List Tag) (M : Tag) (above : List Tag),
      tag_equals M (classify n) = true →
      (∀ t ∈ above, tag_equals t (classify n) = false) → above ≠ [] →
      scanner_scan { tags := below ++ M :: above }
          (TSLexer.start (ch '<' :: ch '/' :: (n ++ rest)) rs) valid_symbols =
        (true, { tags := (below ++ M :: above).dropLast },
          TSLexer.mk rest (2 + n.length) 0 (some 0) IMPLICIT_END_TAG) := by
    intro below M above hM habove hne
    rw [key]
    obtain ⟨init, last, rfl⟩ : ∃ init last, above = init ++ [last] :=
      ⟨above.dropLast, above.getLast hne, (List.dropLast_append_getLast hne).symm⟩
    have hlast : tag_equals last (classify n) = false :=
      habove last (by simp)
    have hget : (below ++ M :: (init ++ [last])).getLast? = some last := by
      rw [show below ++ M :: (init ++ [last]) = (below ++ M :: init) ++ [last] by simp]
      exact List.getLast?_concat _
    have hcont : tag_stack_contains (below ++ M :: (init ++ [last])) (classify n) = true := by
      simp only [tag_stack_contains, List.any_eq_true]
      exact ⟨M, by simp, hM⟩
    simp only [hget, hlast, Bool.false_eq_true, if_false, hcont, if_true]
  refine ⟨?_, ?_, ?_⟩
  · intro below T hT
    rw [key]
    simp [List.getLast?_concat, hT]
  · intro s hs
    rw [key]
    have hcont : tag_stack_contains s (classify n) = false := by
      simp only [tag_stack_contains, List.any_eq_false]
      intro t ht
      simp [hs t ht]
    have htop : (match s.getLast? with
        | some top => tag_equals top (classify n) | none => false) = false := by
      cases hl : s.getLast? with
      | none => rfl
      | some top => exact hs top (List.mem_of_getLast?_eq_some hl)
    simp only [htop, hcont, Bool.false_eq_true, if_false]
  · intro below M above hM habove hne
    refine ⟨step below M above hM habove hne, ?_⟩
    clear hne
    induction above using List.reverseRecOn with
    | nil => rfl
    | append_singleton init last ih =>
      have hs := step below M (init ++ [last]) hM habove (by simp)
      have hd : (below ++ M :: (init ++ [last])).dropLast = below ++ M :: init := by
        rw [show below ++ M :: (init ++ [last]) = (below ++ M :: init) ++ [last] by simp]
        exact List.dropLast_concat
      rw [hd] at hs
      simp only [List.length_append, List.length_singleton, implicit_end_tag_calls, hs,
        TSLexer.token_end_position, true_and, if_true]
      exact ih (fun t ht => habove t (by simp [ht]))

/-- C18, amended, at the stack `[DIV, P, SPAN, B]` with the input `</p>`: two calls pop `B` and
`SPAN`, and the next call declines at `P`. -/
theorem implicit_end_tags_converge_witness :
    implicit_end_tag_calls (valid_only [IMPLICIT_END_TAG])
        (ch '<' :: ch '/' :: (str "p" ++ str ">")) TEXT_FRAGMENT 2
        { tags := [tag_make TagType.DIV] ++
          tag_make TagType.P :: [tag_make TagType.SPAN, tag_make TagType.B] } =
      some { tags := [tag_make TagType.DIV] ++ [tag_make TagType.P] } ∧
    scanner_scan { tags := [tag_make TagType.DIV] ++ [tag_make TagType.P] }
        (TSLexer.start (ch '<' :: ch '/' :: (str "p" ++ str ">")) TEXT_FRAGMENT)
        (valid_only [IMPLICIT_END_TAG]) =
      (false, { tags := [tag_make TagType.DIV] ++ [tag_make TagType.P] },
        TSLexer.mk (str ">") (2 + (str "p").length) 0 (some 0) TEXT_FRAGMENT) := by
  have h := implicit_end_tags_converge (str "p") (str ">") TEXT_FRAGMENT
    (valid_only [IMPLICIT_END_TAG]) (by decide) (by decide) (by decide) (by decide) (by decide)
  exact ⟨(h.2.2 [tag_make TagType.DIV] (tag_make TagType.P)
      [tag_make TagType.SPAN, tag_make TagType.B] (by decide) (by decide) (by decide)).2,
    h.1 [tag_make TagType.DIV] (tag_make TagType.P) (by decide)⟩

/-! ## C11: the truncating snapshot -/

set_option maxRecDepth 100000 in
theorem tag_well_formed_table : ∀ e ∈ TAG_NAME_ENTRIES, tag_well_formed (tag_make e.2) := by
  decide

theorem tag_well_formed_tag_for_name (buffer : List Nat) :
    tag_well_formed (tag_for_name buffer) := by
  cases hf : TAG_NAME_ENTRIES.find? (fun entry => str entry.1 == c_str buffer) with
  | none =>
    have hlen : (List.take (if (c_str buffer).length > 255 then 255 else (c_str buffer).length)
        (c_str buffer)).length ≤ 255 := by
      rw [List.length_take]
      split <;> omega
    simp only [tag_for_name, hf, tag_set_custom_name, tag_make, tag_reset, tag_well_formed,
      TREE_SITTER_HTML_MAX_CUSTOM_TAG_NAME_LENGTH]
    exact ⟨by decide, hlen, fun h => absurd rfl h⟩
  | some entry =>
    have hmem := List.mem_of_find?_eq_some hf
    simp only [tag_for_name, hf]
    exact tag_well_formed_table entry hmem

theorem serialize_tags_prefix (tags : List Tag) (h : ∀ t ∈ tags, tag_well_formed t) :
    ∀ offset, (serialize_tags tags offset).1 ≤ tags.length ∧
      (serialize_tags tags offset).2 = encode_tags (tags.take (serialize_tags tags offset).1) ∧
      (offset < TREE_SITTER_SERIALIZATION_BUFFER_SIZE →
        offset + (serialize_tags tags offset).2.length < TREE_SITTER_SERIALIZATION_BUFFER_SIZE) := by
  induction tags with
  | nil =>
    intro offset
    simp [serialize_tags, encode_tags]
  | cons t ts ih =>
    intro offset
    obtain ⟨h256, h255, hname⟩ := h t (List.mem_cons_self _ _)
    have hts := ih (fun x hx => h x (List.mem_cons_of_mem _ hx))
    have h256n : @LT.lt Nat _ t.type 256 := h256
    by_cases hc : t.type = TagType.CUSTOM
    · have hcap : ¬ t.custom_tag_name.length > 255 := by omega
      by_cases hfull : offset + 2 + t.custom_tag_name.length ≥ 1024
      · simp [serialize_tags, hc, Tag.custom_tag_name_length, UINT8_MAX, hcap,
          TREE_SITTER_SERIALIZATION_BUFFER_SIZE, hfull, encode_tags]
      · obtain ⟨r1, r2, r3⟩ := hts (offset + 2 + t.custom_tag_name.length)
        simp only [TREE_SITTER_SERIALIZATION_BUFFER_SIZE] at r3 ⊢
        have r3b := r3 (by omega)
        simp only [serialize_tags, hc, if_true, Tag.custom_tag_name_length, UINT8_MAX, hcap,
          if_false, TREE_SITTER_SERIALIZATION_BUFFER_SIZE, hfull, List.length_cons,
          List.take_succ_cons, encode_tags, encode_tag, to_char, List.take_length,
          List.length_append]
        rw [Nat.mod_eq_of_lt (by decide : (TagType.CUSTOM : Nat) < 256),
          Nat.mod_eq_of_lt (by omega : t.custom_tag_name.length < 256)]
        refine ⟨by omega, ?_, fun _ => by omega⟩
        rw [← r2]
        simp
    · by_cases hfull : offset + 1 ≥ 1024
      · simp [serialize_tags, hc, TREE_SITTER_SERIALIZATION_BUFFER_SIZE, hfull, encode_tags]
      · obtain ⟨r1, r2, r3⟩ := hts (offset + 1)
        simp only [TREE_SITTER_SERIALIZATION_BUFFER_SIZE] at r3 ⊢
        have r3b := r3 (by omega)
        simp only [serialize_tags, hc, if_false, TREE_SITTER_SERIALIZATION_BUFFER_SIZE, hfull,
          List.length_cons, List.take_succ_cons, encode_tags, encode_tag, to_char,
          List.length_append]
        rw [Nat.mod_eq_of_lt h256n]
        refine ⟨by omega, ?_, fun _ => by omega⟩
        rw [← r2]
        simp

theorem deserialize_encoded_well_formed (tags : List Tag) (h : ∀ t ∈ tags, tag_well_formed t) :
    ∀ (pre : List Nat) (slots : List Tag), tags.length ≤ slots.length →
      deserialize_tags (pre ++ encode_tags tags) tags.length pre.length slots =
        some (tags ++ slots.drop tags.length) := by
  induction tags with
  | nil =>
    intro pre slots _
    cases slots <;> simp [deserialize_tags]
  | cons t ts ih =>
    intro pre slots hlen
    obtain ⟨_, h255, hname⟩ := h t (List.mem_cons_self _ _)
    have hts := ih (fun x hx => h x (List.mem_cons_of_mem _ hx))
    cases slots with
    | nil => simp at hlen
    | cons slot slots =>
      have hlen2 : ts.length ≤ slots.length := Nat.le_of_succ_le_succ hlen
      have hrec := hts (pre ++ encode_tag t) slots hlen2
      rw [List.append_assoc] at hrec
      by_cases hc : t.type = TagType.CUSTOM
      · have henc : encode_tag t = t.type :: t.custom_tag_name.length :: t.custom_tag_name := by
          simp [encode_tag, hc]
        rw [henc] at hrec
        have hbuf : pre ++ encode_tags (t :: ts) =
            pre ++ t.type :: t.custom_tag_name.length :: (t.custom_tag_name ++ encode_tags ts) := by
          simp [encode_tags, henc]
        have hget : (pre ++ encode_tags (t :: ts))[pre.length]? = some TagType.CUSTOM := by
          rw [hbuf, ← hc, getElem?_at_length]
        have hget2 : (pre ++ encode_tags (t :: ts))[pre.length + 1]? =
            some t.custom_tag_name.length := by
          rw [hbuf, getElem?_at_length_succ]
        have hbl : (pre ++ encode_tags (t :: ts)).length =
            pre.length + 1 + 1 + (t.custom_tag_name.length + (encode_tags ts).length) := by
          rw [hbuf]
          simp only [List.length_append, List.length_cons]
          omega
        have hlt : ¬ pre.length ≥ (pre ++ encode_tags (t :: ts)).length := by omega
        have hlt2 : ¬ pre.length + 1 ≥ (pre ++ encode_tags (t :: ts)).length := by omega
        have hdrop : List.drop (pre.length + 1 + 1) (pre ++ encode_tags (t :: ts)) =
            t.custom_tag_name ++ encode_tags ts := by
          rw [hbuf, drop_at_length_succ_succ]
        have hrec2 : deserialize_tags (pre ++ encode_tags (t :: ts)) ts.length
            (pre.length + 1 + 1 + t.custom_tag_name.length) slots =
            some (ts ++ List.drop ts.length slots) := by
          rw [hbuf]
          have : (pre ++ t.type :: t.custom_tag_name.length :: t.custom_tag_name).length
              = pre.length + 1 + 1 + t.custom_tag_name.length := by
            simp only [List.length_append, List.length_cons]
            omega
          rw [← this]
          simpa using hrec
        have hcap : ¬ t.custom_tag_name.length > 255 := by omega
        have hcap2 : ¬ t.custom_tag_name.length >
            (pre ++ encode_tags (t :: ts)).length - (pre.length + 1 + 1) := by omega
        have hin : pre.length + 1 + 1 + t.custom_tag_name.length ≤
            (pre ++ encode_tags (t :: ts)).length := by omega
        simp only [List.length_cons, deserialize_tags, hlt, if_false, hget, Option.bind_eq_bind,
          Option.some_bind, if_true, hlt2, hget2, TREE_SITTER_HTML_MAX_CUSTOM_TAG_NAME_LENGTH,
          hcap, hcap2, hin, hdrop, List.take_left, hrec2, List.drop_succ_cons, List.cons_append]
        cases t
        simp_all
      · have hnil := hname hc
        have henc : encode_tag t = [t.type] := by simp [encode_tag, hc]
        rw [henc] at hrec
        have hbuf : pre ++ encode_tags (t :: ts) = pre ++ t.type :: encode_tags ts := by
          simp [encode_tags, henc]
        have hget : (pre ++ encode_tags (t :: ts))[pre.length]? = some t.type := by
          rw [hbuf, getElem?_at_length]
        have hlt : ¬ pre.length ≥ (pre ++ encode_tags (t :: ts)).length := by
          rw [hbuf]
          simp
        have hrec2 : deserialize_tags (pre ++ encode_tags (t :: ts)) ts.length (pre.length + 1)
            slots = some (ts ++ List.drop ts.length slots) := by
          rw [hbuf]
          simpa using hrec
        simp only [List.length_cons, deserialize_tags, hlt, if_false, hget, Option.bind_eq_bind,
          Option.some_bind, hc, hrec2, List.drop_succ_cons, List.cons_append]
        cases t
        simp_all

/-- C11. Truncating snapshot. For every stack of well-formed tags, of any depth,
`scanner_serialize` writes at most 1024 bytes; bytes 0..1 hold the number `k` of records written,
with `k` at most the depth, bytes 2..3 hold the logical depth `min depth 65535`, and the bytes
after the header are the records of the first `k` tags. `scanner_deserialize` of that output
gives a stack of depth `min depth 65535` whose first `k` tags are the first `k` tags of the stack
and whose other slots hold the reset tag (`END_OF_VOID_TAGS`, empty name), whatever the scanner
held before. -/
theorem truncating_snapshot (previous s : Scanner) (hwf : ∀ t ∈ s.tags, tag_well_formed t) :
    (scanner_serialize s).length ≤ TREE_SITTER_SERIALIZATION_BUFFER_SIZE ∧
    ∃ k, k ≤ s.tags.length ∧
      (scanner_serialize s).getD 0 0 + 256 * (scanner_serialize s).getD 1 0 = k ∧
      (scanner_serialize s).getD 2 0 + 256 * (scanner_serialize s).getD 3 0 =
        min s.tags.length 65535 ∧
      (scanner_serialize s).drop 4 = encode_tags (s.tags.take k) ∧
      (s.tags.take k ++ List.replicate (min s.tags.length 65535 - k)
        (Tag.mk TagType.END_OF_VOID_TAGS [])).length = min s.tags.length 65535 ∧
      scanner_deserialize previous (scanner_serialize s) =
        some (Scanner.mk (s.tags.take k ++ List.replicate (min s.tags.length 65535 - k)
          (Tag.mk TagType.END_OF_VOID_TAGS []))) := by
  have hm : (if s.tags.length > UINT16_MAX then UINT16_MAX else s.tags.length) =
      min s.tags.length 65535 := by
    simp only [UINT16_MAX]
    split <;> omega
  have hwf2 : ∀ t ∈ s.tags.take (min s.tags.length 65535), tag_well_formed t :=
    fun t ht => hwf t (List.mem_of_mem_take ht)
  obtain ⟨r1, r2, r3⟩ := serialize_tags_prefix (s.tags.take (min s.tags.length 65535)) hwf2 4
  generalize hk : (serialize_tags (s.tags.take (min s.tags.length 65535)) 4).1 = k at r1 r2 r3
  have r3b := r3 (by decide)
  simp only [TREE_SITTER_SERIALIZATION_BUFFER_SIZE] at r3b ⊢
  rw [List.length_take] at r1
  have htt : (s.tags.take (min s.tags.length 65535)).take k = s.tags.take k := by
    rw [List.take_take]
    congr 1
    omega
  rw [htt] at r2
  have hkl : (s.tags.take k).length = k := by
    rw [List.length_take]
    omega
  have hle := length_le_encode_tags (s.tags.take k)
  rw [hkl, ← r2] at hle
  have hbytes : scanner_serialize s =
      [k % 256, k / 256 % 256, min s.tags.length 65535 % 256,
        min s.tags.length 65535 / 256 % 256] ++ encode_tags (s.tags.take k) := by
    simp only [scanner_serialize, hm, hk, u16_bytes, r2]
    rfl
  have hvk : k % 256 + 256 * (k / 256 % 256) = k := by omega
  have hvm : min s.tags.length 65535 % 256 + 256 * (min s.tags.length 65535 / 256 % 256) =
      min s.tags.length 65535 := by omega
  have hdes := deserialize_encoded_well_formed (s.tags.take k)
    (fun t ht => hwf t (List.mem_of_mem_take ht))
    [k % 256, k / 256 % 256, min s.tags.length 65535 % 256,
      min s.tags.length 65535 / 256 % 256]
    (List.replicate (min s.tags.length 65535) (Tag.mk TagType.END_OF_VOID_TAGS [])) (by
      rw [hkl, List.length_replicate]
      omega)
  rw [hkl] at hdes
  rw [hbytes]
  refine ⟨?_, k, by omega, ?_, ?_, ?_, ?_, ?_⟩
  · rw [← r2]
    simp only [List.length_append, List.length_cons, List.length_nil]
    omega
  · simpa using hvk
  · simpa using hvm
  · simp
  · rw [List.length_append, hkl, List.length_replicate]
    omega
  · simp only [scanner_deserialize, List.length_append, List.length_cons, List.length_nil,
      List.cons_append, List.nil_append, Nat.add_eq_zero, and_false, if_false,
      show ¬ ((encode_tags (s.tags.take k)).length + 1 + 1 + 1 + 1 < 2 + 2) by omega,
      List.getElem?_cons_zero, List.getElem?_cons_succ, Option.bind_eq_bind, Option.some_bind,
      hvk, hvm, tag_stack_resize_nil]
    simp only [List.length_cons, List.length_nil, List.cons_append, List.nil_append] at hdes
    rw [hdes, if_neg (by simp)]
    simp only [Option.some_bind, List.take_left' hkl, List.drop_left' hkl, List.drop_replicate,
      List.map_replicate]
    rfl

set_option maxRecDepth 1000000 in
/-- C11 at the stack of four custom tags with names of 253 bytes, whose complete encoding is
1024 bytes. -/
theorem truncating_snapshot_witness :
    (∀ t ∈ capacity_stack.tags, tag_well_formed t) ∧
    (scanner_serialize capacity_stack).length ≤ TREE_SITTER_SERIALIZATION_BUFFER_SIZE ∧
    ∃ k, k ≤ capacity_stack.tags.length ∧
      (scanner_serialize capacity_stack).getD 0 0 +
        256 * (scanner_serialize capacity_stack).getD 1 0 = k ∧
      (scanner_serialize capacity_stack).getD 2 0 +
        256 * (scanner_serialize capacity_stack).getD 3 0 =
        min capacity_stack.tags.length 65535 ∧
      (scanner_serialize capacity_stack).drop 4 = encode_tags (capacity_stack.tags.take k) ∧
      (capacity_stack.tags.take k ++ List.replicate (min capacity_stack.tags.length 65535 - k)
        (Tag.mk TagType.END_OF_VOID_TAGS [])).length = min capacity_stack.tags.length 65535 ∧
      scanner_deserialize scanner_new (scanner_serialize capacity_stack) =
        some (Scanner.mk (capacity_stack.tags.take k ++
          List.replicate (min capacity_stack.tags.length 65535 - k)
            (Tag.mk TagType.END_OF_VOID_TAGS []))) :=
  ⟨by decide, truncating_snapshot scanner_new capacity_stack (by decide)⟩

/-! ## C14: interpolation text before the closing braces -/

/-- C14 as stated fails: with interpolation-text valid, not in error recovery, and the input
beginning with the two closing braces, the call returns false: no token is produced. The result
symbol has been set to `INTERPOLATION_TEXT` and one brace has been passed. -/
theorem empty_interpolation_is_declined :
    tree_sitter_vue_external_scanner_scan scanner_new
        (TSLexer.start (str "\x7d\x7d") TEXT_FRAGMENT) (valid_only [INTERPOLATION_TEXT]) =
      (false, scanner_new, TSLexer.mk (str "\x7d") 1 0 (some 0) INTERPOLATION_TEXT) := by
  decide

/-- C14, amended. Interpolation text before the closing braces. Not in error recovery, with
interpolation-text valid and the lookahead not `<`, let the two closing braces at position `i` be
the first place at which the text stops. `tree_sitter_vue_external_scanner_scan` returns true
exactly when `i > 0`; the result symbol is `INTERPOLATION_TEXT`, the token starts at 0 and its
end is marked at `i`, one brace has been passed, and the tag stack is unchanged. When the input
begins with the closing braces (`i = 0`) the call returns false. -/
theorem interpolation_text_before_closing (scanner : Scanner) (input : List Nat)
    (rs : TokenType) (valid_symbols : TokenType → Bool) (i : Nat)
    (hrecovery : (valid_symbols START_TAG_NAME && valid_symbols RAW_TEXT) = false)
    (hvalid : valid_symbols INTERPOLATION_TEXT = true)
    (hlookahead : input.headD 0 ≠ ch '<')
    (hclose : (input.drop i).take 2 = [ch '\x7d', ch '\x7d'])
    (hfirst : ∀ j < i, text_stops_at true (input.drop j) = false) :
    tree_sitter_vue_external_scanner_scan scanner (TSLexer.start input rs) valid_symbols =
      (decide (0 < i), scanner,
        TSLexer.mk (input.drop (i + 1)) (i + 1) 0 (some i) INTERPOLATION_TEXT) := by
  obtain ⟨tl, htl⟩ : ∃ tl, input.drop i = ch '\x7d' :: ch '\x7d' :: tl := by
    match h : input.drop i, hclose with
    | a :: b :: tl, hc =>
      simp only [List.take_succ_cons, List.take_zero, List.cons.injEq, and_true] at hc
      exact ⟨tl, by rw [hc.1, hc.2]⟩
  have hstop : text_stops_at true (input.drop i) = true := by
    rw [htl]
    simp [text_stops_at]
  have hrun := text_loop_run true i input (input.length + 1) false 0 0 none rs hstop hfirst
    (Nat.lt_succ_self _)
  have hl : ((TSLexer.start input rs).lookahead != ch '<') = true := by
    simpa [TSLexer.start, TSLexer.lookahead] using hlookahead
  have hrun2 : text_loop true ((TSLexer.start input rs).input.length + 1)
      false (TSLexer.start input rs) = _ := hrun
  unfold tree_sitter_vue_external_scanner_scan
  simp only [hrecovery, hl, hvalid, Bool.not_false, Bool.and_self, Bool.or_true, if_true]
  rw [hrun2, htl]
  simp [ch_rbrace]

/-- C14, amended, at the input `x` followed by the two closing braces: the token spans `x`. -/
theorem interpolation_text_before_closing_witness :
    tree_sitter_vue_external_scanner_scan scanner_new
        (TSLexer.start (str "x\x7d\x7d") TEXT_FRAGMENT) (valid_only [INTERPOLATION_TEXT]) =
      (decide (0 < 1), scanner_new,
        TSLexer.mk ((str "x\x7d\x7d").drop (1 + 1)) (1 + 1) 0 (some 1) INTERPOLATION_TEXT) :=
  interpolation_text_before_closing scanner_new (str "x\x7d\x7d") TEXT_FRAGMENT
    (valid_only [INTERPOLATION_TEXT]) 1 (by decide) (by decide) (by decide) (by decide)
    (by decide)

/-! ## C19: error recovery -/

/-- In error recovery (start-tag-name and raw-text both valid) the call is the call of
`scanner_scan`, which never pushes: a call that returns true has set `COMMENT` and left the stack
alone, or has popped the top of a non-empty stack and set `IMPLICIT_END_TAG` or
`SELF_CLOSING_TAG_DELIMITER`, or has found the stack empty and left the result symbol as it was
(the `/>` of `scan_self_closing_tag_delimiter`); a call that returns false leaves the stack
alone. -/
theorem error_recovery_tokens (scanner : Scanner) (lexer : TSLexer)
    (valid_symbols : TokenType → Bool)
    (hstart : valid_symbols START_TAG_NAME = true) (hraw : valid_symbols RAW_TEXT = true) :
    tree_sitter_vue_external_scanner_scan scanner lexer valid_symbols =
      scanner_scan scanner lexer valid_symbols ∧
    ((tree_sitter_vue_external_scanner_scan scanner lexer valid_symbols).1 = true →
      ((tree_sitter_vue_external_scanner_scan scanner lexer valid_symbols).2.2.result_symbol
          = COMMENT ∧
        (tree_sitter_vue_external_scanner_scan scanner lexer valid_symbols).2.1 = scanner) ∨
      (scanner.tags ≠ [] ∧
        (tree_sitter_vue_external_scanner_scan scanner lexer valid_symbols).2.1.tags
          = scanner.tags.dropLast ∧
        ((tree_sitter_vue_external_scanner_scan scanner lexer valid_symbols).2.2.result_symbol
            = IMPLICIT_END_TAG ∨
          (tree_sitter_vue_external_scanner_scan scanner lexer valid_symbols).2.2.result_symbol
            = SELF_CLOSING_TAG_DELIMITER)) ∨
      (scanner.tags = [] ∧
        (tree_sitter_vue_external_scanner_scan scanner lexer valid_symbols).2.1 = scanner ∧
        (tree_sitter_vue_external_scanner_scan scanner lexer valid_symbols).2.2.result_symbol
          = lexer.result_symbol)) ∧
    ((tree_sitter_vue_external_scanner_scan scanner lexer valid_symbols).1 = false →
      (tree_sitter_vue_external_scanner_scan scanner lexer valid_symbols).2.1 = scanner) := by
  have heq : tree_sitter_vue_external_scanner_scan scanner lexer valid_symbols =
      scanner_scan scanner lexer valid_symbols := by
    simp [tree_sitter_vue_external_scanner_scan, hstart, hraw]
  rw [heq]
  exact ⟨rfl, scanner_scan_in_recovery scanner lexer valid_symbols hstart hraw⟩

/-- C19 fails: in error recovery (start-tag-name and raw-text valid) with self-closing-delimiter
valid, the empty stack and the input `/>`, `tree_sitter_vue_external_scanner_scan` returns true
with the result symbol left as the lexer held it, `TEXT_FRAGMENT` (the kind numbered 0): the
token is a `TEXT_FRAGMENT`. With interpolation-text as the kind held before, it is an
`INTERPOLATION_TEXT`. -/
theorem error_recovery_keeps_symbol_on_empty_stack :
    tree_sitter_vue_external_scanner_scan { tags := [] } (TSLexer.start (str "/>") TEXT_FRAGMENT)
        (valid_only [START_TAG_NAME, RAW_TEXT, SELF_CLOSING_TAG_DELIMITER]) =
      (true, { tags := [] }, TSLexer.mk [] 2 0 none TEXT_FRAGMENT) ∧
    tree_sitter_vue_external_scanner_scan { tags := [] }
        (TSLexer.start (str "/>") INTERPOLATION_TEXT)
        (valid_only [START_TAG_NAME, RAW_TEXT, SELF_CLOSING_TAG_DELIMITER]) =
      (true, { tags := [] }, TSLexer.mk [] 2 0 none INTERPOLATION_TEXT) := by
  decide

/-! ## C20: the comment scan -/

theorem closes_comment_at_iff (body : List Nat) (j : Nat) :
    closes_comment_at body j = true ↔
      body.getD j 0 = 62 ∧ 2 ≤ j ∧ body.getD (j - 1) 0 = 45 ∧ body.getD (j - 2) 0 = 45 := by
  simp only [closes_comment_at, ch_gt, ch_dash, Bool.and_eq_true, beq_iff_eq, decide_eq_true_eq,
    and_assoc]

theorem drop_of_getD_ne_zero : ∀ (body : List Nat) (k : Nat), body.getD k 0 ≠ 0 →
    k < body.length ∧ body.drop k = body.getD k 0 :: body.drop (k + 1)
  | [], k, h => by simp at h
  | c :: rest, 0, _ => by simp
  | c :: rest, k + 1, h => by
    have ih := drop_of_getD_ne_zero rest k (by simpa using h)
    simpa using ih

theorem headD_drop_eq_getD : ∀ (body : List Nat) (k : Nat),
    (body.drop k).headD 0 = body.getD k 0
  | [], k => by simp
  | c :: rest, 0 => by simp
  | c :: rest, k + 1 => by
    have ih := headD_drop_eq_getD rest k
    simp [ih]

theorem scan_comment_loop_closes (body : List Nat) (j p ts : Nat) (te : Option Nat)
    (rs : TokenType) (hj : closes_comment_at body j = true)
    (hfirst : ∀ m < j, closes_comment_at body m = false ∧ body.getD m 0 ≠ 0) :
    ∀ (n k d fuel : Nat), k + n = j →
      (1 ≤ d ↔ 1 ≤ k ∧ body.getD (k - 1) 0 = 45) →
      (2 ≤ d ↔ 2 ≤ k ∧ body.getD (k - 1) 0 = 45 ∧ body.getD (k - 2) 0 = 45) →
      body.length < fuel + k →
      scan_comment_loop fuel d (TSLexer.mk (body.drop k) (p + k) ts te rs) =
        (true, TSLexer.mk (body.drop (j + 1)) (p + j + 1) ts (some (p + j + 1)) COMMENT) := by
  intro n
  induction n with
  | zero =>
    intro k d fuel hk h1 h2 hfuel
    have hkj : k = j := by omega
    subst hkj
    obtain ⟨hgt, h2j, hm1, hm2⟩ := (closes_comment_at_iff body k).1 hj
    obtain ⟨hlen, hdrop⟩ := drop_of_getD_ne_zero body k (by rw [hgt]; decide)
    rw [hgt] at hdrop
    have hd : 2 ≤ d := h2.2 ⟨h2j, hm1, hm2⟩
    cases fuel with
    | zero => omega
    | succ f =>
      rw [hdrop]
      simp [scan_comment_loop, TSLexer.lookahead, advance_cons, TSLexer.mark_end, ch_gt, ch_dash,
        hd]
  | succ n ih =>
    intro k d fuel hk h1 h2 hfuel
    obtain ⟨hnc, hnz⟩ := hfirst k (by omega)
    obtain ⟨hlen, hdrop⟩ := drop_of_getD_ne_zero body k hnz
    have hnc2 : ¬ (body.getD k 0 = 62 ∧ 2 ≤ k ∧ body.getD (k - 1) 0 = 45 ∧
        body.getD (k - 2) 0 = 45) := by
      rw [← closes_comment_at_iff, hnc]
      simp
    cases fuel with
    | zero => omega
    | succ f =>
      rw [hdrop]
      generalize hc : body.getD k 0 = c at hnz hnc2 hdrop
      have hcc : body.getD (k + 1 - 1) 0 = c := by simpa using hc
      by_cases hdash : c = 45
      · have hrec := ih (k + 1) (d + 1) f (by omega)
          (by rw [hcc]; constructor <;> intro _ <;> omega)
          (by
            rw [hcc]
            have e : k + 1 - 2 = k - 1 := by omega
            rw [e]
            constructor
            · intro h
              have := h1.1 (by omega)
              exact ⟨by omega, hdash, this.2⟩
            · intro h
              have := h1.2 ⟨by omega, h.2.2⟩
              omega)
          (by omega)
        simp only [scan_comment_loop, TSLexer.lookahead, List.headD_cons, hdash,
          show ¬ ((45 : Nat) = 0) by decide, if_false, ch_dash, if_true, advance_cons]
        rw [← hrec, Nat.add_assoc]
      · have hrec := ih (k + 1) 0 f (by omega)
          (by rw [hcc]; constructor <;> intro h <;> omega)
          (by rw [hcc]; constructor <;> intro h <;> omega)
          (by omega)
        have hcond : (decide (c = 62) && decide (d ≥ 2)) = false := by
          by_cases h62 : c = 62
          · have : ¬ 2 ≤ d := fun hd => hnc2 ⟨h62, h2.1 hd⟩
            simp [this]
          · simp [h62]
        simp only [scan_comment_loop, TSLexer.lookahead, List.headD_cons, hnz, if_false, hdash,
          ch_dash, ch_gt, hcond, Bool.false_eq_true, advance_cons]
        rw [← hrec, Nat.add_assoc]

theorem scan_comment_loop_unclosed (body : List Nat) (p ts : Nat) (te : Option Nat)
    (rs : TokenType)
    (hnone : ∀ j, closes_comment_at body j = true → ∃ m, m < j ∧ body.getD m 0 = 0) :
    ∀ (fuel k d : Nat),
      (∀ m < k, body.getD m 0 ≠ 0) →
      (2 ≤ d ↔ 2 ≤ k ∧ body.getD (k - 1) 0 = 45 ∧ body.getD (k - 2) 0 = 45) →
      (1 ≤ d ↔ 1 ≤ k ∧ body.getD (k - 1) 0 = 45) →
      (scan_comment_loop fuel d (TSLexer.mk (body.drop k) (p + k) ts te rs)).1 = false := by
  intro fuel
  induction fuel with
  | zero => intro k d _ _ _; rfl
  | succ f ih =>
    intro k d hpast h2 h1
    by_cases hz : body.getD k 0 = 0
    · simp only [scan_comment_loop, TSLexer.lookahead, headD_drop_eq_getD, hz, if_true]
    · obtain ⟨hlen, hdrop⟩ := drop_of_getD_ne_zero body k hz
      have hpast2 : ∀ m < k + 1, body.getD m 0 ≠ 0 := by
        intro m hm
        by_cases hmk : m = k
        · rw [hmk]; exact hz
        · exact hpast m (by omega)
      have hnc2 : ¬ (body.getD k 0 = 62 ∧ 2 ≤ k ∧ body.getD (k - 1) 0 = 45 ∧
          body.getD (k - 2) 0 = 45) := by
        intro h
        obtain ⟨m, hm, hm0⟩ := hnone k ((closes_comment_at_iff body k).2 h)
        exact hpast m hm hm0
      rw [hdrop]
      generalize hc : body.getD k 0 = c at hz hnc2 hdrop
      have hcc : body.getD (k + 1 - 1) 0 = c := by simpa using hc
      have e : k + 1 - 2 = k - 1 := by omega
      by_cases hdash : c = 45
      · have hrec := ih (k + 1) (d + 1) hpast2
          (by
            rw [hcc, e]
            constructor
            · intro h
              have := h1.1 (by omega)
              exact ⟨by omega, hdash, this.2⟩
            · intro h
              have := h1.2 ⟨by omega, h.2.2⟩
              omega)
          (by rw [hcc]; constructor <;> intro _ <;> omega)
        simp only [scan_comment_loop, TSLexer.lookahead, List.headD_cons, hdash,
          show ¬ ((45 : Nat) = 0) by decide, if_false, ch_dash, if_true, advance_cons]
        rw [← hrec, Nat.add_assoc]
      · have hrec := ih (k + 1) 0 hpast2
          (by rw [hcc]; constructor <;> intro h <;> omega)
          (by rw [hcc]; constructor <;> intro h <;> omega)
        have hcond : (decide (c = 62) && decide (d ≥ 2)) = false := by
          by_cases h62 : c = 62
          · have : ¬ 2 ≤ d := fun hd => hnc2 ⟨h62, h2.1 hd⟩
            simp [this]
          · simp [h62]
        simp only [scan_comment_loop, TSLexer.lookahead, List.headD_cons, hz, if_false, hdash,
          ch_dash, ch_gt, hcond, Bool.false_eq_true, advance_cons]
        rw [← hrec, Nat.add_assoc]

theorem scan_comment_after_dashes (scanner : Scanner) (body : List Nat) (p ts : Nat)
    (te : Option Nat) (rs : TokenType) :
    scan_comment scanner (TSLexer.mk (ch '-' :: ch '-' :: body) p ts te rs) =
      ((scan_comment_loop (body.length + 1) 0 (TSLexer.mk body (p + 1 + 1) ts te rs)).1, scanner,
        (scan_comment_loop (body.length + 1) 0 (TSLexer.mk body (p + 1 + 1) ts te rs)).2) := by
  simp [scan_comment, TSLexer.lookahead, advance_cons]

/-- C20. The comment scan. The lexer is just after `<!`. If the input goes on with `--` and the
body after it closes first at position `j` (a `>` immediately preceded by two `-` of the body,
with no end of input before it), `scan_comment` returns true with the result symbol `COMMENT`
and the end marked immediately after that `>`. If the body closes nowhere before the lexer shows
the end of the input, or the input does not go on with `--`, it returns false. The tag stack is
never changed. `scanner_scan`, when raw-text mode is not active, passes `<!` and calls
`scan_comment` there. -/
theorem comment_scan (scanner : Scanner) (body : List Nat) (p ts : Nat) (te : Option Nat)
    (rs : TokenType) :
    (∀ j, closes_comment_at body j = true →
      (∀ m < j, closes_comment_at body m = false ∧ body.getD m 0 ≠ 0) →
      scan_comment scanner (TSLexer.mk (ch '-' :: ch '-' :: body) p ts te rs) =
        (true, scanner,
          TSLexer.mk (body.drop (j + 1)) (p + 2 + j + 1) ts (some (p + 2 + j + 1)) COMMENT)) ∧
    ((∀ j, closes_comment_at body j = true → ∃ m, m < j ∧ body.getD m 0 = 0) →
      (scan_comment scanner (TSLexer.mk (ch '-' :: ch '-' :: body) p ts te rs)).1 = false) ∧
    (∀ lexer : TSLexer, lexer.input.take 2 ≠ [ch '-', ch '-'] →
      (scan_comment scanner lexer).1 = false) ∧
    (∀ lexer : TSLexer, (scan_comment scanner lexer).2.1 = scanner) ∧
    (∀ (valid_symbols : TokenType → Bool) (rest : List Nat),
      (valid_symbols RAW_TEXT && !valid_symbols START_TAG_NAME
        && !valid_symbols END_TAG_NAME) = false →
      scanner_scan scanner (TSLexer.start (ch '<' :: ch '!' :: rest) rs) valid_symbols =
        scan_comment scanner (TSLexer.mk rest 2 0 (some 0) rs)) := by
  refine ⟨?_, ?_, ?_, ?_, ?_⟩
  · intro j hj hfirst
    have hrun := scan_comment_loop_closes body j (p + 2) ts te rs hj hfirst j 0 0
      (body.length + 1) (by omega) (by simp) (by simp) (by omega)
    rw [scan_comment_after_dashes]
    simp only [List.drop_zero, Nat.add_zero] at hrun
    rw [show p + 1 + 1 = p + 2 by omega, hrun]
  · intro hnone
    have hrun := scan_comment_loop_unclosed body (p + 2) ts te rs hnone (body.length + 1) 0 0
      (by intro m hm; omega) (by simp) (by simp)
    rw [scan_comment_after_dashes]
    simp only [List.drop_zero, Nat.add_zero] at hrun
    rw [show p + 1 + 1 = p + 2 by omega]
    exact hrun
  · intro lexer hne
    obtain ⟨input, q, ts2, te2, rs2⟩ := lexer
    match input, hne with
    | [], _ => simp [scan_comment, TSLexer.lookahead, ch_dash]
    | [a], _ =>
      by_cases ha : a = 45
      · simp [scan_comment, TSLexer.lookahead, ch_dash, ha, advance_cons]
      · simp [scan_comment, TSLexer.lookahead, ch_dash, ha]
    | a :: b :: tl, hne =>
      by_cases ha : a = 45
      · have hb : ¬ b = 45 := by
          intro hb
          apply hne
          simp [ha, hb, ch_dash]
        simp [scan_comment, TSLexer.lookahead, ch_dash, ha, hb, advance_cons]
      · simp [scan_comment, TSLexer.lookahead, ch_dash, ha]
  · intro lexer
    exact (scan_comment_result scanner lexer).1
  · intro valid_symbols rest hraw
    unfold scanner_scan
    rw [skip_whitespace_not_space _ _ (by rw [start_lookahead]; exact iswspace_lt)]
    simp only [hraw, start_lookahead, if_true, Bool.false_eq_true, if_false]
    simp [TSLexer.start, TSLexer.mark_end, advance_cons, TSLexer.lookahead]

/-- C20 at the input `-- a -->b` after `<!`: the body ` a -->b` closes first at position 5, and
the token ends at position `2 + 2 + 5 + 1`; on `<!-- a -->b` the call of `scanner_scan` gives the
`COMMENT` token from 0 to 10. -/
theorem comment_scan_witness :
    scan_comment scanner_new (TSLexer.mk (ch '-' :: ch '-' :: str " a -->b") 2 0 (some 0)
        TEXT_FRAGMENT) =
      (true, scanner_new,
        TSLexer.mk ((str " a -->b").drop (5 + 1)) (2 + 2 + 5 + 1) 0 (some (2 + 2 + 5 + 1))
          COMMENT) ∧
    scanner_scan scanner_new (TSLexer.start (str "<!-- a -->b") TEXT_FRAGMENT)
        (valid_only [COMMENT]) =
      (true, scanner_new, TSLexer.mk (str "b") 10 0 (some 10) COMMENT) :=
  ⟨(comment_scan scanner_new (str " a -->b") 2 0 (some 0) TEXT_FRAGMENT).1 5 (by decide)
    (by decide), by decide⟩

/-! ## Lemmas: one stack step per call -/

theorem stack_step_declined (s : Scanner) (rs : TokenType) (lexer : TSLexer) :
    stack_step s rs (false, s, lexer) :=
  Or.inl ⟨rfl, rfl⟩

theorem scan_raw_text_step (scanner : Scanner) (lexer : TSLexer) (rs : TokenType) :
    stack_step scanner rs (scan_raw_text scanner lexer) := by
  have h := scan_raw_text_result scanner lexer
  rcases Bool.eq_false_or_eq_true (scan_raw_text scanner lexer).1 with hb | hb
  · exact Or.inr (Or.inl ⟨hb, h.1, by rw [(h.2.2.1 hb).2]; simp⟩)
  · exact Or.inl ⟨hb, h.1⟩

theorem scan_comment_step (scanner : Scanner) (lexer : TSLexer) (rs : TokenType) :
    stack_step scanner rs (scan_comment scanner lexer) := by
  have h := scan_comment_result scanner lexer
  rcases Bool.eq_false_or_eq_true (scan_comment scanner lexer).1 with hb | hb
  · exact Or.inr (Or.inl ⟨hb, h.1, by rw [h.2.2 hb]; simp⟩)
  · exact Or.inl ⟨hb, h.1⟩

theorem scan_implicit_end_tag_step (scanner : Scanner) (lexer : TSLexer) (rs : TokenType) :
    stack_step scanner rs (scan_implicit_end_tag scanner lexer) := by
  have h := scan_implicit_end_tag_result scanner lexer
  rcases Bool.eq_false_or_eq_true (scan_implicit_end_tag scanner lexer).1 with hb | hb
  · obtain ⟨h1, h2, h3⟩ := h.2.1 hb
    exact Or.inr (Or.inr (Or.inl ⟨hb, h1, h2, by rw [h3]; simp⟩))
  · exact Or.inl ⟨hb, (h.2.2 hb).1⟩

theorem scan_start_tag_name_step (scanner : Scanner) (lexer : TSLexer) (rs : TokenType) :
    stack_step scanner rs (scan_start_tag_name scanner lexer) := by
  have h := scan_start_tag_name_result scanner lexer
  rcases Bool.eq_false_or_eq_true (scan_start_tag_name scanner lexer).1 with hb | hb
  · obtain ⟨h1, h2⟩ := h.2.1 hb
    refine Or.inr (Or.inr (Or.inr (Or.inl ⟨hb, h1, ?_⟩)))
    rcases h2 with h2 | h2 | h2 | h2 <;> rw [h2] <;> simp
  · exact Or.inl ⟨hb, h.2.2 hb⟩

theorem scan_end_tag_name_step (scanner : Scanner) (lexer : TSLexer) (rs : TokenType) :
    stack_step scanner rs (scan_end_tag_name scanner lexer) := by
  have h := scan_end_tag_name_result scanner lexer
  rcases Bool.eq_false_or_eq_true (scan_end_tag_name scanner lexer).1 with hb | hb
  · rcases h.2.1 hb with ⟨h1, h2, h3⟩ | ⟨h1, h2⟩
    · exact Or.inr (Or.inr (Or.inl ⟨hb, h2, h3, by rw [h1]; simp⟩))
    · exact Or.inr (Or.inl ⟨hb, h2, by rw [h1]; simp⟩)
  · exact Or.inl ⟨hb, h.2.2 hb⟩

theorem scan_self_closing_tag_delimiter_step (scanner : Scanner) (lexer : TSLexer) :
    stack_step scanner lexer.result_symbol (scan_self_closing_tag_delimiter scanner lexer) := by
  have h := scan_self_closing_tag_delimiter_result scanner lexer
  rcases Bool.eq_false_or_eq_true (scan_self_closing_tag_delimiter scanner lexer).1 with hb | hb
  · rcases h.2.1 hb with ⟨h1, h2, h3⟩ | ⟨h1, h2, h3⟩
    · exact Or.inr (Or.inr (Or.inl ⟨hb, h1, h2, by rw [h3]; simp⟩))
    · exact Or.inr (Or.inr (Or.inr (Or.inr ⟨hb, h1, h2, h3⟩)))
  · exact Or.inl ⟨hb, h.2.2 hb⟩

theorem scanner_scan_step (scanner : Scanner) (lexer : TSLexer)
    (valid_symbols : TokenType → Bool) :
    stack_step scanner lexer.result_symbol (scanner_scan scanner lexer valid_symbols) := by
  have hsym := skip_whitespace_symbol (lexer.input.length + 1) lexer
  unfold scanner_scan
  generalize skip_whitespace (lexer.input.length + 1) lexer = l at hsym ⊢
  simp only []
  split
  · exact scan_raw_text_step _ _ _
  · split
    · split
      · exact scan_comment_step _ _ _
      · split
        · exact scan_implicit_end_tag_step _ _ _
        · exact stack_step_declined _ _ _
    · split
      · split
        · exact scan_implicit_end_tag_step _ _ _
        · exact stack_step_declined _ _ _
      · split
        · split
          · rw [← hsym]
            exact scan_self_closing_tag_delimiter_step _ _
          · exact stack_step_declined _ _ _
        · split
          · split
            · exact scan_start_tag_name_step _ _ _
            · exact scan_end_tag_name_step _ _ _
          · exact stack_step_declined _ _ _

theorem text_loop_symbol (iv : Bool) : ∀ (fuel : Nat) (has_text : Bool) (lexer : TSLexer),
    (∀ h, (text_loop iv fuel has_text lexer).1 = TextLoopExit.broke h →
      (text_loop iv fuel has_text lexer).2.result_symbol = lexer.result_symbol) ∧
    (∀ h, (text_loop iv fuel has_text lexer).1 = TextLoopExit.returned h →
      (text_loop iv fuel has_text lexer).2.result_symbol = INTERPOLATION_TEXT) := by
  intro fuel
  induction fuel with
  | zero => intro has_text lexer; simp [text_loop]
  | succ f ih =>
    intro has_text lexer
    obtain ⟨input, p, ts, te, rs⟩ := lexer
    cases input with
    | nil => simp [text_loop, TSLexer.lookahead, TSLexer.mark_end]
    | cons c rest =>
      have e1 := ih true (TSLexer.mk rest (p + 1) ts (some p) rs)
      have e2 := ih true (TSLexer.mk rest (p + 1) ts te rs)
      simp only [text_loop, advance_cons, TSLexer.mark_end]
      split
      · simp
      · split
        · split
          · simp
          · exact e1
        · split
          · split
            · simp
            · exact e1
          · split
            · split
              · simp
              · exact e1
            · exact e2

theorem external_scan_step (scanner : Scanner) (lexer : TSLexer)
    (valid_symbols : TokenType → Bool) :
    stack_step scanner lexer.result_symbol
      (tree_sitter_vue_external_scanner_scan scanner lexer valid_symbols) := by
  unfold tree_sitter_vue_external_scanner_scan
  simp only []
  split
  · have hs := text_loop_symbol (valid_symbols INTERPOLATION_TEXT) (lexer.input.length + 1) false
      lexer
    rcases hr : text_loop (valid_symbols INTERPOLATION_TEXT) (lexer.input.length + 1) false lexer
      with ⟨exit, l⟩
    rw [hr] at hs
    cases exit with
    | returned has_text =>
      have h2 : l.result_symbol = INTERPOLATION_TEXT := hs.2 has_text rfl
      cases has_text with
      | false => exact Or.inl ⟨rfl, rfl⟩
      | true => exact Or.inr (Or.inl ⟨rfl, rfl, by simp [h2]⟩)
    | broke has_text =>
      have h1 : l.result_symbol = lexer.result_symbol := hs.1 has_text rfl
      cases has_text with
      | false =>
        simp only [Bool.false_eq_true, if_false]
        rw [← h1]
        exact scanner_scan_step scanner l valid_symbols
      | true => exact Or.inr (Or.inl ⟨rfl, rfl, by simp⟩)
  · exact scanner_scan_step scanner lexer valid_symbols

/-! ## C21: declining leaves the stack alone -/

theorem stack_step_false {s : Scanner} {rs : TokenType} {r : ScanResult}
    (h : stack_step s rs r) (hf : r.1 = false) : r.2.1 = s := by
  rcases h with h | h | h | h | h
  · exact h.2
  all_goals
    rw [h.1] at hf
    exact absurd hf (by decide)

/-- C21. Declining is side-effect free on the stack. For every stack, every lexer state and every
vector of valid symbols, a call of `tree_sitter_vue_external_scanner_scan` that returns false
leaves the scanner, and so the tag stack, as it was before the call; so does a call of
`scanner_scan` that returns false. -/
theorem declining_keeps_stack (scanner : Scanner) (lexer : TSLexer)
    (valid_symbols : TokenType → Bool) :
    ((tree_sitter_vue_external_scanner_scan scanner lexer valid_symbols).1 = false →
      (tree_sitter_vue_external_scanner_scan scanner lexer valid_symbols).2.1 = scanner ∧
      (tree_sitter_vue_external_scanner_scan scanner lexer valid_symbols).2.1.tags
        = scanner.tags) ∧
    ((scanner_scan scanner lexer valid_symbols).1 = false →
      (scanner_scan scanner lexer valid_symbols).2.1 = scanner ∧
      (scanner_scan scanner lexer valid_symbols).2.1.tags = scanner.tags) := by
  constructor
  · intro hf
    have h := stack_step_false (external_scan_step scanner lexer valid_symbols) hf
    exact ⟨h, by rw [h]⟩
  · intro hf
    have h := stack_step_false (scanner_scan_step scanner lexer valid_symbols) hf
    exact ⟨h, by rw [h]⟩

/-- C21 at two calls that decline: on the stack `[DIV]` the closing tag `</div>` with
implicit-end-tag valid (the name equals the top), and on the stack `[DIV, P]` the text `=x` with
start-tag-name valid (no tag name). -/
theorem declining_keeps_stack_witness :
    (tree_sitter_vue_external_scanner_scan { tags := [tag_make TagType.DIV] }
        (TSLexer.start (str "</div>") TEXT_FRAGMENT) (valid_only [IMPLICIT_END_TAG])).1 = false ∧
    (tree_sitter_vue_external_scanner_scan { tags := [tag_make TagType.DIV] }
        (TSLexer.start (str "</div>") TEXT_FRAGMENT) (valid_only [IMPLICIT_END_TAG])).2.1.tags
      = [tag_make TagType.DIV] ∧
    (scanner_scan { tags := [tag_make TagType.DIV, tag_make TagType.P] }
        (TSLexer.start (str "=x") TEXT_FRAGMENT) (valid_only [START_TAG_NAME])).2.1.tags
      = [tag_make TagType.DIV, tag_make TagType.P] :=
  ⟨by decide,
    ((declining_keeps_stack { tags := [tag_make TagType.DIV] }
      (TSLexer.start (str "</div>") TEXT_FRAGMENT) (valid_only [IMPLICIT_END_TAG])).1
        (by decide)).2,
    ((declining_keeps_stack { tags := [tag_make TagType.DIV, tag_make TagType.P] }
      (TSLexer.start (str "=x") TEXT_FRAGMENT) (valid_only [START_TAG_NAME])).2
        (by decide)).2⟩

/-! ## C22: one stack step per call -/

theorem dropLast_length_lt {s : List Tag} (h : s ≠ []) : s.dropLast.length + 1 = s.length := by
  rw [List.length_dropLast]
  have : 0 < s.length := List.length_pos.2 h
  omega

theorem stack_step_shape {s : Scanner} {rs : TokenType} {r : ScanResult}
    (h : stack_step s rs r) :
    r.2.1.tags = s.tags ∨ (s.tags ≠ [] ∧ r.2.1.tags = s.tags.dropLast) ∨
      ∃ tag, r.2.1.tags = s.tags ++ [tag] := by
  rcases h with h | h | h | h | h
  · exact Or.inl (by rw [h.2])
  · exact Or.inl (by rw [h.2.1])
  · exact Or.inr (Or.inl ⟨h.2.1, h.2.2.1⟩)
  · exact Or.inr (Or.inr h.2.1)
  · exact Or.inl (by rw [h.2.2.1])

theorem stack_step_push {s : Scanner} {rs : TokenType} {r : ScanResult}
    (h : stack_step s rs r) (hp : ∃ tag, r.2.1.tags = s.tags ++ [tag]) :
    r.1 = true ∧ r.2.2.result_symbol ∈ [START_TAG_NAME, TEMPLATE_START_TAG_NAME,
      SCRIPT_START_TAG_NAME, STYLE_START_TAG_NAME] := by
  obtain ⟨tag, hp⟩ := hp
  have hl : r.2.1.tags.length = s.tags.length + 1 := by rw [hp]; simp
  rcases h with h | h | h | h | h
  · rw [h.2] at hl; omega
  · rw [h.2.1] at hl; omega
  · have := dropLast_length_lt h.2.1
    rw [h.2.2.1] at hl
    omega
  · exact ⟨h.1, h.2.2⟩
  · rw [h.2.2.1] at hl; omega

theorem stack_step_pop {s : Scanner} {rs : TokenType} {r : ScanResult}
    (h : stack_step s rs r) (hne : s.tags ≠ []) (hp : r.2.1.tags = s.tags.dropLast) :
    r.1 = true ∧ r.2.2.result_symbol ∈ [END_TAG_NAME, IMPLICIT_END_TAG,
      SELF_CLOSING_TAG_DELIMITER] := by
  have hd := dropLast_length_lt hne
  have hl : r.2.1.tags.length + 1 = s.tags.length := by rw [hp]; exact hd
  rcases h with h | h | h | h | h
  · rw [h.2] at hl; omega
  · rw [h.2.1] at hl; omega
  · exact ⟨h.1, h.2.2.2⟩
  · obtain ⟨tag, ht⟩ := h.2.1
    rw [ht] at hl
    simp at hl
    omega
  · exact absurd h.2.1 hne

theorem stack_step_end_kind {s : Scanner} {rs : TokenType} {r : ScanResult}
    (h : stack_step s rs r) (h1 : rs ≠ IMPLICIT_END_TAG) (h2 : rs ≠ END_TAG_NAME)
    (ht : r.1 = true) (hk : r.2.2.result_symbol ∈ [IMPLICIT_END_TAG, END_TAG_NAME]) :
    s.tags ≠ [] ∧ r.2.1.tags = s.tags.dropLast ∧ r.2.1.tags.length + 1 = s.tags.length := by
  have hk2 : r.2.2.result_symbol = IMPLICIT_END_TAG ∨ r.2.2.result_symbol = END_TAG_NAME := by
    simpa using hk
  rcases h with h | h | h | h | h
  · rw [h.1] at ht
    exact absurd ht (by decide)
  · exfalso
    have hm := h.2.2
    rcases hk2 with hk2 | hk2 <;> rw [hk2] at hm <;> simp at hm
  · exact ⟨h.2.1, h.2.2.1, by rw [h.2.2.1]; exact dropLast_length_lt h.2.1⟩
  · exfalso
    have hm := h.2.2
    rcases hk2 with hk2 | hk2 <;> rw [hk2] at hm <;> simp at hm
  · exfalso
    rcases hk2 with hk2 | hk2
    · exact h1 (h.2.2.2.symm.trans hk2)
    · exact h2 (h.2.2.2.symm.trans hk2)

/-- The one call that returns true without setting the result symbol: on the empty stack `/>`
with self-closing-delimiter valid (the defect reported under C15). A lexer that held
`IMPLICIT_END_TAG` on entry comes back with it, the stack still empty; a lexer handed over with
the kind numbered 0 comes back with `TEXT_FRAGMENT`. -/
theorem entry_symbol_survives_on_empty_stack :
    scanner_scan { tags := [] } (TSLexer.start (str "/>") IMPLICIT_END_TAG)
        (valid_only [SELF_CLOSING_TAG_DELIMITER]) =
      (true, { tags := [] }, TSLexer.mk [] 2 0 none IMPLICIT_END_TAG) ∧
    scanner_scan { tags := [] } (TSLexer.start (str "/>") TEXT_FRAGMENT)
        (valid_only [SELF_CLOSING_TAG_DELIMITER, IMPLICIT_END_TAG, END_TAG_NAME]) =
      (true, { tags := [] }, TSLexer.mk [] 2 0 none TEXT_FRAGMENT) := by
  decide

/-- C22. One stack step per call. Let `r` be the result of one call of
`tree_sitter_vue_external_scanner_scan`, or of `scanner_scan`, on the stack `s`. The stack after
the call is `s`, or `s` without its top entry, or `s` with one entry added on top, so the entries
below the old top are as they were. If an entry was added, the call returned true with one of the
start-tag-name kinds; if the top was removed, it returned true with `END_TAG_NAME`,
`IMPLICIT_END_TAG` or `SELF_CLOSING_TAG_DELIMITER`. A call that returns true with the result
symbol `IMPLICIT_END_TAG` or `END_TAG_NAME` had a non-empty stack and leaves it one entry
shorter; here the lexer is taken not to hold one of these two kinds on entry (the host hands it
over with the kind numbered 0), since on the empty stack the `/>` of
`scan_self_closing_tag_delimiter` returns true with the result symbol as it was on entry. -/
theorem one_stack_step (scanner : Scanner) (lexer : TSLexer) (valid_symbols : TokenType → Bool)
    (r : ScanResult)
    (hr : r = tree_sitter_vue_external_scanner_scan scanner lexer valid_symbols ∨
      r = scanner_scan scanner lexer valid_symbols) :
    (r.2.1.tags = scanner.tags ∨ (scanner.tags ≠ [] ∧ r.2.1.tags = scanner.tags.dropLast) ∨
      ∃ tag, r.2.1.tags = scanner.tags ++ [tag]) ∧
    ((∃ tag, r.2.1.tags = scanner.tags ++ [tag]) →
      r.1 = true ∧ r.2.2.result_symbol ∈ [START_TAG_NAME, TEMPLATE_START_TAG_NAME,
        SCRIPT_START_TAG_NAME, STYLE_START_TAG_NAME]) ∧
    (scanner.tags ≠ [] → r.2.1.tags = scanner.tags.dropLast →
      r.1 = true ∧ r.2.2.result_symbol ∈ [END_TAG_NAME, IMPLICIT_END_TAG,
        SELF_CLOSING_TAG_DELIMITER]) ∧
    (lexer.result_symbol ≠ IMPLICIT_END_TAG → lexer.result_symbol ≠ END_TAG_NAME →
      r.1 = true → r.2.2.result_symbol ∈ [IMPLICIT_END_TAG, END_TAG_NAME] →
      scanner.tags ≠ [] ∧ r.2.1.tags = scanner.tags.dropLast ∧
        r.2.1.tags.length + 1 = scanner.tags.length) := by
  have h : stack_step scanner lexer.result_symbol r := by
    rcases hr with hr | hr
    · rw [hr]; exact external_scan_step scanner lexer valid_symbols
    · rw [hr]; exact scanner_scan_step scanner lexer valid_symbols
  exact ⟨stack_step_shape h, stack_step_push h, stack_step_pop h, stack_step_end_kind h⟩

/-- C22 at three calls on the stack `[DIV, P]`: `<div>` with implicit-end-tag valid returns
`IMPLICIT_END_TAG` and leaves `[DIV]`; `span>` with start-tag-name valid pushes one entry and
returns a start-tag-name kind; `some text<b>` with plain text valid leaves the stack as it
was. -/
theorem one_stack_step_witness :
    (([tag_make TagType.DIV, tag_make TagType.P] : List Tag) ≠ [] ∧
      (scanner_scan { tags := [tag_make TagType.DIV, tag_make TagType.P] }
        (TSLexer.start (str "<div>") TEXT_FRAGMENT) (valid_only [IMPLICIT_END_TAG])).2.1.tags
        = [tag_make TagType.DIV, tag_make TagType.P].dropLast ∧
      (scanner_scan { tags := [tag_make TagType.DIV, tag_make TagType.P] }
        (TSLexer.start (str "<div>") TEXT_FRAGMENT)
        (valid_only [IMPLICIT_END_TAG])).2.1.tags.length + 1
        = [tag_make TagType.DIV, tag_make TagType.P].length) ∧
    ((tree_sitter_vue_external_scanner_scan { tags := [tag_make TagType.DIV, tag_make TagType.P] }
        (TSLexer.start (str "span>") TEXT_FRAGMENT) (valid_only [START_TAG_NAME])).1 = true ∧
      (tree_sitter_vue_external_scanner_scan { tags := [tag_make TagType.DIV, tag_make TagType.P] }
        (TSLexer.start (str "span>") TEXT_FRAGMENT)
        (valid_only [START_TAG_NAME])).2.2.result_symbol ∈
        [START_TAG_NAME, TEMPLATE_START_TAG_NAME, SCRIPT_START_TAG_NAME,
          STYLE_START_TAG_NAME]) ∧
    (tree_sitter_vue_external_scanner_scan { tags := [tag_make TagType.DIV, tag_make TagType.P] }
        (TSLexer.start (str "some text<b>") TEXT_FRAGMENT) (valid_only [TEXT_FRAGMENT])).2.1.tags
      = [tag_make TagType.DIV, tag_make TagType.P] :=
  ⟨(one_stack_step { tags := [tag_make TagType.DIV, tag_make TagType.P] }
      (TSLexer.start (str "<div>") TEXT_FRAGMENT) (valid_only [IMPLICIT_END_TAG]) _
      (Or.inr rfl)).2.2.2 (by decide) (by decide) (by decide) (by decide),
    (one_stack_step { tags := [tag_make TagType.DIV, tag_make TagType.P] }
      (TSLexer.start (str "span>") TEXT_FRAGMENT) (valid_only [START_TAG_NAME]) _
      (Or.inl rfl)).2.1 ⟨tag_make TagType.SPAN, by decide⟩,
    by decide⟩

end Vue3Scanner
